import Mathlib

/-!
# libopenapi: index model, security objects, change reports and the resolver

A shallow embedding of parts of `libopenapi`:

* `index/index_model.go`: the index configuration presets and the forest of indexes;
* `datamodel/high/v3/operation.go`: the high-level `Operation` built from a low-level one;
* `datamodel/low/v2/security_requirement.go` and `datamodel/low/v3/security_scheme.go`:
  `Build`, `FindRequirement` and `Hash` of the security objects;
* `what-changed/model/example.go` and `operation.go`: the change counts of an example and
  `CompareOperations`;
* the reference resolver and the external document forest, which are not part of the sources
  and are modelled from the specification.

Conventions of the embedding.

* A Go `string` is a Lean `String`; Go orders strings by their bytes, which for UTF-8 text is
  the lexicographic order of the code points (`strLE`).
* A Go slice is the `List` of its elements; the nil slice is `[]` (the code embedded here only
  ranges over slices, appends to them and takes their length).
* A Go `map` is the list of its entries with pairwise distinct keys, listed in the order in
  which one `range` loop visits them (`GoMap`).  Go leaves that order unspecified, so a
  statement about "every iteration order" quantifies over the permutations of the entries.
* A `*yaml.Node` is a `Yaml.Node`, which carries the address it is stored at; a pointer that
  may be nil is an `Option`.
-/

/-! ## Go maps -/

/-- A Go map: its entries, in the order a `range` loop visits them. -/
abbrev GoMap (K V : Type) := List (K × V)

namespace GoMap

variable {K V : Type}

/-- The two-valued read `v, ok := m[k]`. -/
def get? [DecidableEq K] : GoMap K V → K → Option V
  | [], _ => none
  | (k', v) :: m, k => if k' = k then some v else get? m k

/-- The assignment `m[k] = v`: an existing key keeps its place, a new key gets a new entry. -/
def set [DecidableEq K] : GoMap K V → K → V → GoMap K V
  | [], k, v => [(k, v)]
  | (k', v') :: m, k, v => if k' = k then (k', v) :: m else (k', v') :: set m k v

/-- The keys, in iteration order. -/
def keys (m : GoMap K V) : List K := m.map Prod.fst

end GoMap

/-! ## yaml.v3 nodes -/

namespace Yaml

/-- A `yaml.Node` together with the address it lives at.  `Kind`, `Tag`, `Value`, `Content`,
`Line` and `Column` are the fields of `yaml.Node` that the embedded code reads; `Content` holds
the children (a document produced by the parser has no nil child). -/
inductive Node where
  | mk (addr : Nat) (Kind : Nat) (Tag : String) (Value : String) (Content : List Node)
      (Line : Nat) (Column : Nat)

namespace Node

/-- The address of the node: what a `*yaml.Node` is compared by. -/
def addr : Node → Nat
  | mk a _ _ _ _ _ _ => a

/-- Field `Kind`. -/
def Kind : Node → Nat
  | mk _ k _ _ _ _ _ => k

/-- Field `Tag`. -/
def Tag : Node → String
  | mk _ _ t _ _ _ _ => t

/-- Field `Value`. -/
def Value : Node → String
  | mk _ _ _ v _ _ _ => v

/-- Field `Content`. -/
def Content : Node → List Node
  | mk _ _ _ _ c _ _ => c

/-- Field `Line`. -/
def Line : Node → Nat
  | mk _ _ _ _ _ l _ => l

/-- Field `Column`. -/
def Column : Node → Nat
  | mk _ _ _ _ _ _ c => c

mutual
/-- Equality of nodes is decidable. -/
def decEq : (a b : Node) → Decidable (a = b)
  | mk a1 k1 t1 v1 c1 l1 n1, mk a2 k2 t2 v2 c2 l2 n2 =>
    if ha : a1 = a2 then
      if hk : k1 = k2 then
        if ht : t1 = t2 then
          if hv : v1 = v2 then
            if hl : l1 = l2 then
              if hn : n1 = n2 then
                match decEqList c1 c2 with
                | isTrue hc => isTrue (by rw [ha, hk, ht, hv, hl, hn, hc])
                | isFalse hc => isFalse (fun h => hc (by injection h))
              else isFalse (fun h => hn (by injection h))
            else isFalse (fun h => hl (by injection h))
          else isFalse (fun h => hv (by injection h))
        else isFalse (fun h => ht (by injection h))
      else isFalse (fun h => hk (by injection h))
    else isFalse (fun h => ha (by injection h))
/-- Equality of lists of nodes is decidable. -/
def decEqList : (a b : List Node) → Decidable (a = b)
  | [], [] => isTrue rfl
  | [], _ :: _ => isFalse (fun h => by cases h)
  | _ :: _, [] => isFalse (fun h => by cases h)
  | x :: xs, y :: ys =>
    match decEq x y with
    | isTrue hx =>
      match decEqList xs ys with
      | isTrue hs => isTrue (by rw [hx, hs])
      | isFalse hs => isFalse (fun h => hs (by injection h))
    | isFalse hx => isFalse (fun h => hx (by injection h))
end

instance : DecidableEq Node := decEq

end Node

end Yaml

/-! ## datamodel/low: references -/

namespace Low

open Yaml

/-- `low.KeyReference[T]`: a key with the node it was read from.  As a Go map key it is
compared by `Value` and by the pointer `KeyNode`. -/
structure KeyReference (T : Type) where
  Value : T
  KeyNode : Option Node
deriving DecidableEq

/-- `low.ValueReference[T]`: a value with the node it was read from. -/
structure ValueReference (T : Type) where
  Value : T
  ValueNode : Option Node
deriving DecidableEq

/-- `low.NodeReference[T]`: a value with its key node and its value node. -/
structure NodeReference (T : Type) where
  Value : T
  ValueNode : Option Node
  KeyNode : Option Node

/-- Modelled from the spec: `NodeReference.IsEmpty` is declared in `datamodel/low/reference.go`,
which is not part of the sources; a reference is empty when it carries neither a key node nor a
value node. -/
def NodeReference.IsEmpty {T : Type} (n : NodeReference T) : Bool :=
  n.KeyNode.isNone && n.ValueNode.isNone

end Low

/-! ## index/index_model.go -/

namespace Index

/-- `SpecIndexConfig`.  `BaseURL` is nil or a URL (its text); `seenRemoteSources` is nil or a
`syncmap.Map` (its keys); `remoteLock` is nil or a mutex. -/
structure SpecIndexConfig where
  BaseURL : Option String
  BasePath : String
  AllowRemoteLookup : Bool
  AllowFileLookup : Bool
  seenRemoteSources : Option (List String)
  remoteLock : Option Unit
deriving DecidableEq

/-- `CreateOpenAPIIndexConfig`; `cw` is what `os.Getwd()` returns. -/
def CreateOpenAPIIndexConfig (cw : String) : SpecIndexConfig :=
  { BaseURL := none
    BasePath := cw
    AllowRemoteLookup := true
    AllowFileLookup := true
    seenRemoteSources := some []
    remoteLock := none }

/-- `CreateClosedAPIIndexConfig`; `cw` is what `os.Getwd()` returns. -/
def CreateClosedAPIIndexConfig (cw : String) : SpecIndexConfig :=
  { BaseURL := none
    BasePath := cw
    AllowRemoteLookup := false
    AllowFileLookup := false
    seenRemoteSources := some []
    remoteLock := none }

/-- `SpecIndex`, with the fields of the forest of indexes: the address of the index, its
`relativePath`, its `config`, `allowCircularReferences` and its `children`.  `AddChild` and
`GetChildren` touch no other field. -/
inductive SpecIndex where
  | mk (addr : Nat) (relativePath : String) (config : Option SpecIndexConfig)
      (allowCircularReferences : Bool) (children : List SpecIndex)

namespace SpecIndex

/-- Field `children`. -/
def children : SpecIndex → List SpecIndex
  | mk _ _ _ _ cs => cs

/-- `AddChild`: `index.children = append(index.children, child)`.  The child is recorded as the
value it has at the call; the sharing of the Go pointers (an index added to itself, or changed
after it was added) is what `Index.Forest` models. -/
def AddChild : SpecIndex → SpecIndex → SpecIndex
  | mk a p c f cs, child => mk a p c f (cs ++ [child])

/-- `GetChildren`. -/
def GetChildren (index : SpecIndex) : List SpecIndex := index.children

end SpecIndex

end Index

/-! ## Go library functions used by the hashes -/

namespace Go

/-- The order of Go strings: lexicographic on the bytes, which for UTF-8 text is the
lexicographic order of the code points. -/
def strLE (a b : String) : Prop := a.toList ≤ b.toList

instance strLE.decidable : DecidableRel strLE := fun a b =>
  inferInstanceAs (Decidable (a.toList ≤ b.toList))

instance strLE.isTotal : IsTotal String strLE := ⟨fun a b => le_total a.toList b.toList⟩

instance strLE.isTrans : IsTrans String strLE :=
  ⟨fun _ _ _ hab hbc => le_trans (α := List Char) hab hbc⟩

instance strLE.isAntisymm : IsAntisymm String strLE :=
  ⟨fun _ _ hab hba => String.ext (le_antisymm (α := List Char) hab hba)⟩

/-- `sort.Strings`: the strings in increasing order. -/
def sortStrings (l : List String) : List String := l.insertionSort strLE

/-- `strings.Join(elems, sep)`. -/
def Join (elems : List String) (sep : String) : String := sep.intercalate elems

/-- `fmt.Sprintf("%s-%s", a, b)`; also `fmt.Sprintf("%s-%v", a, v)` with `b` the text of `v`. -/
def SprintfDash (a b : String) : String := a ++ "-" ++ b

/-- The UTF-8 bytes of one code point. -/
def utf8Char (c : Nat) : List Nat :=
  if c < 128 then [c]
  else if c < 2048 then [192 + c / 64, 128 + c % 64]
  else if c < 65536 then [224 + c / 4096, 128 + c / 64 % 64, 128 + c % 64]
  else [240 + c / 262144, 128 + c / 4096 % 64, 128 + c / 64 % 64, 128 + c % 64]

/-- The conversion `[]byte(s)`: the UTF-8 bytes of a string. -/
def bytes (s : String) : List Nat := (s.toList.map (fun c => utf8Char c.toNat)).flatten

end Go

/-! ## crypto/sha256 (FIPS 180-4) on 32-bit words held in `Nat` -/

namespace Sha256

/-- The round constants. -/
def K : List Nat := [
  0x428a2f98, 0x71374491, 0xb5c0fbcf, 0xe9b5dba5, 0x3956c25b, 0x59f111f1, 0x923f82a4, 0xab1c5ed5,
  0xd807aa98, 0x12835b01, 0x243185be, 0x550c7dc3, 0x72be5d74, 0x80deb1fe, 0x9bdc06a7, 0xc19bf174,
  0xe49b69c1, 0xefbe4786, 0x0fc19dc6, 0x240ca1cc, 0x2de92c6f, 0x4a7484aa, 0x5cb0a9dc, 0x76f988da,
  0x983e5152, 0xa831c66d, 0xb00327c8, 0xbf597fc7, 0xc6e00bf3, 0xd5a79147, 0x06ca6351, 0x14292967,
  0x27b70a85, 0x2e1b2138, 0x4d2c6dfc, 0x53380d13, 0x650a7354, 0x766a0abb, 0x81c2c92e, 0x92722c85,
  0xa2bfe8a1, 0xa81a664b, 0xc24b8b70, 0xc76c51a3, 0xd192e819, 0xd6990624, 0xf40e3585, 0x106aa070,
  0x19a4c116, 0x1e376c08, 0x2748774c, 0x34b0bcb5, 0x391c0cb3, 0x4ed8aa4a, 0x5b9cca4f, 0x682e6ff3,
  0x748f82ee, 0x78a5636f, 0x84c87814, 0x8cc70208, 0x90befffa, 0xa4506ceb, 0xbef9a3f7, 0xc67178f2]

/-- The initial hash value. -/
def H0 : List Nat :=
  [0x6a09e667, 0xbb67ae85, 0x3c6ef372, 0xa54ff53a, 0x510e527f, 0x9b05688c, 0x1f83d9ab, 0x5be0cd19]

/-- Reduction to a 32-bit word. -/
def w32 (x : Nat) : Nat := x % 4294967296

/-- Rotation of a 32-bit word to the right. -/
def rotr (n x : Nat) : Nat := w32 ((x >>> n) ||| (x <<< (32 - n)))

/-- Function Σ0. -/
def bsig0 (x : Nat) : Nat := rotr 2 x ^^^ rotr 13 x ^^^ rotr 22 x

/-- Function Σ1. -/
def bsig1 (x : Nat) : Nat := rotr 6 x ^^^ rotr 11 x ^^^ rotr 25 x

/-- Function σ0. -/
def ssig0 (x : Nat) : Nat := rotr 7 x ^^^ rotr 18 x ^^^ (x >>> 3)

/-- Function σ1. -/
def ssig1 (x : Nat) : Nat := rotr 17 x ^^^ rotr 19 x ^^^ (x >>> 10)

/-- Function Ch. -/
def ch (x y z : Nat) : Nat := (x &&& y) ^^^ ((4294967295 - x) &&& z)

/-- Function Maj. -/
def maj (x y z : Nat) : Nat := (x &&& y) ^^^ (x &&& z) ^^^ (y &&& z)

/-- Bytes to big-endian 32-bit words. -/
def be32 : List Nat → List Nat
  | a :: b :: c :: d :: rest => (a * 16777216 + b * 65536 + c * 256 + d) :: be32 rest
  | _ => []

/-- The padded message: a one bit, zeros up to 56 modulo 64 bytes, the bit length on 8 bytes. -/
def pad (msg : List Nat) : List Nat :=
  msg ++ [128] ++ List.replicate ((119 - msg.length % 64) % 64) 0 ++
    (List.range 8).map (fun i => ((8 * msg.length) >>> (8 * (7 - i))) % 256)

/-- The message schedule, most recent word first: `n` more words after those of `rev`. -/
def expand : Nat → List Nat → List Nat
  | 0, rev => rev
  | n + 1, rev =>
    expand n (w32 (ssig1 (rev.getD 1 0) + rev.getD 6 0 + ssig0 (rev.getD 14 0) + rev.getD 15 0)
      :: rev)

/-- The 64 words of the message schedule of a block of 16 words. -/
def schedule (block : List Nat) : List Nat := (expand 48 block.reverse).reverse

/-- One round on the working variables `a..h`, with the round constant and schedule word. -/
def round (s : List Nat) (kw : Nat × Nat) : List Nat :=
  match s with
  | [a, b, c, d, e, f, g, h] =>
    [w32 (w32 (h + bsig1 e + ch e f g + kw.1 + kw.2) + w32 (bsig0 a + maj a b c)), a, b, c,
      w32 (d + w32 (h + bsig1 e + ch e f g + kw.1 + kw.2)), e, f, g]
  | _ => s

/-- The compression of one block into the hash value. -/
def compress (h : List Nat) (block : List Nat) : List Nat :=
  List.zipWith (fun x y => w32 (x + y)) h ((K.zip (schedule block)).foldl round h)

/-- The first `n` blocks of 16 words. -/
def blocks : Nat → List Nat → List (List Nat)
  | 0, _ => []
  | n + 1, ws => ws.take 16 :: blocks n (ws.drop 16)

/-- The four bytes of a 32-bit word, most significant first. -/
def wordBytes (w : Nat) : List Nat := [w / 16777216 % 256, w / 65536 % 256, w / 256 % 256, w % 256]

/-- `sha256.Sum256`: the 32 bytes of the digest of a byte string. -/
def Sum256 (msg : List Nat) : List Nat :=
  (((blocks ((be32 (pad msg)).length / 16) (be32 (pad msg))).foldl compress H0).map
    wordBytes).flatten

end Sha256

/-! ## datamodel/low/v2/security_requirement.go -/

namespace LowV2

open Yaml Low

/-- The scopes of one scheme: `[]low.ValueReference[string]`. -/
abbrev Scopes := List (ValueReference String)

/-- The map of a requirement: scheme name (with its key node) to scopes (with their node). -/
abbrev ValueMap := GoMap (KeyReference String) (ValueReference Scopes)

/-- `v2.SecurityRequirement`. -/
structure SecurityRequirement where
  Values : ValueReference ValueMap
deriving DecidableEq

/-- The variables of the loop of `Build`. -/
structure BuildState where
  labelNode : Option Node
  valueMap : ValueMap
  arr : Scopes

/-- The scopes appended for the children of a value node (the loop over `j`). -/
def scopesOf (n : Node) : Scopes :=
  n.Content.map (fun c => { Value := c.Value, ValueNode := some c })

/-- The loop `for i := range root.Content` of `Build`, from index `i` on, over the remaining
children.  The result is `none` when `labelNode` is dereferenced while nil. -/
def buildLoop : List Node → Nat → BuildState → Option BuildState
  | [], _, st => some st
  | n :: rest, i, st =>
    if i % 2 = 0 then
      buildLoop rest (i + 1) { st with labelNode := some n, arr := [] }
    else
      match st.labelNode with
      | none => none
      | some l =>
        buildLoop rest (i + 1)
          { st with
            arr := st.arr ++ scopesOf n
            valueMap := st.valueMap.set { Value := l.Value, KeyNode := some l }
              { Value := st.arr ++ scopesOf n, ValueNode := some n } }

/-- `SecurityRequirement.Build`: the requirement after the call and the error returned
(`none` is the nil error); the outer `none` is a run-time panic. -/
def SecurityRequirement.Build (_s : SecurityRequirement) (root : Node) :
    Option (SecurityRequirement × Option String) :=
  match buildLoop root.Content 0 { labelNode := none, valueMap := [], arr := [] } with
  | none => none
  | some st => some ({ Values := { Value := st.valueMap, ValueNode := some root } }, none)

/-- The scope strings of an entry, sorted: `vals` after `sort.Strings(vals)`. -/
def sortedVals (v : ValueReference Scopes) : List String :=
  Go.sortStrings (v.Value.map (fun y => y.Value))

/-- One pass of the loop `for k := range m` of `Hash` over the map `m`, at key `k`: reads
`m[k]`, appends the name to `valKeys` and stores the sorted scopes when there are any. -/
def hashStep (m : ValueMap) (acc : GoMap String (List String) × List String)
    (k : KeyReference String) : GoMap String (List String) × List String :=
  let vals := sortedVals ((m.get? k).getD { Value := [], ValueNode := none })
  (if vals.length > 0 then acc.1.set k.Value vals else acc.1, acc.2 ++ [k.Value])

/-- The strings appended to `f` for one map: after the loop over the keys, one string
`name-scope|scope|...` for every entry of the sorted `valKeys`. -/
def hashParts (m : ValueMap) : List String :=
  let acc := m.keys.foldl (hashStep m) ([], [])
  (Go.sortStrings acc.2).map
    (fun name => Go.SprintfDash name (Go.Join ((acc.1.get? name).getD []) "|"))

/-- `SecurityRequirement.Hash`, with the entries of `s.Values.Value` visited in the order of
the list. -/
def SecurityRequirement.Hash (s : SecurityRequirement) : List Nat :=
  Sha256.Sum256 (Go.bytes (Go.Join (hashParts s.Values.Value) "|"))

end LowV2

/-! ## datamodel/low/v3/security_scheme.go -/

namespace LowV3

open Yaml Low

/-- Modelled from the spec: `utils.IsNodeArray` is declared in package `utils`, which is not
part of the sources; a node with ordered children that is a sequence carries the tag `!!seq`. -/
def IsNodeArray (node : Option Node) : Bool :=
  match node with
  | none => false
  | some n => n.Tag == "!!seq"

/-- Modelled from the spec: `utils.IsNodeMap` is declared in package `utils`, which is not
part of the sources; a node that is a mapping carries the tag `!!map`. -/
def IsNodeMap (node : Option Node) : Bool :=
  match node with
  | none => false
  | some n => n.Tag == "!!map"

/-- `v3.SecurityScheme`.  `F` is the type of `*OAuthFlows` and `A` the type of the extension
values (`any`), both declared outside the sources.  Field `Type` is `Type_` here. -/
structure SecurityScheme (F A : Type) where
  Type_ : NodeReference String
  Description : NodeReference String
  Name : NodeReference String
  In : NodeReference String
  Scheme : NodeReference String
  BearerFormat : NodeReference String
  Flows : NodeReference F
  OpenIdConnectUrl : NodeReference String
  Extensions : GoMap (KeyReference String) (ValueReference A)

/-- The statement `if !r.IsEmpty() { f = append(f, text) }`. -/
def appendUnlessEmpty {T : Type} (f : List String) (r : NodeReference T) (text : String) :
    List String :=
  if !r.IsEmpty then f ++ [text] else f

/-- The strings `f` that `SecurityScheme.Hash` joins and hashes.  `GenerateHashString` is
`low.GenerateHashString` and `fmtV` the text `%v` prints for an extension value; the entries
of `ss.Extensions` are visited in the order of the list. -/
def SecurityScheme.hashFields {F A : Type} (GenerateHashString : F → String)
    (fmtV : A → String) (ss : SecurityScheme F A) : List String :=
  let f : List String := []
  let f := appendUnlessEmpty f ss.Type_ ss.Type_.Value
  let f := appendUnlessEmpty f ss.Description ss.Description.Value
  let f := appendUnlessEmpty f ss.Name ss.Name.Value
  let f := appendUnlessEmpty f ss.In ss.In.Value
  let f := appendUnlessEmpty f ss.Scheme ss.Scheme.Value
  let f := appendUnlessEmpty f ss.BearerFormat ss.BearerFormat.Value
  let f := appendUnlessEmpty f ss.Flows (GenerateHashString ss.Flows.Value)
  let f := appendUnlessEmpty f ss.OpenIdConnectUrl ss.OpenIdConnectUrl.Value
  ss.Extensions.keys.foldl
    (fun f k => f ++ [Go.SprintfDash k.Value
      (match ss.Extensions.get? k with
        | some v => fmtV v.Value
        | none => "<nil>")]) f

/-- `SecurityScheme.Hash`. -/
def SecurityScheme.Hash {F A : Type} (GenerateHashString : F → String)
    (fmtV : A → String) (ss : SecurityScheme F A) : List Nat :=
  Sha256.Sum256 (Go.bytes (Go.Join (ss.hashFields GenerateHashString fmtV) "|"))

/-- `v3.SecurityRequirement`. -/
structure SecurityRequirement where
  ValueRequirements : List (ValueReference LowV2.ValueMap)
deriving DecidableEq

/-- The inner loop `for k, v := range r.Value` of `FindRequirement`: the scopes of the first
visited key named `name`, if any. -/
def findInMap (name : String) : LowV2.ValueMap → Option LowV2.Scopes
  | [] => none
  | (k, v) :: m => if k.Value = name then some v.Value else findInMap name m

/-- The outer loop of `FindRequirement`; `[]` is the final `return nil`. -/
def findInList (name : String) : List (ValueReference LowV2.ValueMap) → LowV2.Scopes
  | [] => []
  | r :: rs =>
    match findInMap name r.Value with
    | some scopes => scopes
    | none => findInList name rs

/-- `SecurityRequirement.FindRequirement`. -/
def SecurityRequirement.FindRequirement (sr : SecurityRequirement) (name : String) :
    LowV2.Scopes :=
  findInList name sr.ValueRequirements

/-- The loop `for i, r := range n.Content` of `Build` over the remaining children, from index
`i` on, on the variables `currSec` and `dat`. -/
def itemLoop : List Node → Nat → Option Node × LowV2.Scopes → Option Node × LowV2.Scopes
  | [], _, st => st
  | r :: rest, i, st =>
    if i % 2 = 0 then
      itemLoop rest (i + 1) (some r, st.2)
    else if IsNodeArray (some r) then
      itemLoop rest (i + 1) (st.1, LowV2.scopesOf r)
    else
      itemLoop rest (i + 1) st

/-- The body of the loop `for _, n := range root.Content` of `Build`. -/
def buildItem (requirements : List (ValueReference LowV2.ValueMap)) (n : Node) :
    List (ValueReference LowV2.ValueMap) :=
  if IsNodeMap (some n) then
    match itemLoop n.Content 0 (none, []) with
    | (some currSec, dat) =>
      requirements ++
        [{ Value := GoMap.set [] { Value := currSec.Value, KeyNode := some currSec }
              { Value := dat, ValueNode := some currSec }
           ValueNode := some n }]
    | (none, _) => requirements
  else requirements

/-- `SecurityRequirement.Build`: the requirement after the call and the error returned
(`none` is the nil error). -/
def SecurityRequirement.Build (sr : SecurityRequirement) (root : Node) :
    SecurityRequirement × Option String :=
  if IsNodeArray (some root) then
    ({ ValueRequirements := root.Content.foldl buildItem [] }, none)
  else (sr, none)

/-- `SecurityRequirement.Hash`, with the entries of every map visited in the order of its
list. -/
def SecurityRequirement.Hash (sr : SecurityRequirement) : List Nat :=
  Sha256.Sum256 (Go.bytes (Go.Join
    (sr.ValueRequirements.foldl (fun f r => f ++ LowV2.hashParts r.Value) []) "|"))

end LowV3

/-! ## datamodel/high/v3/operation.go -/

namespace HighV3

open Low

/-- A non-nil pointer `*T`: the address and the value stored there. -/
structure Ref (T : Type) where
  addr : Nat
  val : T

/-- An interface value (`any`) whose dynamic type is `T`, holding `val`. -/
structure Untyped (T : Type) where
  val : T

/-- The object types that `operation.go` uses and that are declared outside the sources: the
low-level objects (as the pointers the low-level `Operation` holds), the extension values, and
the high-level objects the constructors return. -/
structure Objects where
  LowExternalDoc : Type
  LowParameter : Type
  LowRequestBody : Type
  LowResponses : Type
  LowCallback : Type
  LowSecurityRequirement : Type
  LowServer : Type
  LowAny : Type
  ExternalDoc : Type
  Parameter : Type
  RequestBody : Type
  Responses : Type
  Callback : Type
  SecurityRequirement : Type
  Server : Type
  Any : Type

/-- Modelled from the spec: the declaration of the low-level `Operation` (package
`datamodel/low/v3`) is not part of the sources; these are the fields `NewOperation` reads, with
the types its statements give them. -/
structure LowOperation (T : Objects) where
  Tags : NodeReference (List (ValueReference String))
  Summary : NodeReference String
  Description : NodeReference String
  ExternalDocs : NodeReference T.LowExternalDoc
  OperationId : NodeReference String
  Parameters : NodeReference (List (ValueReference T.LowParameter))
  RequestBody : NodeReference T.LowRequestBody
  Responses : NodeReference T.LowResponses
  Callbacks : NodeReference (GoMap (KeyReference String) (ValueReference T.LowCallback))
  Deprecated : NodeReference Bool
  Security : NodeReference (List (ValueReference T.LowSecurityRequirement))
  Servers : NodeReference (List (ValueReference T.LowServer))
  Extensions : GoMap (KeyReference String) (ValueReference T.LowAny)

/-- The functions `NewOperation` calls that are declared outside the sources. -/
structure Constructors (T : Objects) where
  NewExternalDoc : T.LowExternalDoc → T.ExternalDoc
  NewParameter : T.LowParameter → T.Parameter
  NewRequestBody : T.LowRequestBody → T.RequestBody
  NewResponses : T.LowResponses → T.Responses
  NewCallback : T.LowCallback → T.Callback
  NewSecurityRequirement : T.LowSecurityRequirement → T.SecurityRequirement
  NewServer : T.LowServer → T.Server
  ExtractExtensions : GoMap (KeyReference String) (ValueReference T.LowAny) → GoMap String T.Any

/-- The high-level `Operation`.  A pointer field is `none` while it is nil; a nil slice or map
is `[]`. -/
structure Operation (T : Objects) where
  Tags : List String
  Summary : String
  Description : String
  ExternalDocs : Option T.ExternalDoc
  OperationId : String
  Parameters : List T.Parameter
  RequestBody : Option T.RequestBody
  Responses : Option T.Responses
  Callbacks : GoMap String T.Callback
  Deprecated : Option Bool
  Security : List T.SecurityRequirement
  Servers : List T.Server
  Extensions : GoMap String T.Any
  low : Option (Ref (LowOperation T))

/-- `NewOperation`, on a non-nil `operation`. -/
def NewOperation {T : Objects} (C : Constructors T) (operation : Ref (LowOperation T)) :
    Operation T :=
  { low := some operation
    Tags :=
      if !operation.val.Tags.IsEmpty then operation.val.Tags.Value.map (fun t => t.Value)
      else []
    Summary := operation.val.Summary.Value
    Deprecated := some operation.val.Deprecated.Value
    Description := operation.val.Description.Value
    ExternalDocs :=
      if !operation.val.ExternalDocs.IsEmpty then
        some (C.NewExternalDoc operation.val.ExternalDocs.Value)
      else none
    OperationId := operation.val.OperationId.Value
    Parameters :=
      if !operation.val.Parameters.IsEmpty then
        operation.val.Parameters.Value.map (fun p => C.NewParameter p.Value)
      else []
    RequestBody :=
      if !operation.val.RequestBody.IsEmpty then
        some (C.NewRequestBody operation.val.RequestBody.Value)
      else none
    Responses :=
      if !operation.val.Responses.IsEmpty then
        some (C.NewResponses operation.val.Responses.Value)
      else none
    Security :=
      if !operation.val.Security.IsEmpty then
        operation.val.Security.Value.map (fun s => C.NewSecurityRequirement s.Value)
      else []
    Servers := operation.val.Servers.Value.map (fun s => C.NewServer s.Value)
    Extensions := C.ExtractExtensions operation.val.Extensions
    Callbacks :=
      if !operation.val.Callbacks.IsEmpty then
        operation.val.Callbacks.Value.foldl
          (fun cbs kv => cbs.set kv.1.Value (C.NewCallback kv.2.Value)) []
      else [] }

/-- `Operation.GoLow`. -/
def Operation.GoLow {T : Objects} (o : Operation T) : Option (Ref (LowOperation T)) := o.low

/-- `Operation.GoLowUntyped`. -/
def Operation.GoLowUntyped {T : Objects} (o : Operation T) :
    Untyped (Option (Ref (LowOperation T))) :=
  { val := o.low }

end HighV3

/-! ## Concrete documents -/

namespace Examples

open Yaml Low

/-- A scalar node holding a string. -/
def scalar (addr : Nat) (value : String) (line column : Nat) : Node :=
  Node.mk addr 8 "!!str" value [] line column

/-- A sequence node. -/
def seq (addr : Nat) (content : List Node) (line column : Nat) : Node :=
  Node.mk addr 2 "!!seq" "" content line column

/-- A mapping node. -/
def mapping (addr : Nat) (content : List Node) (line column : Nat) : Node :=
  Node.mk addr 4 "!!map" "" content line column

/-- The key `a` of the item of `twoSchemes`. -/
def keyA : Node := scalar 3 "a" 1 3

/-- The key `b` of the item of `twoSchemes`. -/
def keyB : Node := scalar 6 "b" 2 3

/-- The scope `x` of scheme `a`. -/
def scopeX : Node := scalar 5 "x" 1 7

/-- The scope `y` of scheme `b`. -/
def scopeY : Node := scalar 8 "y" 2 7

/-- The value `[x]` of the key `a`. -/
def valueX : Node := seq 4 [scopeX] 1 6

/-- The value `[y]` of the key `b`. -/
def valueY : Node := seq 7 [scopeY] 2 6

/-- The mapping `{a: [x], b: [y]}`: one requirement that declares two schemes. -/
def itemAB : Node := mapping 2 [keyA, valueX, keyB, valueY] 1 3

/-- The key/value pairs of `itemAB`. -/
def pairsAB : List (Node × Node) := [(keyA, valueX), (keyB, valueY)]

/-- The document
```
- a: [x]
  b: [y]
```
a list of one security requirement that declares the schemes `a` and `b`. -/
def twoSchemes : Node := seq 1 [itemAB] 1 1

/-- The value `[x]` of the first key of `sameNameTwice`. -/
def seqX : Node := seq 4 [scalar 5 "x" 1 5] 1 4

/-- The value `[y]` of the second key of `sameNameTwice`. -/
def seqY : Node := seq 7 [scalar 8 "y" 2 5] 2 4

/-- The first key `a` of `sameNameTwice`. -/
def firstA : Node := scalar 3 "a" 1 1

/-- The second key `a` of `sameNameTwice`, one line below the first. -/
def secondA : Node := scalar 6 "a" 2 1

/-- The mapping
```
a: [x]
a: [y]
```
in which the scheme name `a` is written twice. -/
def sameNameTwice : Node := mapping 2 [firstA, seqX, secondA, seqY] 1 1

/-- The map v2 `Build` makes of `sameNameTwice`: two keys named `a`, with different key
nodes. -/
def sameNameTwiceMap : LowV2.ValueMap :=
  [({ Value := "a", KeyNode := some firstA },
    { Value := [{ Value := "x", ValueNode := some (scalar 5 "x" 1 5) }], ValueNode := some seqX }),
   ({ Value := "a", KeyNode := some secondA },
    { Value := [{ Value := "y", ValueNode := some (scalar 8 "y" 2 5) }], ValueNode := some seqY })]

/-- The same entries as `sameNameTwiceMap`, visited in the other order. -/
def sameNameTwiceMapSwapped : LowV2.ValueMap :=
  [({ Value := "a", KeyNode := some secondA },
    { Value := [{ Value := "y", ValueNode := some (scalar 8 "y" 2 5) }], ValueNode := some seqY }),
   ({ Value := "a", KeyNode := some firstA },
    { Value := [{ Value := "x", ValueNode := some (scalar 5 "x" 1 5) }], ValueNode := some seqX })]

/-- A map with the schemes `a`, scopes `x, y`, and `b`, no scope, read from a document. -/
def scopesXY : LowV2.ValueMap :=
  [({ Value := "a", KeyNode := some keyA },
    { Value := [{ Value := "x", ValueNode := some scopeX }, { Value := "y", ValueNode := some scopeY }]
      ValueNode := some seqX }),
   ({ Value := "b", KeyNode := some keyB }, { Value := [], ValueNode := some seqY })]

/-- A map with the schemes `b`, no scope, and `a`, scopes `y, x`, carrying no node. -/
def scopesYX : LowV2.ValueMap :=
  [({ Value := "b", KeyNode := none }, { Value := [], ValueNode := none }),
   ({ Value := "a", KeyNode := none },
    { Value := [{ Value := "y", ValueNode := none }, { Value := "x", ValueNode := none }]
      ValueNode := none })]

/-- The requirement `{b: [y]}`. -/
def requirementB : ValueReference LowV2.ValueMap :=
  { Value := [({ Value := "b", KeyNode := some keyB },
      { Value := [{ Value := "y", ValueNode := some scopeY }], ValueNode := some keyB })]
    ValueNode := none }

/-- The requirement `{a: [x], b: []}`. -/
def requirementAB : ValueReference LowV2.ValueMap :=
  { Value := [({ Value := "a", KeyNode := some keyA },
      { Value := [{ Value := "x", ValueNode := some scopeX }], ValueNode := some keyA }),
      ({ Value := "b", KeyNode := some secondA }, { Value := [], ValueNode := some secondA })]
    ValueNode := none }

/-- The empty reference: the zero value of `NodeReference[string]`. -/
def noString : NodeReference String := { Value := "", ValueNode := none, KeyNode := none }

/-- A security scheme with no field set but its extensions, the entries visited in the order
given. -/
def schemeWith (extensions : GoMap (KeyReference String) (ValueReference String)) :
    LowV3.SecurityScheme (Option Unit) String :=
  { Type_ := noString, Description := noString, Name := noString, In := noString
    Scheme := noString, BearerFormat := noString
    Flows := { Value := none, ValueNode := none, KeyNode := none }
    OpenIdConnectUrl := noString
    Extensions := extensions }

/-- The extension `x-a: 1`. -/
def extA : KeyReference String × ValueReference String :=
  ({ Value := "x-a", KeyNode := some (scalar 1 "x-a" 1 1) },
   { Value := "1", ValueNode := some (scalar 2 "1" 1 6) })

/-- The extension `x-b: 2`. -/
def extB : KeyReference String × ValueReference String :=
  ({ Value := "x-b", KeyNode := some (scalar 3 "x-b" 2 1) },
   { Value := "2", ValueNode := some (scalar 4 "2" 2 6) })

end Examples

/-! ## Vocabulary of the statements -/

namespace LowV2

open Yaml Low

/-- The content `k0, v0, ..., k(n-1), v(n-1)` of a mapping node, from its key/value pairs. -/
def pairsContent : List (Node × Node) → List Node
  | [] => []
  | (k, v) :: ps => k :: v :: pairsContent ps

/-- The key under which `Build` stores the key node `k`: `(k.Value, k)`. -/
def keyOf (k : Node) : KeyReference String := { Value := k.Value, KeyNode := some k }

/-- The entry expected for the pair `k, v`: keyed by `(k.Value, k)`, with value node `v` and
with the children of `v`, in order, as scopes. -/
def entryOf (p : Node × Node) : KeyReference String × ValueReference Scopes :=
  (keyOf p.1, { Value := scopesOf p.2, ValueNode := some p.2 })

/-- The scheme names of a map, in iteration order. -/
def names (m : ValueMap) : List String := m.map (fun e => e.1.Value)

/-- The scope strings of an entry, in the order they are stored. -/
def scopeStrings (v : ValueReference Scopes) : List String := v.Value.map (fun y => y.Value)

/-- Two maps declare the same pairwise distinct scheme names, and the scopes of every scheme
in one map are a permutation of its scopes in the other; nothing is asked of the nodes. -/
def SameUpToScopeOrder (m₁ m₂ : ValueMap) : Prop :=
  (names m₁).Nodup ∧ (names m₂).Nodup ∧ (names m₁).Perm (names m₂) ∧
  ∀ e₁ ∈ m₁, ∀ e₂ ∈ m₂, e₁.1.Value = e₂.1.Value → (scopeStrings e₁.2).Perm (scopeStrings e₂.2)

end LowV2


/-! ## what-changed/model: example.go -/

namespace WhatChanged

open Yaml Low

/-- Modelled from the spec: `Change` is declared in `what-changed/model`, outside the sources;
these are the scalar fields a change carries: its type, the property it is about, the original
and the new value, and whether it is breaking. -/
structure Change where
  ChangeType : Nat
  Property : String
  Original : String
  New : String
  Breaking : Bool
deriving DecidableEq

/-- Modelled from the spec: `PropertyChanges` is declared outside the sources; `example.go`
assigns its field `Changes` a `[]*Change`. -/
structure PropertyChanges where
  Changes : List Change
deriving DecidableEq

/-- Modelled from the spec: `PropertyChanges.TotalChanges`, declared outside the sources: the
number of property changes.  A slice length fits a Go `int`, and so does the sum of two. -/
def PropertyChanges.TotalChanges (p : PropertyChanges) : Nat := p.Changes.length

/-- Modelled from the spec: `PropertyChanges.TotalBreakingChanges`, declared outside the
sources: the number of property changes that are breaking. -/
def PropertyChanges.TotalBreakingChanges (p : PropertyChanges) : Nat :=
  (p.Changes.filter (fun c => c.Breaking)).length

/-- Modelled from the spec: `ExtensionChanges` is declared outside the sources; `example.go`
reads its embedded `PropertyChanges`. -/
structure ExtensionChanges where
  PropertyChanges : PropertyChanges
deriving DecidableEq

/-- `ExampleChanges`: the embedded `PropertyChanges` and the pointer `ExtensionChanges`
(`none` is nil). -/
structure ExampleChanges where
  PropertyChanges : PropertyChanges
  ExtensionChanges : Option ExtensionChanges
deriving DecidableEq

/-- `ExampleChanges.TotalChanges`. -/
def ExampleChanges.TotalChanges (e : ExampleChanges) : Nat :=
  let l := e.PropertyChanges.TotalChanges
  match e.ExtensionChanges with
  | some x => l + x.PropertyChanges.TotalChanges
  | none => l

/-- `ExampleChanges.TotalBreakingChanges`. -/
def ExampleChanges.TotalBreakingChanges (e : ExampleChanges) : Nat :=
  let l := e.PropertyChanges.TotalBreakingChanges
  l

end WhatChanged

/-! ## what-changed/model: operation.go -/

namespace WhatChanged

open Yaml Low

/-- The object types `operation.go` uses and that are declared outside the sources: the
low-level operations (as the pointers `*v2.Operation` and `*v3.Operation`), any other dynamic
type an `any` can hold, the values behind `NodeReference[any]`, external docs, parameters, and
the change reports of the sub-objects. -/
structure Objects where
  V2Operation : Type
  V3Operation : Type
  Other : Type
  Any : Type
  ExternalDoc : Type
  V2Parameter : Type
  ExternalDocChanges : Type
  ParameterChanges : Type
  ResponsesChanges : Type
  SecurityRequirementChanges : Type
  RequestBodyChanges : Type
  ServerChanges : Type

/-- An argument of `CompareOperations`, of type `any`, by its dynamic type. -/
inductive Operand (X : Objects) where
  | v2 (op : X.V2Operation)
  | v3 (op : X.V3Operation)
  | other (o : X.Other)

/-- A value passed as `any` to `addPropertyCheck` or `CreateChange`. -/
inductive Boxed (X : Objects) where
  | nil
  | text (s : String)
  | stringRef (r : NodeReference String)
  | boolRef (r : NodeReference Bool)
  | value (a : X.Any)

/-- `low.SharedOperations` (model_interfaces.go): what the methods of the interface return for
one operation. -/
structure SharedOperations (X : Objects) where
  GetTags : NodeReference (List (ValueReference String))
  GetSummary : NodeReference String
  GetDescription : NodeReference String
  GetDeprecated : NodeReference Bool
  GetExtensions : GoMap (KeyReference String) (ValueReference X.Any)
  GetExternalDocs : NodeReference X.Any
  GetResponses : NodeReference X.Any
  GetParameters : NodeReference X.Any
  GetSecurity : NodeReference X.Any

/-- `PropertyCheck`, with the fields the literals of `example.go` set; the field `Changes`
points at the one slice `changes` of the caller. -/
structure PropertyCheck (X : Objects) where
  LeftNode : Option Node
  RightNode : Option Node
  Label : String
  Breaking : Bool
  Original : Boxed X
  New : Boxed X

/-- `OperationChanges`. -/
structure OperationChanges (X : Objects) where
  PropertyChanges : PropertyChanges
  ExternalDocChanges : Option X.ExternalDocChanges
  ParameterChanges : List X.ParameterChanges
  ResponsesChanges : Option X.ResponsesChanges
  SecurityRequirementChanges : Option X.SecurityRequirementChanges
  RequestBodyChanges : Option X.RequestBodyChanges
  ServerChanges : List X.ServerChanges
  ExtensionChanges : Option ExtensionChanges

/-- The value `new(OperationChanges)` points at. -/
def OperationChanges.zero (X : Objects) : OperationChanges X :=
  { PropertyChanges := { Changes := [] }, ExternalDocChanges := none, ParameterChanges := []
    ResponsesChanges := none, SecurityRequirementChanges := none, RequestBodyChanges := none
    ServerChanges := [], ExtensionChanges := none }

/-- The functions and constants `operation.go` uses and that are declared outside the sources.
A type assertion returns `none` where the Go assertion panics. -/
structure Helpers (X : Objects) where
  AreEqualV2 : X.V2Operation → X.V2Operation → Bool
  AreEqualV3 : X.V3Operation → X.V3Operation → Bool
  AreEqualExternalDoc : X.ExternalDoc → X.ExternalDoc → Bool
  AreEqualParameter : X.V2Parameter → X.V2Parameter → Bool
  sharedV2 : X.V2Operation → SharedOperations X
  sharedV3 : X.V3Operation → SharedOperations X
  assertExternalDoc : X.Any → Option X.ExternalDoc
  assertParameters : X.Any → Option (List (ValueReference X.V2Parameter))
  ParameterName : X.V2Parameter → NodeReference String
  ExtractStringValueSliceChanges : List (ValueReference String) → List (ValueReference String) →
    List Change → String → Bool → List Change
  addPropertyCheck : List (PropertyCheck X) → Option Node → Option Node → Boxed X → Boxed X →
    String → Bool → List (PropertyCheck X)
  CheckProperties : List (PropertyCheck X) → List Change → List Change
  CreateChange : List Change → Nat → String → Option Node → Option Node → Bool → Boxed X →
    Boxed X → List Change
  CompareExternalDocs : X.ExternalDoc → X.ExternalDoc → Option X.ExternalDocChanges
  CompareResponses : Operand X → Operand X → Option X.ResponsesChanges
  CompareParameters : X.V2Parameter → X.V2Parameter → Option X.ParameterChanges
  Modified : Nat
  ObjectAdded : Nat
  ObjectRemoved : Nat
  TagsLabel : String
  SummaryLabel : String
  DescriptionLabel : String
  DeprecatedLabel : String
  ExternalDocsLabel : String
  ResponsesLabel : String
  ParametersLabel : String

variable {X : Objects}

/-- `addSharedOperationProperties`: the slice `changes` after the call and the checks
returned. -/
def addSharedOperationProperties (H : Helpers X) (left right : SharedOperations X)
    (changes : List Change) : List Change × List (PropertyCheck X) :=
  let changes :=
    if left.GetTags.Value.length > 0 || right.GetTags.Value.length > 0 then
      H.ExtractStringValueSliceChanges left.GetTags.Value right.GetTags.Value changes
        H.TagsLabel false
    else changes
  let props : List (PropertyCheck X) := []
  let props := H.addPropertyCheck props left.GetSummary.ValueNode right.GetSummary.ValueNode
    (.stringRef left.GetSummary) (.stringRef right.GetSummary) H.SummaryLabel false
  let props := H.addPropertyCheck props left.GetDescription.ValueNode
    right.GetDescription.ValueNode (.stringRef left.GetDescription)
    (.stringRef right.GetDescription) H.DescriptionLabel false
  let props := H.addPropertyCheck props left.GetDeprecated.ValueNode
    right.GetDeprecated.ValueNode (.boolRef left.GetDeprecated) (.boolRef right.GetDeprecated)
    H.DeprecatedLabel false
  (changes, props)

/-- The external-docs part of `compareSharedOperationObjects`; `none` is a panic of a type
assertion. -/
def compareExternalDocs (H : Helpers X) (l r : SharedOperations X)
    (st : List Change × OperationChanges X) : Option (List Change × OperationChanges X) :=
  let step1 : Option (List Change × OperationChanges X) :=
    if !l.GetExternalDocs.IsEmpty && !r.GetExternalDocs.IsEmpty then
      match H.assertExternalDoc l.GetExternalDocs.Value,
        H.assertExternalDoc r.GetExternalDocs.Value with
      | some lExtDoc, some rExtDoc =>
        if !H.AreEqualExternalDoc lExtDoc rExtDoc then
          some (st.1, { st.2 with ExternalDocChanges := H.CompareExternalDocs lExtDoc rExtDoc })
        else some st
      | _, _ => none
    else some st
  step1.map fun st =>
    let changes :=
      if l.GetExternalDocs.IsEmpty && !r.GetExternalDocs.IsEmpty then
        H.CreateChange st.1 H.ObjectAdded H.ExternalDocsLabel none r.GetExternalDocs.ValueNode
          false .nil (.value r.GetExternalDocs.Value)
      else st.1
    let changes :=
      if !l.GetExternalDocs.IsEmpty && r.GetExternalDocs.IsEmpty then
        H.CreateChange changes H.ObjectRemoved H.ExternalDocsLabel l.GetExternalDocs.ValueNode
          none false (.value l.GetExternalDocs.Value) .nil
      else changes
    (changes, st.2)

/-- The responses part of `compareSharedOperationObjects`, on the operations `lo` and `ro`
whose interface values are `l` and `r`. -/
def compareResponses (H : Helpers X) (lo ro : Operand X) (l r : SharedOperations X)
    (st : List Change × OperationChanges X) : List Change × OperationChanges X :=
  let oc :=
    if !l.GetResponses.IsEmpty && !r.GetResponses.IsEmpty then
      { st.2 with ResponsesChanges := H.CompareResponses lo ro }
    else st.2
  let changes :=
    if l.GetResponses.IsEmpty && !r.GetResponses.IsEmpty then
      H.CreateChange st.1 H.ObjectAdded H.ResponsesLabel none r.GetResponses.ValueNode false
        .nil (.value r.GetResponses.Value)
    else st.1
  let changes :=
    if !l.GetResponses.IsEmpty && r.GetResponses.IsEmpty then
      H.CreateChange changes H.ObjectRemoved H.ResponsesLabel l.GetResponses.ValueNode none true
        (.value l.GetResponses.Value) .nil
    else changes
  (changes, oc)

/-- `compareSharedOperationObjects`: the slice `changes` and `opChanges` after the call. -/
def compareSharedOperationObjects (H : Helpers X) (lo ro : Operand X)
    (l r : SharedOperations X) (st : List Change × OperationChanges X) :
    Option (List Change × OperationChanges X) :=
  (compareExternalDocs H l r st).map (compareResponses H lo ro l r)

/-- The map `lv` (or `rv`) of the parameters by name. -/
def parametersByName (H : Helpers X) (params : List (ValueReference X.V2Parameter)) :
    GoMap String X.V2Parameter :=
  params.foldl (fun m p => m.set (H.ParameterName p.Value).Value p.Value) []

/-- The loop `for n := range lv` of `CompareOperations`, the map visited in the order of the
list: the slices `changes` and `paramChanges` after it. -/
def compareLeftParameters (H : Helpers X) (lv rv : GoMap String X.V2Parameter)
    (st : List Change × List X.ParameterChanges) : List Change × List X.ParameterChanges :=
  lv.foldl (fun st e =>
    match rv.get? e.1 with
    | some rp =>
      if !H.AreEqualParameter e.2 rp then
        match H.CompareParameters e.2 rp with
        | some ch => (st.1, st.2 ++ [ch])
        | none => st
      else st
    | none =>
      (H.CreateChange st.1 H.ObjectRemoved H.ParametersLabel (H.ParameterName e.2).ValueNode
        none true (.text (H.ParameterName e.2).Value) .nil, st.2)) st

/-- The loop `for n := range rv` of `CompareOperations`. -/
def compareRightParameters (H : Helpers X) (lv rv : GoMap String X.V2Parameter)
    (changes : List Change) : List Change :=
  rv.foldl (fun changes e =>
    match lv.get? e.1 with
    | some _ => changes
    | none =>
      H.CreateChange changes H.ObjectAdded H.ParametersLabel none
        (H.ParameterName e.2).ValueNode true .nil (.text (H.ParameterName e.2).Value)) changes

/-- The parameters part of the Swagger branch of `CompareOperations`. -/
def compareParameters (H : Helpers X) (l r : SharedOperations X)
    (st : List Change × OperationChanges X) : Option (List Change × OperationChanges X) :=
  if !l.GetParameters.IsEmpty && !r.GetParameters.IsEmpty then
    match H.assertParameters l.GetParameters.Value, H.assertParameters r.GetParameters.Value with
    | some lParams, some rParams =>
      let lv := parametersByName H lParams
      let rv := parametersByName H rParams
      let left := compareLeftParameters H lv rv (st.1, [])
      some (compareRightParameters H lv rv left.1, { st.2 with ParameterChanges := left.2 })
    | _, _ => none
  else some st

/-- The end of `CompareOperations`: `CheckProperties(props)`, `oc.Changes = changes`,
`return oc`. -/
def finish (H : Helpers X) (props : List (PropertyCheck X))
    (st : List Change × OperationChanges X) : Option (OperationChanges X) :=
  some { st.2 with PropertyChanges := { Changes := H.CheckProperties props st.1 } }

/-- `CompareOperations`.  The outer `none` is a panic; `some none` is the result nil. -/
def CompareOperations (H : Helpers X) (l r : Operand X) :
    Option (Option (OperationChanges X)) :=
  match l, r with
  | .v2 lOperation, .v2 rOperation =>
    if H.AreEqualV2 lOperation rOperation then some none
    else
      let shared := addSharedOperationProperties H (H.sharedV2 lOperation)
        (H.sharedV2 rOperation) []
      match compareSharedOperationObjects H l r (H.sharedV2 lOperation)
          (H.sharedV2 rOperation) (shared.1, OperationChanges.zero X) with
      | none => none
      | some st =>
        match compareParameters H (H.sharedV2 lOperation) (H.sharedV2 rOperation) st with
        | none => none
        | some st => some (finish H shared.2 st)
  | .v3 lOperation, .v3 rOperation =>
    if H.AreEqualV3 lOperation rOperation then some none
    else
      let shared := addSharedOperationProperties H (H.sharedV3 lOperation)
        (H.sharedV3 rOperation) []
      some (finish H shared.2 (shared.1, OperationChanges.zero X))
  | _, _ => some (finish H [] ([], OperationChanges.zero X))

end WhatChanged

/-! ## index/index_model.go: references, errors and the forest on the heap -/

namespace Index

open Yaml

/-- `Reference`. -/
structure Reference where
  Definition : String
  Name : String
  Node : Option Yaml.Node
  ParentNode : Option Yaml.Node
  Resolved : Bool
  Circular : Bool
  Seen : Bool
  IsRemote : Bool
  RemoteLocation : String
  Path : String
  RequiredRefProperties : GoMap String (List String)
deriving DecidableEq

/-- A non-nil value of the interface `error`, by the text its method `Error()` returns. -/
structure GoError where
  Error : String
deriving DecidableEq

/-- `IndexingError`; `Err` is `none` while it is nil. -/
structure IndexingError where
  Err : Option GoError
  Node : Option Yaml.Node
  Path : String
deriving DecidableEq

/-- `IndexingError.Error`: `i.Err.Error()`; `none` is the panic of calling a method of a nil
interface. -/
def IndexingError.Error (i : IndexingError) : Option String :=
  match i.Err with
  | some err => some err.Error
  | none => none

/-- The `children` slices as the heap holds them: for the index stored at every address, the
addresses its `children` slice points at.  An index is a pointer here, so one index can be
added to several parents, or to itself. -/
abbrev Forest := Nat → List Nat

namespace Forest

/-- The heap in which no index has a child. -/
def empty : Forest := fun _ => []

/-- `AddChild` on the heap: `index.children = append(index.children, child)`. -/
def AddChild (f : Forest) (index child : Nat) : Forest :=
  fun a => if a = index then f a ++ [child] else f a

/-- `GetChildren` on the heap. -/
def GetChildren (f : Forest) (index : Nat) : List Nat := f index

/-- A sequence of calls `index.AddChild(child)`, each given as the pair `(index, child)`. -/
def run (f : Forest) (calls : List (Nat × Nat)) : Forest :=
  calls.foldl (fun f call => f.AddChild call.1 call.2) f

/-- Index `b` is in the children list of index `a`. -/
def Child (f : Forest) (a b : Nat) : Prop := b ∈ f a

/-- Index `b` is reachable from index `a` through children lists, in one step or more. -/
def Reachable (f : Forest) (a b : Nat) : Prop := Relation.TransGen (Child f) a b

/-- The forest is a strict tree: no index is reachable from itself, no index is in the
children lists of two different parents, and no index is twice in one list. -/
def StrictTree (f : Forest) : Prop :=
  (∀ a, ¬ Reachable f a a) ∧ (∀ p q c, c ∈ f p → c ∈ f q → p = q) ∧ ∀ p, (f p).Nodup

/-- The call `index.AddChild(child)` adds a new child: `child` is in no children list yet, and
`index` is neither `child` nor reachable from it. -/
def Fresh (f : Forest) (index child : Nat) : Prop :=
  (∀ p, child ∉ f p) ∧ ¬ Relation.ReflTransGen (Child f) child index

/-- Every call of the sequence adds a new child to the forest the calls before it built. -/
def FreshCalls : Forest → List (Nat × Nat) → Prop
  | _, [] => True
  | f, call :: calls => Fresh f call.1 call.2 ∧ FreshCalls (f.AddChild call.1 call.2) calls

end Forest

end Index

/-! ## The reference resolver and the external document forest

The resolver is not part of the sources.  This section follows the specification: the pointer
classifier (§4.1), the external document forest (§4.3), the resolver (§4.4) and the error
taxonomy (§7), on the `Reference`, `SpecIndexConfig` and `AddChild` of `index_model.go`. -/

namespace Resolver

open Index

/-- Modelled from the spec: the classification of a reference string (§4.1): Local, File or
Remote. -/
inductive Classification where
  | Local
  | File
  | Remote
deriving DecidableEq

/-- Modelled from the spec: the output of the pointer classifier (§4.1): the classification,
the source locator (empty for a local reference) and the fragment. -/
structure Pointer where
  classification : Classification
  source : String
  fragment : String
deriving DecidableEq

/-- The characters before the first `#`, and the rest from that `#` on. -/
def splitAtHash : List Char → List Char × List Char
  | [] => ([], [])
  | c :: cs => if c = '#' then ([], c :: cs) else ((splitAtHash cs).1.cons c, (splitAtHash cs).2)

/-- The characters hold a scheme separator `://`. -/
def hasScheme : List Char → Bool
  | [] => false
  | c :: cs => (c = ':' && cs.take 2 = ['/', '/']) || hasScheme cs

/-- Modelled from the spec: the pointer classifier (§4.1), purely syntactic: a bare `#/...` is
Local; with something before the `#`, a scheme makes the reference Remote, and a path without
scheme, absolute or relative, makes it File. -/
def classify (raw : String) : Pointer :=
  if (splitAtHash raw.toList).1 = [] then
    { classification := .Local, source := "", fragment := String.mk (splitAtHash raw.toList).2 }
  else
    { classification :=
        if hasScheme (splitAtHash raw.toList).1 then .Remote else .File
      source := String.mk (splitAtHash raw.toList).1
      fragment := String.mk (splitAtHash raw.toList).2 }

/-- Modelled from the spec: the target content a fragment of a document designates: its node,
and the reference strings found inside it, in document order. -/
structure Target where
  body : Yaml.Node
  references : List String
deriving DecidableEq

/-- Modelled from the spec: a document, as the resolver sees it: the target content of each
of its fragments. -/
abbrev Document := GoMap String Target

/-- Modelled from the spec: the pluggable loader (§6, `ExternalLookupFunction`): the content
of the document at a source locator, or `none` when loading fails. -/
abbrev ExternalLookupFunction := String → Option Document

/-- Modelled from the spec: a `CircularReferenceResult` (§3): the ordered chain of reference
definitions that form one detected cycle. -/
structure CircularReferenceResult where
  chain : List String
deriving DecidableEq

/-- Modelled from the spec: the error taxonomy (§7), each error with the reference or source
it is about. -/
inductive ResolveError where
  | StructuralError (path : String)
  | UnresolvedReferenceError (definition : String)
  | LookupDisallowed (definition : String)
  | CircularReferenceError (chain : List String)
  | FetchError (source : String)
deriving DecidableEq

/-- Modelled from the spec: one index of the forest (§3, §4.3): its address, the normalized
source it was loaded from (empty for the root document), its document and the address of its
parent index. -/
structure LoadedIndex where
  addr : Nat
  source : String
  document : Document
  parentIndex : Option Nat
deriving DecidableEq

/-- Modelled from the spec: the state of one top-level operation: the shared config with its
seen-set, the strict policy flag (§4.4 step 5), the indexes of the forest with their children
lists, the references by identifier, the cycle report, the accumulated errors, the sources
the loader was invoked for, and whether a fatal error stopped the resolver. -/
structure Session where
  config : SpecIndexConfig
  strict : Bool
  indexes : List LoadedIndex
  children : Forest
  references : GoMap String Reference
  circularReferences : List CircularReferenceResult
  errors : List ResolveError
  lookups : List String
  failed : Bool

/-- The last path segment of a fragment: the human name of a reference. -/
def lastSegment : List Char → List Char → List Char
  | acc, [] => acc
  | acc, c :: cs => if c = '/' then lastSegment [] cs else lastSegment (acc ++ [c]) cs

/-- The reference the index builder creates for a reference string, before resolution. -/
def newReference (raw : String) (p : Pointer) (source : String) : Reference :=
  { Definition := raw
    Name := String.mk (lastSegment [] p.fragment.toList)
    Node := none
    ParentNode := none
    Resolved := false
    Circular := false
    Seen := false
    IsRemote := p.classification ≠ .Local
    RemoteLocation := if p.classification = .Local then "" else source
    Path := ""
    RequiredRefProperties := [] }

/-- The index stored at an address. -/
def Session.index? (s : Session) (addr : Nat) : Option LoadedIndex :=
  s.indexes.find? (fun ix => ix.addr = addr)

/-- Modelled from the spec: normalization of a source locator (§4.3): a remote locator and an
absolute path stand for themselves; a relative path is resolved against the base URL when one
is set, and against the base path otherwise. -/
def normalize (config : SpecIndexConfig) (p : Pointer) : String :=
  match p.classification with
  | .Local => ""
  | .Remote => p.source
  | .File =>
    if p.source.toList.head? = some '/' then p.source
    else
      match config.BaseURL with
      | some base => base ++ "/" ++ p.source
      | none => config.BasePath ++ "/" ++ p.source

/-- The normalized source of the document a reference found in the index `current` targets:
the index's own source for a local reference. -/
def targetSource (s : Session) (current : Nat) (p : Pointer) : String :=
  match p.classification with
  | .Local => ((s.index? current).map (fun ix => ix.source)).getD ""
  | _ => normalize s.config p

/-- The reference of an identifier is registered, created unresolved when it is new. -/
def Session.ensure (s : Session) (id raw : String) (p : Pointer) (source : String) : Session :=
  match s.references.get? id with
  | some _ => s
  | none => { s with references := s.references.set id (newReference raw p source) }

/-- An update of the reference of an identifier. -/
def Session.update (s : Session) (id : String) (f : Reference → Reference) : Session :=
  { s with references := s.references.map (fun e => if e.1 = id then (e.1, f e.2) else e) }

/-- The reference of an identifier has been visited already. -/
def Session.seen (s : Session) (id : String) : Bool :=
  ((s.references.get? id).map (fun r => r.Seen)).getD false

/-- An error is added to the accumulated errors. -/
def Session.addError (s : Session) (e : ResolveError) : Session :=
  { s with errors := s.errors ++ [e] }

/-- Modelled from the spec: a detected cycle (§4.4 steps 4 and 5): the reference is marked
circular and a `CircularReferenceResult` with the full active chain is recorded; under the
strict policy the cycle is moreover a `CircularReferenceError` and a hard failure. -/
def Session.recordCycle (s : Session) (id : String) (chain : List String) : Session :=
  let s : Session := s.update id (fun r => { r with Circular := true })
  let s : Session :=
    { s with circularReferences := s.circularReferences ++ [{ chain := chain }] }
  if s.strict then { s.addError (.CircularReferenceError chain) with failed := true } else s

/-- The sources of the index at `current` and of its ancestors, walking at most `fuel` parent
links upward. -/
def ancestorSources (s : Session) : Nat → Nat → List String
  | 0, _ => []
  | fuel + 1, current =>
    match s.index? current with
    | none => []
    | some ix =>
      ix.source ::
        (match ix.parentIndex with
          | some parent => ancestorSources s fuel parent
          | none => [])

/-- The source is in the seen-set of the config. -/
def seenSource (config : SpecIndexConfig) (source : String) : Bool :=
  match config.seenRemoteSources with
  | some seen => seen.contains source
  | none => false

/-- The source is registered in the seen-set of the config. -/
def registerSource (config : SpecIndexConfig) (source : String) : SpecIndexConfig :=
  { config with seenRemoteSources := some ((config.seenRemoteSources.getD []) ++ [source]) }

/-- Modelled from the spec: the loader is invoked for a source that is nowhere in the forest
(§4.3): a failure is a `FetchError`; otherwise a new index is built for the fetched content,
attached as a child of the discovering index and registered in the seen-set. -/
def fetch (lookup : ExternalLookupFunction) (s : Session) (current : Nat) (source : String) :
    Session × Option Nat :=
  match lookup source with
  | none =>
    (({ s.addError (.FetchError source) with lookups := s.lookups ++ [source] } : Session), none)
  | some document =>
    (({ s with
        lookups := s.lookups ++ [source]
        indexes := s.indexes ++
          [{ addr := s.indexes.length, source := source, document := document
             parentIndex := some current }]
        children := s.children.AddChild current s.indexes.length
        config := registerSource s.config source } : Session),
      some s.indexes.length)

/-- Modelled from the spec: the external document forest (§4.3): the index of a normalized
source, reused when the seen-set or the ancestor chain of the current index knows the source,
loaded on first use otherwise. -/
def obtainIndex (lookup : ExternalLookupFunction) (s : Session) (current : Nat)
    (source : String) : Session × Option Nat :=
  if seenSource s.config source || (ancestorSources s s.indexes.length current).contains source
  then
    match s.indexes.find? (fun ix => ix.source = source) with
    | some ix => (s, some ix.addr)
    | none => fetch lookup s current source
  else fetch lookup s current source

/-- A step applied to every string of a list in turn, as long as it succeeds. -/
def forEach (step : Session → String → Option Session) : List String → Session → Option Session
  | [], s => some s
  | r :: rs, s =>
    match step s r with
    | none => none
    | some s => forEach step rs s

/-- Modelled from the spec: resolution of a fragment inside the tree of the target index
(§4.4 step 2): a fragment that is not found is an `UnresolvedReferenceError`; one that is found
marks the reference resolved, points its node at the target content, and the references of
that content are resolved in turn, with the reference added to the active chain. -/
def resolveTarget (inner : List String → Nat → String → Session → Option Session)
    (chain : List String) (id : String) (target : Nat) (fragment : String) (s : Session) :
    Option Session :=
  match (s.index? target).bind (fun ix => ix.document.get? fragment) with
  | none => some (s.addError (.UnresolvedReferenceError id))
  | some t =>
    forEach (fun s r => inner (chain ++ [id]) target r s) t.references
      (s.update id (fun r => { r with Resolved := true, Node := some t.body }))

/-- Modelled from the spec: resolution of a File or Remote reference that the policy permits
(§4.4 step 3): the target index is obtained from the forest, then the fragment is resolved
inside it. -/
def resolveExternal (lookup : ExternalLookupFunction)
    (inner : List String → Nat → String → Session → Option Session)
    (chain : List String) (id : String) (current : Nat) (source fragment : String)
    (s : Session) : Option Session :=
  match obtainIndex lookup s current source with
  | (s, none) => some s
  | (s, some target) => resolveTarget inner chain id target fragment s

/-- Modelled from the spec: the resolver on one reference string `raw` found in the index
`current`, with the active chain `chain` (§4.4); `inner` resolves the references of the target
content.  A reference whose identifier is in the active chain is a cycle; a reference visited
before is left as it is; otherwise the classification selects the strategy, and a File or
Remote reference whose lookup the policy forbids stays unresolved with a `LookupDisallowed`
error. -/
def visitStep (lookup : ExternalLookupFunction)
    (inner : List String → Nat → String → Session → Option Session)
    (chain : List String) (current : Nat) (raw : String) (s : Session) : Option Session :=
  let p := classify raw
  let source := targetSource s current p
  let id := source ++ p.fragment
  let s := s.ensure id raw p source
  if s.failed then some s
  else if id ∈ chain then some (s.recordCycle id chain)
  else if s.seen id then some s
  else
    let s := s.update id (fun r => { r with Seen := true })
    match p.classification with
    | .Local => resolveTarget inner chain id current p.fragment s
    | .File =>
      if s.config.AllowFileLookup then
        resolveExternal lookup inner chain id current source p.fragment s
      else some (s.addError (.LookupDisallowed raw))
    | .Remote =>
      if s.config.AllowRemoteLookup then
        resolveExternal lookup inner chain id current source p.fragment s
      else some (s.addError (.LookupDisallowed raw))

/-- The resolver on one reference, the depth of the active chain bounded by `fuel`; `none` is
fuel exhausted. -/
def visit (lookup : ExternalLookupFunction) :
    Nat → List String → Nat → String → Session → Option Session
  | 0, _, _, _, _ => none
  | fuel + 1, chain, current, raw, s =>
    visitStep lookup (visit lookup fuel) chain current raw s

/-- Modelled from the spec: the state before resolution: the root index, at address 0, with
the references the index builder registered for the root document. -/
def Session.start (config : SpecIndexConfig) (strict : Bool) (root : Document)
    (rootReferences : List String) : Session :=
  { config := config
    strict := strict
    indexes := [{ addr := 0, source := "", document := root, parentIndex := none }]
    children := Forest.empty
    references := rootReferences.foldl
      (fun m raw => m.set (normalize config (classify raw) ++ (classify raw).fragment)
        (newReference raw (classify raw) (normalize config (classify raw)))) []
    circularReferences := []
    errors := []
    lookups := []
    failed := false }

/-- Modelled from the spec: one top-level operation of the resolver (§4.4): every reference
of the root index is resolved in turn, each with an empty active chain. -/
def Resolve (lookup : ExternalLookupFunction) (fuel : Nat) (s : Session) : Option Session :=
  forEach (fun s raw => visit lookup fuel [] 0 raw s)
    (s.references.map (fun e => e.2.Definition)) s

end Resolver

/-! ## Concrete inputs for the change reports and the resolver -/

namespace Examples

open Yaml Low

/-- Object types in which an operation is known by its name and every other object is opaque. -/
def plainObjects : WhatChanged.Objects :=
  { V2Operation := String, V3Operation := String, Other := Unit, Any := Unit
    ExternalDoc := Unit, V2Parameter := Unit, ExternalDocChanges := Unit
    ParameterChanges := Unit, ResponsesChanges := Unit, SecurityRequirementChanges := Unit
    RequestBodyChanges := Unit, ServerChanges := Unit }

/-- An operation without content. -/
def noShared : WhatChanged.SharedOperations plainObjects :=
  { GetTags := { Value := [], ValueNode := none, KeyNode := none }
    GetSummary := noString, GetDescription := noString
    GetDeprecated := { Value := false, ValueNode := none, KeyNode := none }
    GetExtensions := []
    GetExternalDocs := { Value := (), ValueNode := none, KeyNode := none }
    GetResponses := { Value := (), ValueNode := none, KeyNode := none }
    GetParameters := { Value := (), ValueNode := none, KeyNode := none }
    GetSecurity := { Value := (), ValueNode := none, KeyNode := none } }

/-- Helpers for `plainObjects`: two operations are equal when they have the same name, and a
created change records its type and label. -/
def plainHelpers : WhatChanged.Helpers plainObjects :=
  { AreEqualV2 := fun (l r : String) => decide (l = r)
    AreEqualV3 := fun (l r : String) => decide (l = r)
    AreEqualExternalDoc := fun _ _ => true
    AreEqualParameter := fun _ _ => true
    sharedV2 := fun _ => noShared
    sharedV3 := fun _ => noShared
    assertExternalDoc := fun _ => some ()
    assertParameters := fun _ => some []
    ParameterName := fun _ => noString
    ExtractStringValueSliceChanges := fun _ _ changes _ _ => changes
    addPropertyCheck := fun props l r o n label breaking =>
      props ++ [{ LeftNode := l, RightNode := r, Label := label, Breaking := breaking
                  Original := o, New := n }]
    CheckProperties := fun _ changes => changes
    CreateChange := fun changes changeType label _ _ breaking _ _ =>
      changes ++ [{ ChangeType := changeType, Property := label, Original := "", New := ""
                    Breaking := breaking }]
    CompareExternalDocs := fun _ _ => none
    CompareResponses := fun _ _ => none
    CompareParameters := fun _ _ => none
    Modified := 1, ObjectAdded := 3, ObjectRemoved := 4
    TagsLabel := "tags", SummaryLabel := "summary", DescriptionLabel := "description"
    DeprecatedLabel := "deprecated", ExternalDocsLabel := "externalDocs"
    ResponsesLabel := "responses", ParametersLabel := "parameters" }

/-- The reference of the scenario of the specification, `#/components/schemas/Node`. -/
def nodeRef : String := "#/components/schemas/Node"

/-- The body of the schema `Node`, which refers to itself under
`properties.children.items`. -/
def nodeSchema : Node :=
  mapping 10 [scalar 11 "properties" 4 7,
    mapping 12 [scalar 13 "children" 5 9,
      mapping 14 [scalar 15 "items" 6 11,
        mapping 16 [scalar 17 "$ref" 7 13, scalar 18 nodeRef 7 19] 7 13] 6 11] 5 9] 4 7

/-- The document whose only schema, `Node`, refers to itself. -/
def selfReferential : Resolver.Document :=
  [(nodeRef, { body := nodeSchema, references := [nodeRef] })]

end Examples

/-! ## Vocabulary of the statements about the resolver -/

namespace Resolver

/-- The identifier under which the resolver keeps a File or Remote reference string, found in
any index, and a Local reference string found in the root index: the normalized source of the
target document, followed by the fragment. -/
def referenceId (config : Index.SpecIndexConfig) (raw : String) : String :=
  normalize config (classify raw) ++ (classify raw).fragment

/-- The reference of an identifier is registered and has `Resolved = true`. -/
def Session.resolved (s : Session) (id : String) : Bool :=
  ((s.references.get? id).map (fun r => r.Resolved)).getD false

end Resolver

/-! ## Concrete inputs for policy gating and the diamond -/

namespace Examples

open Yaml

/-- A file-based reference to the schema `Pet` of the sibling file `common.yaml`. -/
def petRef : String := "common.yaml#/Pet"

/-- The body of the schema `Pet`: `type: object`. -/
def petSchema : Node := mapping 20 [scalar 21 "type" 1 3, scalar 22 "object" 1 9] 1 3

/-- The content of `common.yaml`: the schema `Pet`, which holds no reference. -/
def commonDocument : Resolver.Document := [("#/Pet", { body := petSchema, references := [] })]

/-- A loader that knows the file `/work/common.yaml` only. -/
def commonLoader : Resolver.ExternalLookupFunction :=
  fun source => if source = "/work/common.yaml" then some commonDocument else none

/-- The document `a.yaml`: its fragment `#/x` refers to `c.yaml#/z`. -/
def documentA : Resolver.Document := [("#/x", { body := petSchema, references := ["c.yaml#/z"] })]

/-- The document `b.yaml`: its fragment `#/y` refers to `c.yaml#/w`. -/
def documentB : Resolver.Document := [("#/y", { body := petSchema, references := ["c.yaml#/w"] })]

/-- The shared document `c.yaml`, with the fragments `#/z` and `#/w`. -/
def documentC : Resolver.Document :=
  [("#/z", { body := petSchema, references := [] }),
   ("#/w", { body := petSchema, references := [] })]

/-- A loader that knows the files `a.yaml`, `b.yaml` and `c.yaml` of `/work`. -/
def diamondLoader : Resolver.ExternalLookupFunction :=
  fun source =>
    if source = "/work/a.yaml" then some documentA
    else if source = "/work/b.yaml" then some documentB
    else if source = "/work/c.yaml" then some documentC
    else none

end Examples

/-! ## The resolver, one reference at a time -/

namespace Resolver

open Index

/-- What `visitStep` has done with a reference when it stops or is about to descend: it is
done with the reference, or it has marked the reference resolved and goes on with the
references of the target content, found in the index `target`. -/
inductive Outcome where
  | done (s : Session)
  | descend (s : Session) (id : String) (target : Nat) (references : List String)

/-- The part of `resolveTarget` before the references of the target content are resolved. -/
def enter (id : String) (target : Nat) (fragment : String) (s : Session) : Outcome :=
  match (s.index? target).bind (fun ix => ix.document.get? fragment) with
  | none => .done (s.addError (.UnresolvedReferenceError id))
  | some t =>
    .descend (s.update id (fun r => { r with Resolved := true, Node := some t.body })) id target
      t.references

/-- The part of `resolveExternal` before the references of the target content are resolved. -/
def enterExternal (lookup : ExternalLookupFunction) (id : String) (current : Nat)
    (source fragment : String) (s : Session) : Outcome :=
  match obtainIndex lookup s current source with
  | (s, none) => .done s
  | (s, some target) => enter id target fragment s

/-- The part of `visitStep` before the references of the target content are resolved. -/
def prepare (lookup : ExternalLookupFunction) (chain : List String) (current : Nat)
    (raw : String) (s : Session) : Outcome :=
  let p := classify raw
  let source := targetSource s current p
  let id := source ++ p.fragment
  let s := s.ensure id raw p source
  if s.failed then .done s
  else if id ∈ chain then .done (s.recordCycle id chain)
  else if s.seen id then .done s
  else
    let s := s.update id (fun r => { r with Seen := true })
    match p.classification with
    | .Local => enter id current p.fragment s
    | .File =>
      if s.config.AllowFileLookup then enterExternal lookup id current source p.fragment s
      else .done (s.addError (.LookupDisallowed raw))
    | .Remote =>
      if s.config.AllowRemoteLookup then enterExternal lookup id current source p.fragment s
      else .done (s.addError (.LookupDisallowed raw))

/-- The rest of `visitStep`: the references of the target content are resolved by `inner`,
with the reference added to the active chain. -/
def Outcome.run (inner : List String → Nat → String → Session → Option Session)
    (chain : List String) : Outcome → Option Session
  | .done s => some s
  | .descend s id target references =>
    forEach (fun s r => inner (chain ++ [id]) target r s) references s

end Resolver

/-! ## Vocabulary of the invariants of the resolver -/

namespace Resolver

open Index

/-- The session an outcome carries. -/
def Outcome.state : Outcome → Session
  | .done s => s
  | .descend s _ _ _ => s

/-- The identifiers of all target contents are in the list `ids`: those of the root document,
and, when the policy permits a lookup, those of every document the loader returns.  The
identifier of a target content is its document's source followed by its fragment. -/
def Bounded (config : SpecIndexConfig) (lookup : ExternalLookupFunction) (root : Document)
    (ids : List String) : Prop :=
  (∀ fragment t, root.get? fragment = some t → fragment ∈ ids) ∧
  ((config.AllowFileLookup = true ∨ config.AllowRemoteLookup = true) →
    ∀ source document fragment t, lookup source = some document →
      document.get? fragment = some t → source ++ fragment ∈ ids)

/-- A session of a resolution that started from `config` and the root document `root`: the
config has the lookup flags and the bases of `config`; the root index is at address 0; every
index is found under its address; the identifiers of the target contents of every index are in
`ids`; and every index but the root's holds the document the loader returns for its source,
the normalized source of a File or Remote reference. -/
structure WellFormed (lookup : ExternalLookupFunction) (config : SpecIndexConfig)
    (root : Document) (ids : List String) (s : Session) : Prop where
  baseURL : s.config.BaseURL = config.BaseURL
  basePath : s.config.BasePath = config.BasePath
  allowFile : s.config.AllowFileLookup = config.AllowFileLookup
  allowRemote : s.config.AllowRemoteLookup = config.AllowRemoteLookup
  rootIndex :
    s.index? 0 = some { addr := 0, source := "", document := root, parentIndex := none }
  addr_lt : ∀ ix ∈ s.indexes, ix.addr < s.indexes.length
  addr_find : ∀ ix ∈ s.indexes, s.index? ix.addr = some ix
  targets : ∀ ix ∈ s.indexes, ∀ fragment t,
    ix.document.get? fragment = some t → ix.source ++ fragment ∈ ids
  origin : ∀ ix ∈ s.indexes, ix.source = "" ∨
    (lookup ix.source = some ix.document ∧
      ∃ raw, (classify raw).classification ≠ .Local ∧
        ix.source = normalize config (classify raw))

/-- The session `s'` is a later state of `s`: every reference of `s` is still registered, what
was seen, resolved or circular still is, and every error is still recorded. -/
structure Session.Extends (s s' : Session) : Prop where
  references : ∀ id r, s.references.get? id = some r →
    ∃ r', s'.references.get? id = some r' ∧ (r.Seen = true → r'.Seen = true) ∧
      (r.Resolved = true → r'.Resolved = true) ∧ (r.Circular = true → r'.Circular = true)
  errors : ∀ e ∈ s.errors, e ∈ s'.errors

end Resolver

namespace Resolver

open Index

/-- The base against which a relative path is resolved (§4.3): the base URL when one is set,
the base path otherwise. -/
def baseOf (config : SpecIndexConfig) : String :=
  match config.BaseURL with
  | some base => base
  | none => config.BasePath

/-- The base of the config holds no `#`: an identifier then determines the source and the
fragment it is made of. -/
def NoHash (config : SpecIndexConfig) : Prop := '#' ∉ (baseOf config).toList

instance (config : SpecIndexConfig) : Decidable (NoHash config) :=
  inferInstanceAs (Decidable ('#' ∉ (baseOf config).toList))

/-- The base of the config, followed by the path separator, holds no scheme separator
`://`: it is a plain path. -/
def NoScheme (config : SpecIndexConfig) : Prop :=
  hasScheme ((baseOf config).toList ++ ['/']) = false

instance (config : SpecIndexConfig) : Decidable (NoScheme config) :=
  inferInstanceAs (Decidable (hasScheme ((baseOf config).toList ++ ['/']) = false))

/-- No file-based reference string has the normalized source of a remote one. -/
def Distinct (config : SpecIndexConfig) : Prop :=
  ∀ raw raw', (classify raw).classification = .File →
    (classify raw').classification = .Remote →
    normalize config (classify raw) ≠ normalize config (classify raw')

end Resolver

namespace Resolver

open Index

/-- Every reference of the active chain has been seen, and every reference not seen yet is
one of `pending`. -/
structure Steady (pending chain : List String) (s : Session) : Prop where
  chain : ∀ x ∈ chain, s.seen x = true
  pending : ∀ id r, s.references.get? id = some r → r.Seen = false → id ∈ pending

end Resolver

namespace Resolver

open Index

/-- The state of the file-based references under a policy that forbids file lookups: every
index but the root's was loaded for a remote reference, the loader was invoked for remote
references only, and every reference registered under the identifier of a file-based
reference string is unresolved, with a `LookupDisallowed` error recorded for its identifier
once it has been seen. -/
def Gated (config : SpecIndexConfig) (s : Session) : Prop :=
  (∀ ix ∈ s.indexes, ix.source = "" ∨
    (config.AllowRemoteLookup = true ∧
      ∃ raw, (classify raw).classification = .Remote ∧
        ix.source = normalize config (classify raw))) ∧
  (∀ source ∈ s.lookups,
    config.AllowRemoteLookup = true ∧
      ∃ raw, (classify raw).classification = .Remote ∧
        source = normalize config (classify raw)) ∧
  ∀ raw r, (classify raw).classification = .File →
    s.references.get? (referenceId config raw) = some r →
    r.Resolved = false ∧
      (r.Seen = true →
        ∃ raw', referenceId config raw' = referenceId config raw ∧
          .LookupDisallowed raw' ∈ s.errors)

/-- The state of the file-based references whose file is present, under a policy that
permits file lookups: every such reference that has been seen is resolved. -/
def Served (config : SpecIndexConfig) (lookup : ExternalLookupFunction) (s : Session) : Prop :=
  ∀ raw document t r, (classify raw).classification = .File →
    lookup (normalize config (classify raw)) = some document →
    document.get? (classify raw).fragment = some t →
    s.references.get? (referenceId config raw) = some r → r.Seen = true → r.Resolved = true

end Resolver

namespace Resolver

open Index

/-- Every reference of the active chain, and of every chain of the cycle report, has been
seen. -/
def Traced (chain : List String) (s : Session) : Prop :=
  (∀ x ∈ chain, s.seen x = true) ∧
  ∀ c ∈ s.circularReferences, ∀ x ∈ c.chain, s.seen x = true

/-- The self-referential reference `A` is settled: it has been seen, the cycle report is
`before`, then the chain `A` alone, then results that do not hold `A` in their chain. -/
def Settled (A : String) (before : List CircularReferenceResult) (s : Session) : Prop :=
  s.seen A = true ∧
  ∃ more, s.circularReferences = before ++ { chain := [A] } :: more ∧
    ∀ c ∈ more, A ∉ c.chain

end Resolver

/-! ## Concrete inputs for the limits of the statements about the resolver -/

namespace Examples

open Yaml

/-- A document whose schema `Node` holds the reference to itself twice. -/
def selfTwice : Resolver.Document :=
  [(nodeRef, { body := nodeSchema, references := [nodeRef, nodeRef] })]

/-- A document whose schema `Tree` refers to the self-referential schema `Node`. -/
def selfBehind : Resolver.Document :=
  [("#/components/schemas/Tree", { body := petSchema, references := [nodeRef] }),
   (nodeRef, { body := nodeSchema, references := [nodeRef] })]

/-- A config that forbids file lookups and permits remote ones, with the base URL
`https://h`. -/
def remoteOnly : Index.SpecIndexConfig :=
  { BaseURL := some "https://h"
    BasePath := "/work"
    AllowRemoteLookup := true
    AllowFileLookup := false
    seenRemoteSources := some []
    remoteLock := none }

/-- A config that permits file lookups and forbids remote ones, with the base URL
`https://h`. -/
def fileOnly : Index.SpecIndexConfig :=
  { BaseURL := some "https://h"
    BasePath := "/work"
    AllowRemoteLookup := false
    AllowFileLookup := true
    seenRemoteSources := some []
    remoteLock := none }

/-- A loader that knows the document `https://h/common.yaml` only. -/
def remoteLoader : Resolver.ExternalLookupFunction :=
  fun source => if source = "https://h/common.yaml" then some commonDocument else none

/-- A document whose schema `Owner` refers to `Pet` by its URL. -/
def ownerByURL : Resolver.Document :=
  [("#/Owner", { body := petSchema, references := ["https://h/common.yaml#/Pet"] })]

/-- A document with a fragment named like a file identifier under the base path `#w`, and
the schema `Owner`, which refers to that fragment. -/
def ownerByFragment : Resolver.Document :=
  [("#w/common.yaml#/Pet", { body := petSchema, references := [] }),
   ("#/Owner", { body := petSchema, references := ["#w/common.yaml#/Pet"] })]

/-- A config that forbids file lookups and permits remote ones, without a base URL. -/
def remoteOnlyPlain : Index.SpecIndexConfig :=
  { BaseURL := none
    BasePath := "/work"
    AllowRemoteLookup := true
    AllowFileLookup := false
    seenRemoteSources := some []
    remoteLock := none }

/-- A document with the self-referential schema `Node` and the schema `Owner`, which refers to
`Pet` by its URL. -/
def nodeAndOwner : Resolver.Document :=
  [(nodeRef, { body := nodeSchema, references := [nodeRef] }),
   ("#/Owner", { body := petSchema, references := ["https://h/common.yaml#/Pet"] })]

end Examples

/-! ## Theorems -/

namespace Index

/-- C1: `CreateOpenAPIIndexConfig` returns a config with `AllowRemoteLookup = true` and
`AllowFileLookup = true`, and `CreateClosedAPIIndexConfig` one with both flags `false`,
whatever the working directory is. -/
theorem presets_lookup_flags (cw : String) :
    (CreateOpenAPIIndexConfig cw).AllowRemoteLookup = true ∧
    (CreateOpenAPIIndexConfig cw).AllowFileLookup = true ∧
    (CreateClosedAPIIndexConfig cw).AllowRemoteLookup = false ∧
    (CreateClosedAPIIndexConfig cw).AllowFileLookup = false :=
  ⟨rfl, rfl, rfl, rfl⟩

theorem SpecIndex.children_AddChild (index child : SpecIndex) :
    (index.AddChild child).children = index.children ++ [child] := by
  cases index; rfl

theorem SpecIndex.children_foldl_AddChild (added : List SpecIndex) (index : SpecIndex) :
    (added.foldl SpecIndex.AddChild index).children = index.children ++ added := by
  induction added generalizing index with
  | nil => simp
  | cons c cs ih => simp [ih, SpecIndex.children_AddChild]

/-- C2: after `AddChild(c)` on an index with children `cs`, `GetChildren` returns `cs` followed
by `c`: the length grows by exactly one, the first `cs.length` children are `cs` unchanged, and
children added one after the other are returned after the earlier ones, in the order in which
they were added. -/
theorem AddChild_GetChildren (index c : SpecIndex) (added : List SpecIndex) :
    (index.AddChild c).GetChildren = index.GetChildren ++ [c] ∧
    (index.AddChild c).GetChildren.length = index.GetChildren.length + 1 ∧
    (index.AddChild c).GetChildren.take index.GetChildren.length = index.GetChildren ∧
    (added.foldl SpecIndex.AddChild index).GetChildren = index.GetChildren ++ added := by
  refine ⟨SpecIndex.children_AddChild index c, ?_, ?_,
    SpecIndex.children_foldl_AddChild added index⟩
  · simp [SpecIndex.GetChildren, SpecIndex.children_AddChild]
  · simp [SpecIndex.GetChildren, SpecIndex.children_AddChild]

end Index

namespace HighV3

/-- C3: for every low-level `Operation` `op`, `NewOperation(op).GoLow()` is the pointer `op`
itself (same address, same value), and `GoLowUntyped()` holds the very pointer that `GoLow()`
returns. -/
theorem NewOperation_GoLow {T : Objects} (C : Constructors T) (op : Ref (LowOperation T)) :
    (NewOperation C op).GoLow = some op ∧
    (NewOperation C op).GoLowUntyped.val = (NewOperation C op).GoLow :=
  ⟨rfl, rfl⟩

end HighV3

namespace LowV3

open Yaml Low Examples

/-- C4 (the code at the failing input): on the list of one requirement `{a: [x], b: [y]}`,
`Build` returns no error and keeps a single entry, for the last scheme `b`; `FindRequirement`
finds the scopes of `b` and returns nil for the scheme `a`, whose scopes are `[x]`. -/
theorem Build_keeps_last_scheme_only :
    (SecurityRequirement.Build { ValueRequirements := [] } twoSchemes).2 = none ∧
    (SecurityRequirement.Build { ValueRequirements := [] } twoSchemes).1.ValueRequirements =
      [{ Value := [(LowV2.keyOf keyB,
            { Value := [{ Value := "y", ValueNode := some scopeY }], ValueNode := some keyB })]
         ValueNode := some itemAB }] ∧
    (SecurityRequirement.Build { ValueRequirements := [] } twoSchemes).1.FindRequirement "b" =
      [{ Value := "y", ValueNode := some scopeY }] ∧
    (SecurityRequirement.Build { ValueRequirements := [] } twoSchemes).1.FindRequirement "a" =
      [] := by
  decide

theorem findInMap_eq_none {name : String} {m : LowV2.ValueMap}
    (h : ∀ e ∈ m, e.1.Value ≠ name) : findInMap name m = none := by
  induction m with
  | nil => rfl
  | cons e m ih =>
    obtain ⟨k, v⟩ := e
    have hk : k.Value ≠ name := h (k, v) (List.mem_cons_self _ _)
    simp only [findInMap, hk, if_false]
    exact ih (fun e he => h e (List.mem_cons_of_mem _ he))

theorem findInMap_of_mem {name : String} {m : LowV2.ValueMap}
    (h : ∃ e ∈ m, e.1.Value = name) :
    ∃ e ∈ m, e.1.Value = name ∧ findInMap name m = some e.2.Value := by
  induction m with
  | nil => obtain ⟨e, he, _⟩ := h; cases he
  | cons e m ih =>
    obtain ⟨k, v⟩ := e
    by_cases hk : k.Value = name
    · exact ⟨(k, v), List.mem_cons_self _ _, hk, by simp [findInMap, hk]⟩
    · have h' : ∃ e ∈ m, e.1.Value = name := by
        obtain ⟨e, he, hn⟩ := h
        rcases List.mem_cons.1 he with rfl | he
        · exact absurd hn hk
        · exact ⟨e, he, hn⟩
      obtain ⟨e, he, hn, hf⟩ := ih h'
      exact ⟨e, List.mem_cons_of_mem _ he, hn, by simp [findInMap, hk, hf]⟩

theorem findInList_skip {name : String} (before rest : List (ValueReference LowV2.ValueMap))
    (h : ∀ r ∈ before, ∀ e ∈ r.Value, e.1.Value ≠ name) :
    findInList name (before ++ rest) = findInList name rest := by
  induction before with
  | nil => rfl
  | cons r rs ih =>
    have h0 := findInMap_eq_none (h r (List.mem_cons_self _ _))
    simp only [List.cons_append, findInList, h0]
    exact ih (fun r' hr' => h r' (List.mem_cons_of_mem _ hr'))

/-- C5: `FindRequirement(name)` returns nil when no requirement map has a key whose `Value` is
`name`; otherwise, with `r` the earliest requirement of the list that has such a key (no
requirement before it has one), it returns the scope list stored in `r` under a key whose
`Value` is `name`.  The maps are lists in iteration order, so this holds for every order in
which the maps are visited. -/
theorem FindRequirement_earliest (sr : SecurityRequirement) (name : String) :
    ((∀ r ∈ sr.ValueRequirements, ∀ e ∈ r.Value, e.1.Value ≠ name) →
      sr.FindRequirement name = []) ∧
    (∀ before r after, sr.ValueRequirements = before ++ r :: after →
      (∀ r' ∈ before, ∀ e ∈ r'.Value, e.1.Value ≠ name) →
      (∃ e ∈ r.Value, e.1.Value = name) →
      ∃ e ∈ r.Value, e.1.Value = name ∧ sr.FindRequirement name = e.2.Value) := by
  constructor
  · intro h
    have := findInList_skip sr.ValueRequirements [] h
    simpa [SecurityRequirement.FindRequirement, findInList] using this
  · intro before r after hs hb hr
    obtain ⟨e, he, hn, hf⟩ := findInMap_of_mem hr
    refine ⟨e, he, hn, ?_⟩
    simp only [SecurityRequirement.FindRequirement, hs, findInList_skip before _ hb,
      findInList, hf]

end LowV3

namespace GoMap

variable {K V : Type} [DecidableEq K]

theorem set_of_not_mem (m : GoMap K V) (k : K) (v : V) (h : k ∉ m.keys) :
    m.set k v = m ++ [(k, v)] := by
  induction m with
  | nil => rfl
  | cons e m ih =>
    obtain ⟨k', v'⟩ := e
    simp only [keys, List.map_cons, List.mem_cons, not_or] at h
    have hne : ¬ k' = k := fun hk => h.1 hk.symm
    simp only [set, hne, if_false, List.cons_append]
    rw [ih h.2]

theorem get?_set (m : GoMap K V) (k k' : K) (v : V) :
    (m.set k v).get? k' = if k = k' then some v else m.get? k' := by
  induction m with
  | nil => simp [set, get?]
  | cons e m ih =>
    obtain ⟨k₀, v₀⟩ := e
    by_cases h0 : k₀ = k
    · subst h0
      by_cases h1 : k₀ = k' <;> simp [set, get?, h1]
    · by_cases h1 : k₀ = k'
      · subst h1
        have : ¬ k = k₀ := fun h => h0 h.symm
        simp [set, get?, h0, this]
      · simp [set, get?, h0, h1, ih]

theorem get?_of_mem (m : GoMap K V) (hk : m.keys.Nodup) (k : K) (v : V) (h : (k, v) ∈ m) :
    m.get? k = some v := by
  induction m with
  | nil => cases h
  | cons e m ih =>
    obtain ⟨k₀, v₀⟩ := e
    simp only [keys, List.map_cons, List.nodup_cons] at hk
    rcases List.mem_cons.1 h with h | h
    · injection h with h1 h2
      subst h1; subst h2
      simp [get?]
    · have hne : ¬ k₀ = k := by
        intro hk0
        subst hk0
        exact hk.1 (List.mem_map_of_mem Prod.fst h)
      simp only [get?, hne, if_false]
      exact ih hk.2 h

end GoMap

namespace LowV2

open Yaml Low

theorem keyOf_injective : Function.Injective keyOf := by
  intro a b h
  simp only [keyOf, KeyReference.mk.injEq, Option.some.injEq] at h
  exact h.2

/-- The loop of `Build` on a well-formed content never panics and stores the pairs one after
the other. -/
theorem buildLoop_pairs (ps : List (Node × Node)) (i : Nat) (hi : i % 2 = 0) (st : BuildState) :
    ∃ st', buildLoop (pairsContent ps) i st = some st' ∧
      st'.valueMap = ps.foldl (fun m p => m.set (entryOf p).1 (entryOf p).2) st.valueMap := by
  induction ps generalizing i st with
  | nil => exact ⟨st, rfl, rfl⟩
  | cons p ps ih =>
    obtain ⟨k, v⟩ := p
    have h1 : ¬ (i + 1) % 2 = 0 := by omega
    have h2 : (i + 1 + 1) % 2 = 0 := by omega
    simp only [pairsContent, buildLoop, hi, h1, if_true, if_false, List.nil_append,
      List.foldl_cons]
    exact ih (i + 1 + 1) h2 _

theorem foldl_set_entries (ps : List (Node × Node)) (m : ValueMap)
    (hnd : (ps.map Prod.fst).Nodup) (hm : ∀ p ∈ ps, keyOf p.1 ∉ m.keys) :
    ps.foldl (fun m p => m.set (entryOf p).1 (entryOf p).2) m = m ++ ps.map entryOf := by
  induction ps generalizing m with
  | nil => simp
  | cons p ps ih =>
    simp only [List.map_cons, List.nodup_cons] at hnd
    simp only [List.foldl_cons, List.map_cons]
    have h0 : (entryOf p).1 ∉ GoMap.keys m := hm p (List.mem_cons_self _ _)
    rw [GoMap.set_of_not_mem m _ _ h0, ih _ hnd.2]
    · simp
    · intro q hq
      simp only [GoMap.keys, List.map_append, List.map_cons, List.map_nil, List.mem_append,
        List.mem_singleton, not_or]
      refine ⟨hm q (List.mem_cons_of_mem _ hq), ?_⟩
      intro h
      have : q.1 = p.1 := keyOf_injective h
      exact hnd.1 (this ▸ List.mem_map_of_mem Prod.fst hq)

theorem keys_map_entryOf (ps : List (Node × Node)) :
    GoMap.keys (ps.map entryOf) = (ps.map Prod.fst).map keyOf := by
  simp [GoMap.keys, entryOf, Function.comp_def]

/-- C6: for a mapping node `root` with content `k0, v0, ..., k(n-1), v(n-1)` whose key nodes
are pairwise distinct nodes, v2 `Build` returns (no panic) with a nil error, sets
`Values.ValueNode` to `root`, and stores exactly one entry per pair: keyed by `(ki.Value, ki)`,
with `ValueNode` `vi` and with value the children of `vi` in order, each with its scalar value
and its node, so that no scope of one scheme is in the list of another; reading the map at
`(ki.Value, ki)` gives that entry. -/
theorem Build_mapping (s : SecurityRequirement) (root : Node) (ps : List (Node × Node))
    (hc : root.Content = pairsContent ps) (hk : (ps.map Prod.fst).Nodup) :
    s.Build root =
      some ({ Values := { Value := ps.map entryOf, ValueNode := some root } }, none) ∧
    ∀ p ∈ ps, GoMap.get? (ps.map entryOf) { Value := p.1.Value, KeyNode := some p.1 } =
      some { Value := p.2.Content.map (fun c => { Value := c.Value, ValueNode := some c })
             ValueNode := some p.2 } := by
  constructor
  · obtain ⟨st', h1, h2⟩ := buildLoop_pairs ps 0 rfl { labelNode := none, valueMap := [], arr := [] }
    rw [foldl_set_entries ps [] hk (fun _ _ => by simp [GoMap.keys])] at h2
    simp only [SecurityRequirement.Build, hc, h1, h2, List.nil_append]
  · intro p hp
    have hnd : (GoMap.keys (ps.map entryOf)).Nodup := by
      rw [keys_map_entryOf]
      exact hk.map keyOf_injective
    exact GoMap.get?_of_mem _ hnd _ _ (List.mem_map_of_mem entryOf hp)

end LowV2

namespace Go

/-- The embedded SHA-256 on the test vector `abc` of FIPS 180-4. -/
theorem Sum256_abc :
    Sha256.Sum256 (bytes "abc") =
      [0xba, 0x78, 0x16, 0xbf, 0x8f, 0x01, 0xcf, 0xea, 0x41, 0x41, 0x40, 0xde, 0x5d, 0xae, 0x22,
       0x23, 0xb0, 0x03, 0x61, 0xa3, 0x96, 0x17, 0x7a, 0x9c, 0xb4, 0x10, 0xff, 0x61, 0xf2, 0x00,
       0x15, 0xad] := by
  set_option maxRecDepth 100000 in decide

theorem sortStrings_perm (l : List String) : (sortStrings l).Perm l :=
  List.perm_insertionSort strLE l

theorem sortStrings_eq_of_perm {l₁ l₂ : List String} (h : l₁.Perm l₂) :
    sortStrings l₁ = sortStrings l₂ :=
  List.eq_of_perm_of_sorted
    (((sortStrings_perm l₁).trans h).trans (sortStrings_perm l₂).symm)
    (List.sorted_insertionSort strLE l₁) (List.sorted_insertionSort strLE l₂)

theorem mem_sortStrings {l : List String} {a : String} : a ∈ sortStrings l ↔ a ∈ l :=
  (sortStrings_perm l).mem_iff

end Go

namespace LowV2

open Yaml Low

theorem hashStep_fold_valKeys (m : ValueMap) (ks : List (KeyReference String))
    (acc : GoMap String (List String) × List String) :
    (ks.foldl (hashStep m) acc).2 = acc.2 ++ ks.map (fun k => k.Value) := by
  induction ks generalizing acc with
  | nil => simp
  | cons k ks ih => simp [ih, hashStep]

theorem hashStep_fold_values_other (m : ValueMap) (ks : List (KeyReference String))
    (acc : GoMap String (List String) × List String) (name : String)
    (h : name ∉ ks.map (fun k => k.Value)) :
    (ks.foldl (hashStep m) acc).1.get? name = acc.1.get? name := by
  induction ks generalizing acc with
  | nil => rfl
  | cons k ks ih =>
    simp only [List.map_cons, List.mem_cons, not_or] at h
    rw [List.foldl_cons, ih _ h.2]
    have hne : ¬ k.Value = name := fun hk => h.1 hk.symm
    simp only [hashStep]
    split
    · rw [GoMap.get?_set]; simp [hne]
    · rfl

theorem hashStep_fold_values (m : ValueMap) (ks : List (KeyReference String))
    (acc : GoMap String (List String) × List String)
    (hnd : (ks.map (fun k => k.Value)).Nodup) (k : KeyReference String) (hk : k ∈ ks)
    (hacc : acc.1.get? k.Value = none) :
    ((ks.foldl (hashStep m) acc).1.get? k.Value).getD [] =
      sortedVals ((m.get? k).getD { Value := [], ValueNode := none }) := by
  induction ks generalizing acc with
  | nil => cases hk
  | cons k₀ ks ih =>
    simp only [List.map_cons, List.nodup_cons] at hnd
    rw [List.foldl_cons]
    rcases List.mem_cons.1 hk with rfl | hk'
    · rw [hashStep_fold_values_other m ks _ _ hnd.1]
      simp only [hashStep]
      split
      · rw [GoMap.get?_set]; simp
      · rename_i hlen
        rw [hacc]
        have : (sortedVals ((m.get? k).getD { Value := [], ValueNode := none })).length = 0 := by
          omega
        simp [List.length_eq_zero.1 this]
    · apply ih _ hnd.2 hk'
      have hne : ¬ k₀.Value = k.Value := by
        intro h
        exact hnd.1 (h ▸ List.mem_map_of_mem (fun k => k.Value) hk')
      simp only [hashStep]
      split
      · rw [GoMap.get?_set]; simp [hne, hacc]
      · exact hacc

theorem keys_nodup_of_names_nodup {m : ValueMap} (h : (names m).Nodup) : m.keys.Nodup := by
  have : names m = m.keys.map (fun k => k.Value) := by
    simp [names, GoMap.keys, Function.comp_def]
  rw [this] at h
  exact List.Nodup.of_map _ h

theorem hashParts_congr {m₁ m₂ : ValueMap} (h : SameUpToScopeOrder m₁ m₂) :
    hashParts m₁ = hashParts m₂ := by
  obtain ⟨hn₁, hn₂, hperm, hsc⟩ := h
  have hk₁ : names m₁ = m₁.keys.map (fun k => k.Value) := by
    simp [names, GoMap.keys, Function.comp_def]
  have hk₂ : names m₂ = m₂.keys.map (fun k => k.Value) := by
    simp [names, GoMap.keys, Function.comp_def]
  simp only [hashParts, hashStep_fold_valKeys, List.nil_append]
  rw [← hk₁, ← hk₂, Go.sortStrings_eq_of_perm hperm]
  apply List.map_congr_left
  intro name hname
  rw [Go.mem_sortStrings] at hname
  have hname₁ : name ∈ names m₁ := hperm.mem_iff.2 hname
  obtain ⟨e₁, he₁, hv₁⟩ := List.mem_map.1 hname₁
  obtain ⟨e₂, he₂, hv₂⟩ := List.mem_map.1 hname
  have key : ∀ (m : ValueMap), (names m).Nodup → ∀ e ∈ m,
      ((m.keys.foldl (hashStep m) ([], [])).1.get? e.1.Value).getD [] = sortedVals e.2 := by
    intro m hn e he
    have hnk : (m.keys.map (fun k => k.Value)).Nodup := by
      have : names m = m.keys.map (fun k => k.Value) := by
        simp [names, GoMap.keys, Function.comp_def]
      rw [← this]; exact hn
    rw [hashStep_fold_values m m.keys ([], []) hnk e.1 (List.mem_map_of_mem Prod.fst he) rfl,
      GoMap.get?_of_mem m (keys_nodup_of_names_nodup hn) e.1 e.2 he]
    rfl
  have h₁ := key m₁ hn₁ e₁ he₁
  have h₂ := key m₂ hn₂ e₂ he₂
  rw [hv₁] at h₁
  rw [hv₂] at h₂
  rw [h₁, h₂]
  have : sortedVals e₁.2 = sortedVals e₂.2 :=
    Go.sortStrings_eq_of_perm (hsc e₁ he₁ e₂ he₂ (hv₁.trans hv₂.symm))
  rw [this]

/-- C7: v2 `Hash` is insensitive to the order of the scopes and to the nodes: two requirements
with the same pairwise distinct scheme names, in which the scope list of every scheme in one
is a permutation of its scope list in the other, have equal hashes, whatever key nodes and
value nodes the entries carry and in whatever order each map is visited. -/
theorem Hash_scope_order (s₁ s₂ : SecurityRequirement)
    (h : SameUpToScopeOrder s₁.Values.Value s₂.Values.Value) : s₁.Hash = s₂.Hash := by
  simp only [SecurityRequirement.Hash, hashParts_congr h]

end LowV2

namespace LowV3

open Yaml Low

theorem foldl_hashParts (rs : List (ValueReference LowV2.ValueMap)) (f : List String) :
    rs.foldl (fun f r => f ++ LowV2.hashParts r.Value) f =
      f ++ (rs.map (fun r => LowV2.hashParts r.Value)).flatten := by
  induction rs generalizing f with
  | nil => simp
  | cons r rs ih => simp [ih]

theorem map_hashParts_congr {rs₁ rs₂ : List (ValueReference LowV2.ValueMap)}
    (h : List.Forall₂ (fun r₁ r₂ => LowV2.SameUpToScopeOrder r₁.Value r₂.Value) rs₁ rs₂) :
    rs₁.map (fun r => LowV2.hashParts r.Value) = rs₂.map (fun r => LowV2.hashParts r.Value) := by
  induction h with
  | nil => rfl
  | cons hr _ ih => simp [LowV2.hashParts_congr hr, ih]

/-- C10: v3 `SecurityRequirement.Hash` depends only on the scheme names and the scope strings,
not on the order of the scopes: two requirement lists of the same length whose maps at every
position have the same pairwise distinct scheme names, with scope lists that are permutations
of each other, have equal hashes. -/
theorem Hash_requirements_scope_order (sr₁ sr₂ : SecurityRequirement)
    (h : List.Forall₂ (fun r₁ r₂ => LowV2.SameUpToScopeOrder r₁.Value r₂.Value)
      sr₁.ValueRequirements sr₂.ValueRequirements) : sr₁.Hash = sr₂.Hash := by
  simp only [SecurityRequirement.Hash, foldl_hashParts, map_hashParts_congr h]

end LowV3

namespace LowV3

open Yaml Low Examples

/-- Witness of C5 on the list `{b: [y]}`, `{a: [x], b: []}`: no key is named `c`, and the
earliest requirement with a key named `b` is the first one. -/
theorem FindRequirement_earliest_witness :
    SecurityRequirement.FindRequirement { ValueRequirements := [requirementB, requirementAB] }
      "c" = [] ∧
    ∃ e ∈ requirementB.Value, e.1.Value = "b" ∧
      SecurityRequirement.FindRequirement { ValueRequirements := [requirementB, requirementAB] }
        "b" = e.2.Value :=
  ⟨(FindRequirement_earliest { ValueRequirements := [requirementB, requirementAB] } "c").1
      (by decide),
   (FindRequirement_earliest { ValueRequirements := [requirementB, requirementAB] } "b").2
      [] requirementB [requirementAB] rfl (by decide) (by decide)⟩

/-- C9 (the code at the failing input): a security scheme whose only content is the two
extensions `x-a: 1` and `x-b: 2` hashes the text `x-a-1|x-b-2` when the map is visited in one
order and `x-b-2|x-a-1` in the other, and the two digests differ. -/
theorem SecurityScheme_Hash_iteration_order :
    [extB, extA].Perm [extA, extB] ∧
    (schemeWith [extA, extB]).hashFields (fun _ => "") id = ["x-a-1", "x-b-2"] ∧
    (schemeWith [extB, extA]).hashFields (fun _ => "") id = ["x-b-2", "x-a-1"] ∧
    (schemeWith [extA, extB]).Hash (fun _ => "") id ≠
      (schemeWith [extB, extA]).Hash (fun _ => "") id := by
  refine ⟨List.Perm.swap _ _ _, by decide, by decide, ?_⟩
  set_option maxRecDepth 100000 in decide

/-- Witness of C10 on two lists of one requirement: `{a: [x, y], b: []}` read from a document
and `{b: [], a: [y, x]}` without nodes. -/
theorem Hash_requirements_scope_order_witness :
    LowV2.SameUpToScopeOrder scopesXY scopesYX ∧
    SecurityRequirement.Hash
        { ValueRequirements := [{ Value := scopesXY, ValueNode := some itemAB }] } =
      SecurityRequirement.Hash
        { ValueRequirements := [{ Value := scopesYX, ValueNode := none }] } :=
  have h : LowV2.SameUpToScopeOrder scopesXY scopesYX := by
    unfold LowV2.SameUpToScopeOrder
    decide
  ⟨h, Hash_requirements_scope_order _ _ (List.Forall₂.cons h List.Forall₂.nil)⟩

end LowV3

namespace LowV2

open Yaml Low Examples

/-- Witness of C6 on the mapping `{a: [x], b: [y]}`. -/
theorem Build_mapping_witness :
    SecurityRequirement.Build { Values := { Value := [], ValueNode := none } } itemAB =
      some ({ Values := { Value := pairsAB.map entryOf, ValueNode := some itemAB } }, none) ∧
    ∀ p ∈ pairsAB, GoMap.get? (pairsAB.map entryOf) { Value := p.1.Value, KeyNode := some p.1 } =
      some { Value := p.2.Content.map (fun c => { Value := c.Value, ValueNode := some c })
             ValueNode := some p.2 } :=
  Build_mapping _ itemAB pairsAB rfl (by decide)

/-- Witness of C7: `{a: [x, y], b: []}` read from a document and `{b: [], a: [y, x]}` without
nodes have the same hash. -/
theorem Hash_scope_order_witness :
    SameUpToScopeOrder scopesXY scopesYX ∧
    SecurityRequirement.Hash { Values := { Value := scopesXY, ValueNode := some itemAB } } =
      SecurityRequirement.Hash { Values := { Value := scopesYX, ValueNode := none } } :=
  have h : SameUpToScopeOrder scopesXY scopesYX := by
    unfold SameUpToScopeOrder
    decide
  ⟨h, Hash_scope_order _ _ h⟩

/-- C8 (the code at the failing input): `Build` makes of the mapping `a: [x]`, `a: [y]` a map
with two keys named `a`; visited in one order the map hashes the text `a-y|a-y`, in the other
order `a-x|a-x`, and the two digests differ. -/
theorem Hash_same_name_iteration_order :
    SecurityRequirement.Build { Values := { Value := [], ValueNode := none } } sameNameTwice =
      some ({ Values := { Value := sameNameTwiceMap, ValueNode := some sameNameTwice } }, none) ∧
    sameNameTwiceMapSwapped.Perm sameNameTwiceMap ∧
    hashParts sameNameTwiceMap = ["a-y", "a-y"] ∧
    hashParts sameNameTwiceMapSwapped = ["a-x", "a-x"] ∧
    SecurityRequirement.Hash
        { Values := { Value := sameNameTwiceMap, ValueNode := some sameNameTwice } } ≠
      SecurityRequirement.Hash
        { Values := { Value := sameNameTwiceMapSwapped, ValueNode := some sameNameTwice } } := by
  refine ⟨by decide, List.Perm.swap _ _ _, by decide, by decide, ?_⟩
  set_option maxRecDepth 100000 in decide

end LowV2

namespace WhatChanged

/-- C11: for every `ExampleChanges` `e`, `TotalChanges()` is the number of property changes of
`e` plus, when `ExtensionChanges` is present, the number of property changes of the extension
changes; when `ExtensionChanges` is absent it is the number of property changes of `e` alone. -/
theorem ExampleChanges_TotalChanges (p : PropertyChanges) (x : ExtensionChanges) :
    ExampleChanges.TotalChanges { PropertyChanges := p, ExtensionChanges := some x } =
      p.TotalChanges + x.PropertyChanges.TotalChanges ∧
    ExampleChanges.TotalChanges { PropertyChanges := p, ExtensionChanges := none } =
      p.TotalChanges ∧
    p.TotalChanges = p.Changes.length :=
  ⟨rfl, rfl, rfl⟩

/-- C12: for every `ExampleChanges` `e`, `TotalBreakingChanges()` is the number of breaking
changes among the property changes of `e`; it is the same whatever `ExtensionChanges` is, so
extension changes never contribute; and it is never larger than `TotalChanges()`. -/
theorem ExampleChanges_TotalBreakingChanges (e : ExampleChanges)
    (x : Option ExtensionChanges) :
    e.TotalBreakingChanges = e.PropertyChanges.TotalBreakingChanges ∧
    e.TotalBreakingChanges = (e.PropertyChanges.Changes.filter (fun c => c.Breaking)).length ∧
    ExampleChanges.TotalBreakingChanges { e with ExtensionChanges := x } =
      e.TotalBreakingChanges ∧
    e.TotalBreakingChanges ≤ e.TotalChanges := by
  refine ⟨rfl, rfl, rfl, ?_⟩
  have h : (e.PropertyChanges.Changes.filter (fun c => c.Breaking)).length ≤
      e.PropertyChanges.Changes.length := List.length_filter_le _ _
  cases hx : e.ExtensionChanges with
  | none =>
    simp only [ExampleChanges.TotalBreakingChanges, ExampleChanges.TotalChanges, hx,
      PropertyChanges.TotalBreakingChanges, PropertyChanges.TotalChanges]
    exact h
  | some y =>
    simp only [ExampleChanges.TotalBreakingChanges, ExampleChanges.TotalChanges, hx,
      PropertyChanges.TotalBreakingChanges, PropertyChanges.TotalChanges]
    omega

end WhatChanged

namespace WhatChanged

/-- C13: `CompareOperations` performs a hash check to avoid further processing: for every two
Swagger (v2) operations, and for every two OpenAPI (v3) operations, that `low.AreEqual`
reports equal, `CompareOperations` returns nil (no `OperationChanges`, hence no recorded
change), whatever the helper functions do. -/
theorem CompareOperations_equal {X : Objects} (H : Helpers X) :
    (∀ l r : X.V2Operation, H.AreEqualV2 l r = true →
      CompareOperations H (.v2 l) (.v2 r) = some none) ∧
    (∀ l r : X.V3Operation, H.AreEqualV3 l r = true →
      CompareOperations H (.v3 l) (.v3 r) = some none) := by
  constructor
  · intro l r h
    simp [CompareOperations, h]
  · intro l r h
    simp [CompareOperations, h]

end WhatChanged

namespace Index

/-- C15: the open and the closed preset differ only in the two lookup flags: for the same
working directory both have that directory as `BasePath`, no `BaseURL`, a set of seen remote
sources that is initialised and empty, and setting the two flags of the open preset to `false`
gives the closed preset. -/
theorem presets_differ_only_in_flags (cw : String) :
    (CreateOpenAPIIndexConfig cw).BasePath = cw ∧
    (CreateClosedAPIIndexConfig cw).BasePath = cw ∧
    (CreateOpenAPIIndexConfig cw).BaseURL = none ∧
    (CreateClosedAPIIndexConfig cw).BaseURL = none ∧
    (CreateOpenAPIIndexConfig cw).seenRemoteSources = some [] ∧
    (CreateClosedAPIIndexConfig cw).seenRemoteSources = some [] ∧
    { CreateOpenAPIIndexConfig cw with AllowRemoteLookup := false, AllowFileLookup := false } =
      CreateClosedAPIIndexConfig cw :=
  ⟨rfl, rfl, rfl, rfl, rfl, rfl, rfl⟩

/-- C16: for every `IndexingError` that wraps a non-nil error, `Error()` returns exactly the
message of the wrapped error, whatever its `Node` and `Path` are. -/
theorem IndexingError_Error (err : GoError) (node : Option Yaml.Node) (path : String) :
    IndexingError.Error { Err := some err, Node := node, Path := path } = some err.Error :=
  rfl

namespace Forest

theorem child_AddChild {f : Forest} {index child a b : Nat} :
    Child (f.AddChild index child) a b ↔ Child f a b ∨ (a = index ∧ b = child) := by
  unfold Child AddChild
  by_cases h : a = index
  · simp [h]
  · simp [h]

theorem reachable_AddChild {f : Forest} {index child a b : Nat}
    (h : Reachable (f.AddChild index child) a b) :
    Reachable f a b ∨
      (Relation.ReflTransGen (Child f) a index ∧ Relation.ReflTransGen (Child f) child b) := by
  induction h with
  | single hab =>
    rcases child_AddChild.1 hab with h | ⟨rfl, rfl⟩
    · exact Or.inl (Relation.TransGen.single h)
    · exact Or.inr ⟨Relation.ReflTransGen.refl, Relation.ReflTransGen.refl⟩
  | tail _ hbc ih =>
    rcases child_AddChild.1 hbc with h | ⟨rfl, rfl⟩
    · rcases ih with ih | ⟨h1, h2⟩
      · exact Or.inl (Relation.TransGen.tail ih h)
      · exact Or.inr ⟨h1, Relation.ReflTransGen.tail h2 h⟩
    · rcases ih with ih | ⟨h1, _⟩
      · exact Or.inr ⟨ih.to_reflTransGen, Relation.ReflTransGen.refl⟩
      · exact Or.inr ⟨h1, Relation.ReflTransGen.refl⟩

theorem strictTree_empty : StrictTree empty := by
  refine ⟨?_, ?_, ?_⟩
  · intro a h
    have : ∀ x y, Relation.TransGen (Child empty) x y → False := by
      intro x y hxy
      induction hxy with
      | single h => simp [Child, empty] at h
      | tail _ h _ => simp [Child, empty] at h
    exact this a a h
  · intro p q c h
    simp [empty] at h
  · intro p
    simp [empty]

theorem strictTree_AddChild {f : Forest} {index child : Nat} (hf : StrictTree f)
    (hc : Fresh f index child) : StrictTree (f.AddChild index child) := by
  obtain ⟨hacyc, hpar, hnd⟩ := hf
  obtain ⟨hnew, hreach⟩ := hc
  refine ⟨?_, ?_, ?_⟩
  · intro a h
    rcases reachable_AddChild h with h | ⟨h1, h2⟩
    · exact hacyc a h
    · exact hreach (h2.trans h1)
  · intro p q c hp hq
    have hp' := child_AddChild.1 hp
    have hq' := child_AddChild.1 hq
    rcases hp' with hp' | ⟨hp1, hp2⟩
    · rcases hq' with hq' | ⟨_, hq2⟩
      · exact hpar p q c hp' hq'
      · exact absurd (hq2 ▸ hp') (hnew p)
    · rcases hq' with hq' | ⟨hq1, _⟩
      · exact absurd (hp2 ▸ hq') (hnew q)
      · exact hp1.trans hq1.symm
  · intro p
    unfold AddChild
    by_cases h : p = index
    · simp only [h, if_true]
      refine List.Nodup.append (hnd index) (List.nodup_singleton child) ?_
      intro a ha hac
      rw [List.mem_singleton] at hac
      exact hnew index (hac ▸ ha)
    · simp only [h, if_false]
      exact hnd p

theorem strictTree_run (calls : List (Nat × Nat)) (f : Forest) (hf : StrictTree f)
    (hc : FreshCalls f calls) : StrictTree (f.run calls) := by
  induction calls generalizing f with
  | nil => exact hf
  | cons call calls ih =>
    exact ih (f.AddChild call.1 call.2) (strictTree_AddChild hf hc.1) hc.2

/-- C14 (as stated, false): `AddChild` checks nothing.  From indices without children, the
call `1.AddChild(1)` makes index 1 reachable from itself; the calls `1.AddChild(3)`,
`2.AddChild(3)` put index 3 in the children lists of the two parents 1 and 2; and calling
`1.AddChild(2)` twice puts index 2 twice in the list of index 1. -/
theorem AddChild_checks_nothing :
    Reachable (run empty [(1, 1)]) 1 1 ∧
    (3 ∈ GetChildren (run empty [(1, 3), (2, 3)]) 1 ∧
      3 ∈ GetChildren (run empty [(1, 3), (2, 3)]) 2) ∧
    GetChildren (run empty [(1, 2), (1, 2)]) 1 = [2, 2] ∧
    ¬ StrictTree (run empty [(1, 1)]) := by
  have h : Reachable (run empty [(1, 1)]) 1 1 :=
    Relation.TransGen.single (by simp [Child, run, AddChild, empty])
  exact ⟨h, by decide, by decide, fun hs => hs.1 1 h⟩

/-- C14 (amended): for every sequence of `AddChild` calls on indices that start without
children, in which every call adds an index that is in no children list yet and from which the
parent is not reachable (nor is it the parent itself), the forest stays a strict tree: no index
is reachable from itself through children lists, and no index is in the children lists of two
different parents or twice in one list. -/
theorem AddChild_fresh_strictTree (calls : List (Nat × Nat)) (h : FreshCalls empty calls) :
    StrictTree (run empty calls) :=
  strictTree_run calls empty strictTree_empty h

theorem reflTransGen_of_no_child {f : Forest} {a b : Nat} (ha : f a = [])
    (h : Relation.ReflTransGen (Child f) a b) : a = b := by
  induction h using Relation.ReflTransGen.head_induction_on with
  | refl => rfl
  | head hac _ _ => simp [Child, ha] at hac

/-- Witness of C14 (amended): the calls `1.AddChild(2)`, `1.AddChild(3)`, `2.AddChild(4)`. -/
theorem AddChild_fresh_strictTree_witness :
    FreshCalls empty [(1, 2), (1, 3), (2, 4)] ∧
    StrictTree (run empty [(1, 2), (1, 3), (2, 4)]) :=
  have h : FreshCalls empty [(1, 2), (1, 3), (2, 4)] := by
    refine ⟨⟨?_, ?_⟩, ⟨?_, ?_⟩, ⟨?_, ?_⟩, trivial⟩
    · intro p; simp [empty]
    · intro hr
      exact absurd (reflTransGen_of_no_child (by simp [empty]) hr) (by decide)
    · intro p; simp only [AddChild, empty]; split <;> simp
    · intro hr
      exact absurd (reflTransGen_of_no_child (by simp [AddChild, empty]) hr) (by decide)
    · intro p; simp only [AddChild, empty]; split <;> simp
    · intro hr
      exact absurd (reflTransGen_of_no_child (by simp [AddChild, empty]) hr) (by decide)
  ⟨h, AddChild_fresh_strictTree _ h⟩

end Forest

end Index

namespace Resolver

open Index

theorem splitAtHash_of_nil : ∀ l : List Char, (splitAtHash l).1 = [] → (splitAtHash l).2 = l
  | [], _ => rfl
  | c :: cs, h => by
    by_cases hc : c = '#'
    · simp [splitAtHash, hc]
    · simp [splitAtHash, hc] at h

theorem classify_of_local {raw : String} (h : (classify raw).classification = .Local) :
    classify raw = { classification := .Local, source := "", fragment := raw } := by
  unfold classify at h ⊢
  by_cases hb : (splitAtHash raw.toList).1 = []
  · simp only [hb, if_true]
    rw [splitAtHash_of_nil _ hb]
    rfl
  · simp only [hb, if_false] at h
    split at h <;> cases h

theorem empty_append (s : String) : "" ++ s = s := by
  apply String.ext
  simp

end Resolver

namespace WhatChanged

open Examples

/-- Witness of C13: two Swagger operations, and two OpenAPI operations, of the same name. -/
theorem CompareOperations_equal_witness :
    CompareOperations plainHelpers (.v2 "getPet") (.v2 "getPet") = some none ∧
    CompareOperations plainHelpers (.v3 "getPet") (.v3 "getPet") = some none :=
  ⟨(CompareOperations_equal plainHelpers).1 "getPet" "getPet" (by decide),
   (CompareOperations_equal plainHelpers).2 "getPet" "getPet" (by decide)⟩

end WhatChanged

namespace Resolver

open Index

theorem get?_update (m : GoMap String Reference) (id id' : String) (f : Reference → Reference) :
    GoMap.get? (m.map (fun e => if e.1 = id then (e.1, f e.2) else e)) id' =
      (GoMap.get? m id').map (fun r => if id' = id then f r else r) := by
  induction m with
  | nil => rfl
  | cons e m ih =>
    obtain ⟨k, v⟩ := e
    rw [List.map_cons]
    by_cases hi : k = id
    · rw [if_pos (show (k, v).1 = id from hi)]
      by_cases hk : k = id'
      · subst hk
        simp [GoMap.get?, hi]
      · rw [show GoMap.get? ((k, v) :: m) id' = GoMap.get? m id' from by simp [GoMap.get?, hk]]
        rw [← ih]
        simp [GoMap.get?, hk]
    · rw [if_neg (show ¬ (k, v).1 = id from hi)]
      by_cases hk : k = id'
      · subst hk
        simp [GoMap.get?, hi]
      · rw [show GoMap.get? ((k, v) :: m) id' = GoMap.get? m id' from by simp [GoMap.get?, hk]]
        rw [← ih]
        simp [GoMap.get?, hk]

end Resolver

namespace Resolver

open Index

theorem references_fetch (lookup : ExternalLookupFunction) (s : Session) (current : Nat)
    (source : String) : (fetch lookup s current source).1.references = s.references := by
  unfold fetch
  split <;> rfl

end Resolver

namespace Resolver

open Index

theorem append_ne_empty_of_right {a b : String} (h : b ≠ "") : a ++ b ≠ "" := by
  intro e
  apply h
  have := congrArg String.data e
  simp only [String.data_append, List.append_eq_nil] at this
  exact String.ext this.2

end Resolver

namespace Resolver

open Index

theorem source_ne_empty_of_external {raw : String}
    (h : (classify raw).classification ≠ .Local) : (classify raw).source ≠ "" := by
  unfold classify at h ⊢
  by_cases hb : (splitAtHash raw.toList).1 = []
  · rw [if_pos hb] at h
    exact absurd rfl h
  · rw [if_neg hb]
    intro e
    exact hb (congrArg String.data e)

theorem normalize_ne_empty (config : SpecIndexConfig) {raw : String}
    (h : (classify raw).classification ≠ .Local) : normalize config (classify raw) ≠ "" := by
  have hs := source_ne_empty_of_external h
  unfold normalize
  split
  · rename_i hc; exact absurd hc h
  · exact hs
  · split
    · exact hs
    · split <;> exact append_ne_empty_of_right hs

theorem normalize_registerSource (config : SpecIndexConfig) (source : String) (p : Pointer) :
    normalize (registerSource config source) p = normalize config p := rfl

theorem targetSource_external (s : Session) (current : Nat) {raw : String}
    (h : (classify raw).classification ≠ .Local) :
    targetSource s current (classify raw) = normalize s.config (classify raw) := by
  unfold targetSource
  split
  · rename_i hc; exact absurd hc h
  · rfl

end Resolver

namespace Resolver

open Index

theorem allowFile_registerSource (config : SpecIndexConfig) (source : String) :
    (registerSource config source).AllowFileLookup = config.AllowFileLookup := rfl

theorem allowRemote_registerSource (config : SpecIndexConfig) (source : String) :
    (registerSource config source).AllowRemoteLookup = config.AllowRemoteLookup := rfl

theorem contains_append_singleton (l : List String) (a b : String) :
    (l ++ [a]).contains b = (l.contains b || decide (a = b)) := by
  induction l with
  | nil =>
    by_cases h : a = b
    · subst h; simp
    · have h' : ¬ b = a := fun e => h e.symm
      simp [h, h']
  | cons x l ih =>
    simp only [List.cons_append, List.contains_cons, ih, Bool.or_assoc]

theorem seenSource_registerSource (config : SpecIndexConfig) (source source' : String) :
    seenSource (registerSource config source) source' =
      (seenSource config source' || decide (source = source')) := by
  unfold seenSource registerSource
  cases h : config.seenRemoteSources with
  | none =>
    simp only [Option.getD_none]
    exact (contains_append_singleton [] source source').trans (by simp)
  | some l =>
    simp only [Option.getD_some]
    exact contains_append_singleton l source source'

/-- The resolver on a File or Remote reference when the policy permits both lookups. -/
theorem visitStep_permitted (lookup : ExternalLookupFunction)
    (inner : List String → Nat → String → Session → Option Session) (chain : List String)
    (current : Nat) (raw : String) (s : Session)
    (hext : (classify raw).classification ≠ .Local)
    (hfile : s.config.AllowFileLookup = true) (hremote : s.config.AllowRemoteLookup = true) :
    visitStep lookup inner chain current raw s =
      if (s.ensure (referenceId s.config raw) raw (classify raw)
          (normalize s.config (classify raw))).failed then
        some (s.ensure (referenceId s.config raw) raw (classify raw)
          (normalize s.config (classify raw)))
      else if referenceId s.config raw ∈ chain then
        some ((s.ensure (referenceId s.config raw) raw (classify raw)
          (normalize s.config (classify raw))).recordCycle (referenceId s.config raw) chain)
      else if (s.ensure (referenceId s.config raw) raw (classify raw)
          (normalize s.config (classify raw))).seen (referenceId s.config raw) then
        some (s.ensure (referenceId s.config raw) raw (classify raw)
          (normalize s.config (classify raw)))
      else
        resolveExternal lookup inner chain (referenceId s.config raw) current
          (normalize s.config (classify raw)) (classify raw).fragment
          ((s.ensure (referenceId s.config raw) raw (classify raw)
            (normalize s.config (classify raw))).update (referenceId s.config raw)
              (fun r => { r with Seen := true })) := by
  have hts := targetSource_external s current hext
  have hcfg : (s.ensure (referenceId s.config raw) raw (classify raw)
      (normalize s.config (classify raw))).config = s.config := by
    unfold Session.ensure; split <;> rfl
  unfold visitStep
  simp only [hts]
  rw [show normalize s.config (classify raw) ++ (classify raw).fragment =
    referenceId s.config raw from rfl]
  simp only [Session.update, hcfg, hfile, hremote, if_true]
  cases hc : (classify raw).classification with
  | Local => exact absurd hc hext
  | File => rfl
  | Remote => rfl

end Resolver

namespace Resolver

open Index

theorem diamond_run (config : SpecIndexConfig) (strict : Bool) (lookup : ExternalLookupFunction)
    (root docA docB docC : Document) (rA rB rCa rCb : String) (tA tB tCa tCb : Target)
    (n : Nat)
    (hfile : config.AllowFileLookup = true) (hremote : config.AllowRemoteLookup = true)
    (hA : (classify rA).classification ≠ .Local) (hB : (classify rB).classification ≠ .Local)
    (hCa : (classify rCa).classification ≠ .Local)
    (hCb : (classify rCb).classification ≠ .Local)
    (hshared : normalize config (classify rCb) = normalize config (classify rCa))
    (hab : normalize config (classify rA) ≠ normalize config (classify rB))
    (hac : normalize config (classify rA) ≠ normalize config (classify rCa))
    (hbc : normalize config (classify rB) ≠ normalize config (classify rCa))
    (hidab : referenceId config rA ≠ referenceId config rB)
    (hidac : referenceId config rA ≠ referenceId config rCa)
    (hidbc : referenceId config rB ≠ referenceId config rCa)
    (hidac' : referenceId config rA ≠ referenceId config rCb)
    (hidbc' : referenceId config rB ≠ referenceId config rCb)
    (hlA : lookup (normalize config (classify rA)) = some docA)
    (hlB : lookup (normalize config (classify rB)) = some docB)
    (hlC : lookup (normalize config (classify rCa)) = some docC)
    (htA : docA.get? (classify rA).fragment = some tA) (hrA : tA.references = [rCa])
    (htB : docB.get? (classify rB).fragment = some tB) (hrB : tB.references = [rCb])
    (htCa : docC.get? (classify rCa).fragment = some tCa) (hrCa : tCa.references = [])
    (htCb : docC.get? (classify rCb).fragment = some tCb) (hrCb : tCb.references = []) :
    ∃ s, Resolve lookup (n + 3) (Session.start config strict root [rA, rB]) = some s ∧
      s.lookups = [normalize config (classify rA), normalize config (classify rCa),
        normalize config (classify rB)] ∧
      s.indexes =
        [{ addr := 0, source := "", document := root, parentIndex := none },
         { addr := 1, source := normalize config (classify rA), document := docA
           parentIndex := some 0 },
         { addr := 2, source := normalize config (classify rCa), document := docC
           parentIndex := some 1 },
         { addr := 3, source := normalize config (classify rB), document := docB
           parentIndex := some 0 }] ∧
      s.children = ((Forest.empty.AddChild 0 1).AddChild 1 2).AddChild 0 3 ∧
      s.errors = [] ∧ s.circularReferences = [] ∧
      s.resolved (referenceId config rA) = true ∧ s.resolved (referenceId config rB) = true ∧
      s.resolved (referenceId config rCa) = true ∧
      s.resolved (referenceId config rCb) = true := by
  have ha := normalize_ne_empty config hA
  have hb := normalize_ne_empty config hB
  have hc := normalize_ne_empty config hCa
  have ha' : ¬ "" = normalize config (classify rA) := fun e => ha e.symm
  have hb' : ¬ "" = normalize config (classify rB) := fun e => hb e.symm
  have hc' : ¬ "" = normalize config (classify rCa) := fun e => hc e.symm
  unfold referenceId at hidab hidac hidbc hidac' hidbc'
  rw [hshared] at hidac' hidbc'
  by_cases hsame : (classify rCb).fragment = (classify rCa).fragment
  · simp [Resolve, Session.start, forEach, visit, visitStep_permitted, hA, hB, hCa, hCb,
      Session.ensure, GoMap.set, GoMap.get?, newReference, Session.seen, Session.update, hfile,
      Session.resolved,
      hremote, resolveExternal, obtainIndex, ancestorSources, Session.index?, fetch, hlA, hlB,
      hlC, resolveTarget, htA, htB, htCa, htCb, hrA, hrB, hrCa, hrCb, referenceId, hab, hac,
      hbc, hidab, hidac, hidbc, hidac', hidbc', hab.symm, hac.symm, hbc.symm, hidab.symm,
      hidac.symm, hidbc.symm, Ne.symm hidac', Ne.symm hidbc', hshared, hsame,
      ha, hb, hc, ha', hb', hc', normalize_registerSource, allowFile_registerSource,
      allowRemote_registerSource, seenSource_registerSource]
  · have hidcc : ¬ normalize config (classify rCa) ++ (classify rCb).fragment =
        normalize config (classify rCa) ++ (classify rCa).fragment := by
      intro e
      apply hsame
      have := congrArg String.data e
      simp only [String.data_append, List.append_cancel_left_eq] at this
      exact String.ext this
    have hidcc' : ¬ normalize config (classify rCa) ++ (classify rCa).fragment =
        normalize config (classify rCa) ++ (classify rCb).fragment := fun e => hidcc e.symm
    simp [Resolve, Session.start, forEach, visit, visitStep_permitted, hA, hB, hCa, hCb,
      Session.ensure, GoMap.set, GoMap.get?, newReference, Session.seen, Session.update, hfile,
      Session.resolved,
      hremote, resolveExternal, obtainIndex, ancestorSources, Session.index?, fetch, hlA, hlB,
      hlC, resolveTarget, htA, htB, htCa, htCb, hrA, hrB, hrCa, hrCb, referenceId, hab, hac,
      hbc, hidab, hidac, hidbc, hidac', hidbc', hab.symm, hac.symm, hbc.symm, hidab.symm,
      hidac.symm, hidbc.symm, Ne.symm hidac', Ne.symm hidbc', hshared, hsame, hidcc, hidcc',
      ha, hb, hc, ha', hb', hc', normalize_registerSource, allowFile_registerSource,
      allowRemote_registerSource, seenSource_registerSource]

end Resolver

namespace Resolver

open Index

/-- C22: diamond fetch dedup.  The root document references the documents A (by `rA`) and B
(by `rB`); the content `rA` targets in A references the shared document C (by `rCa`), and the
content `rB` targets in B references C too (by `rCb`, the same fragment of C or another one).
With both lookups permitted, the three documents present and different, the references
holding different identifiers and the targets in C holding no reference, the whole operation
returns for any fuel of at least 3; the loader is invoked for C exactly once (it is invoked
for A, C, B, in this order); exactly one index exists for C, at address 2; that index is in
the children list of the index of A only, and once; no error is recorded and all references
are resolved. -/
theorem diamond_fetch_dedup (config : SpecIndexConfig) (strict : Bool)
    (lookup : ExternalLookupFunction) (root docA docB docC : Document)
    (rA rB rCa rCb : String) (tA tB tCa tCb : Target) (fuel : Nat)
    (hfile : config.AllowFileLookup = true) (hremote : config.AllowRemoteLookup = true)
    (hA : (classify rA).classification ≠ .Local) (hB : (classify rB).classification ≠ .Local)
    (hCa : (classify rCa).classification ≠ .Local)
    (hCb : (classify rCb).classification ≠ .Local)
    (hshared : normalize config (classify rCb) = normalize config (classify rCa))
    (hab : normalize config (classify rA) ≠ normalize config (classify rB))
    (hac : normalize config (classify rA) ≠ normalize config (classify rCa))
    (hbc : normalize config (classify rB) ≠ normalize config (classify rCa))
    (hidab : referenceId config rA ≠ referenceId config rB)
    (hidac : referenceId config rA ≠ referenceId config rCa)
    (hidbc : referenceId config rB ≠ referenceId config rCa)
    (hidac' : referenceId config rA ≠ referenceId config rCb)
    (hidbc' : referenceId config rB ≠ referenceId config rCb)
    (hlA : lookup (normalize config (classify rA)) = some docA)
    (hlB : lookup (normalize config (classify rB)) = some docB)
    (hlC : lookup (normalize config (classify rCa)) = some docC)
    (htA : docA.get? (classify rA).fragment = some tA) (hrA : tA.references = [rCa])
    (htB : docB.get? (classify rB).fragment = some tB) (hrB : tB.references = [rCb])
    (htCa : docC.get? (classify rCa).fragment = some tCa) (hrCa : tCa.references = [])
    (htCb : docC.get? (classify rCb).fragment = some tCb) (hrCb : tCb.references = [])
    (hfuel : 3 ≤ fuel) :
    ∃ s, Resolve lookup fuel (Session.start config strict root [rA, rB]) = some s ∧
      s.lookups.count (normalize config (classify rCa)) = 1 ∧
      s.lookups = [normalize config (classify rA), normalize config (classify rCa),
        normalize config (classify rB)] ∧
      (s.indexes.filter (fun ix => decide (ix.source = normalize config (classify rCa)))).map
        (fun ix => ix.addr) = [2] ∧
      (∀ p, 2 ∈ s.children p ↔ p = 1) ∧ (s.children 1).count 2 = 1 ∧
      s.errors = [] ∧
      s.resolved (referenceId config rA) = true ∧ s.resolved (referenceId config rB) = true ∧
      s.resolved (referenceId config rCa) = true ∧
      s.resolved (referenceId config rCb) = true := by
  obtain ⟨n, rfl⟩ : ∃ n, fuel = n + 3 := ⟨fuel - 3, by omega⟩
  obtain ⟨s, hrun, hlk, hix, hch, herr, _, h1, h2, h3, h4⟩ :=
    diamond_run config strict lookup root docA docB docC rA rB rCa rCb tA tB tCa tCb n hfile
      hremote hA hB hCa hCb hshared hab hac hbc hidab hidac hidbc hidac' hidbc' hlA hlB hlC htA
      hrA htB hrB htCa hrCa htCb hrCb
  have hc := normalize_ne_empty config hCa
  refine ⟨s, hrun, ?_, hlk, ?_, ?_, ?_, herr, h1, h2, h3, h4⟩
  · rw [hlk]
    simp [List.count_cons, hac, hbc]
  · rw [hix]
    simp [List.filter, hac, hbc, Ne.symm hc]
  · intro p
    rw [hch]
    simp only [Forest.AddChild, Forest.empty]
    by_cases h0 : p = 0
    · subst h0; simp
    · by_cases h1 : p = 1
      · subst h1; simp
      · simp [h0, h1]
  · rw [hch]
    simp [Forest.AddChild, Forest.empty]

end Resolver

namespace Resolver

open Index Examples

/-- Witness of C22: a root document in `/work` that references `a.yaml#/x` and `b.yaml#/y`,
which reference `c.yaml#/z` and `c.yaml#/w`, under the open preset. -/
theorem diamond_fetch_dedup_witness :
    ∃ s, Resolve diamondLoader 3
        (Session.start (CreateOpenAPIIndexConfig "/work") false [] ["a.yaml#/x", "b.yaml#/y"]) =
          some s ∧
      s.lookups.count "/work/c.yaml" = 1 ∧
      s.lookups = ["/work/a.yaml", "/work/c.yaml", "/work/b.yaml"] ∧
      (s.indexes.filter (fun ix => decide (ix.source = "/work/c.yaml"))).map
        (fun ix => ix.addr) = [2] ∧
      (∀ p, 2 ∈ s.children p ↔ p = 1) ∧ (s.children 1).count 2 = 1 ∧
      s.errors = [] ∧
      s.resolved "/work/a.yaml#/x" = true ∧ s.resolved "/work/b.yaml#/y" = true ∧
      s.resolved "/work/c.yaml#/z" = true ∧ s.resolved "/work/c.yaml#/w" = true :=
  diamond_fetch_dedup (CreateOpenAPIIndexConfig "/work") false diamondLoader [] documentA
    documentB documentC "a.yaml#/x" "b.yaml#/y" "c.yaml#/z" "c.yaml#/w"
    { body := petSchema, references := ["c.yaml#/z"] }
    { body := petSchema, references := ["c.yaml#/w"] }
    { body := petSchema, references := [] } { body := petSchema, references := [] } 3
    rfl rfl (by decide) (by decide) (by decide) (by decide) (by decide) (by decide) (by decide)
    (by decide) (by decide) (by decide) (by decide) (by decide) (by decide) (by decide)
    (by decide) (by decide) (by decide) rfl (by decide) rfl (by decide) rfl (by decide) rfl
    (by decide)

end Resolver

namespace Resolver

open Index

theorem resolveTarget_enter (inner : List String → Nat → String → Session → Option Session)
    (chain : List String) (id : String) (target : Nat) (fragment : String) (s : Session) :
    resolveTarget inner chain id target fragment s = (enter id target fragment s).run inner chain := by
  unfold resolveTarget enter
  generalize (s.index? target).bind (fun ix => ix.document.get? fragment) = o
  cases o <;> rfl

theorem resolveExternal_enterExternal (lookup : ExternalLookupFunction)
    (inner : List String → Nat → String → Session → Option Session)
    (chain : List String) (id : String) (current : Nat) (source fragment : String)
    (s : Session) :
    resolveExternal lookup inner chain id current source fragment s =
      (enterExternal lookup id current source fragment s).run inner chain := by
  unfold resolveExternal enterExternal
  generalize obtainIndex lookup s current source = o
  obtain ⟨s₁, t⟩ := o
  cases t with
  | none => rfl
  | some target => exact resolveTarget_enter inner chain id target fragment s₁

/-- The resolver on one reference is `prepare` followed by the resolution of the references of
the target content. -/
theorem visitStep_prepare (lookup : ExternalLookupFunction)
    (inner : List String → Nat → String → Session → Option Session)
    (chain : List String) (current : Nat) (raw : String) (s : Session) :
    visitStep lookup inner chain current raw s =
      (prepare lookup chain current raw s).run inner chain := by
  unfold visitStep prepare
  simp only
  generalize targetSource s current (classify raw) = source
  generalize s.ensure (source ++ (classify raw).fragment) raw (classify raw) source = s₀
  by_cases h1 : s₀.failed = true
  · simp only [h1, if_true]; rfl
  · simp only [h1, if_false]
    by_cases h2 : source ++ (classify raw).fragment ∈ chain
    · simp only [h2, if_true]; rfl
    · simp only [h2, if_false]
      by_cases h3 : s₀.seen (source ++ (classify raw).fragment) = true
      · simp only [h3, if_true]; rfl
      · simp only [h3, if_false]
        generalize s₀.update (source ++ (classify raw).fragment)
          (fun r => { r with Seen := true }) = s₁
        cases (classify raw).classification with
        | Local => exact resolveTarget_enter _ _ _ _ _ _
        | File =>
          simp only
          by_cases h4 : s₁.config.AllowFileLookup = true
          · simp only [h4, if_true]
            exact resolveExternal_enterExternal _ _ _ _ _ _ _ _
          · simp only [h4, if_false]; rfl
        | Remote =>
          simp only
          by_cases h4 : s₁.config.AllowRemoteLookup = true
          · simp only [h4, if_true]
            exact resolveExternal_enterExternal _ _ _ _ _ _ _ _
          · simp only [h4, if_false]; rfl

theorem forEach_total (step : Session → String → Option Session)
    (I : List String → Session → Prop) (R : Session → Session → Prop)
    (hrefl : ∀ s, R s s) (htrans : ∀ a b c, R a b → R b c → R a c)
    (hstep : ∀ s r rs, I (r :: rs) s → ∃ s', step s r = some s' ∧ I rs s' ∧ R s s') :
    ∀ rs s, I rs s → ∃ s', forEach step rs s = some s' ∧ I [] s' ∧ R s s' := by
  intro rs
  induction rs with
  | nil => intro s h; exact ⟨s, rfl, h, hrefl s⟩
  | cons r rs ih =>
    intro s h
    obtain ⟨s₁, h1, hi, hr⟩ := hstep s r rs h
    obtain ⟨s₂, h2, hi2, hr2⟩ := ih s₁ hi
    refine ⟨s₂, ?_, hi2, htrans _ _ _ hr hr2⟩
    simp only [forEach, h1, h2]

theorem length_le_of_nodup_subset {l ids : List String} (hn : l.Nodup)
    (hs : ∀ x ∈ l, x ∈ ids) : l.length ≤ ids.length :=
  (List.subperm_of_subset hn hs).length_le

/-- The resolver on one reference returns when the fuel exceeds the number of identifiers a
target content can have, and it keeps an invariant that each `prepare` keeps. -/
theorem visit_total (lookup : ExternalLookupFunction) (ids : List String)
    (Inv : List String → Session → Prop) (R : Session → Session → Prop)
    (Post : Nat → String → Session → Prop)
    (hrefl : ∀ s, R s s) (htrans : ∀ a b c, R a b → R b c → R a c)
    (hpost : ∀ current raw s s', Post current raw s → R s s' → Post current raw s')
    (hasc : ∀ chain id s, Inv (chain ++ [id]) s → Inv chain s)
    (hdone : ∀ chain current raw s s', Inv chain s →
      prepare lookup chain current raw s = .done s' →
      Inv chain s' ∧ R s s' ∧ Post current raw s')
    (hdesc : ∀ chain current raw s s₁ id target refs, Inv chain s →
      prepare lookup chain current raw s = .descend s₁ id target refs →
      Inv (chain ++ [id]) s₁ ∧ R s s₁ ∧ Post current raw s₁ ∧ id ∉ chain ∧ id ∈ ids) :
    ∀ fuel chain current raw s, chain.Nodup → (∀ x ∈ chain, x ∈ ids) →
      ids.length + 1 ≤ fuel + chain.length → Inv chain s →
      ∃ s', visit lookup fuel chain current raw s = some s' ∧ Inv chain s' ∧ R s s' ∧
        Post current raw s' := by
  intro fuel
  induction fuel with
  | zero =>
    intro chain current raw s hn hs hf _
    have := length_le_of_nodup_subset hn hs
    omega
  | succ n ih =>
    intro chain current raw s hn hs hf hinv
    show ∃ s', visitStep lookup (visit lookup n) chain current raw s = some s' ∧ _
    rw [visitStep_prepare]
    cases hp : prepare lookup chain current raw s with
    | done s' =>
      obtain ⟨h1, h2, h3⟩ := hdone chain current raw s s' hinv hp
      exact ⟨s', rfl, h1, h2, h3⟩
    | descend s₁ id target refs =>
      obtain ⟨h1, h2, h3, h4, h5⟩ := hdesc chain current raw s s₁ id target refs hinv hp
      have hn' : (chain ++ [id]).Nodup := by
        rw [List.nodup_append]
        refine ⟨hn, List.nodup_singleton id, ?_⟩
        intro a ha hb
        rw [List.mem_singleton] at hb
        subst hb
        exact h4 ha
      have hs' : ∀ x ∈ chain ++ [id], x ∈ ids := by
        intro x hx
        rcases List.mem_append.1 hx with hx | hx
        · exact hs x hx
        · rw [List.mem_singleton] at hx; subst hx; exact h5
      have hf' : ids.length + 1 ≤ n + (chain ++ [id]).length := by
        simp only [List.length_append, List.length_singleton]; omega
      obtain ⟨s', hr, hi, hrel⟩ :=
        forEach_total (fun s r => visit lookup n (chain ++ [id]) target r s)
          (fun _ s => Inv (chain ++ [id]) s) R hrefl htrans
          (fun s r _ hi => by
            obtain ⟨s', e, i, r', _⟩ := ih (chain ++ [id]) target r s hn' hs' hf' hi
            exact ⟨s', e, i, r'⟩)
          refs s₁ h1
      exact ⟨s', hr, hasc chain id s' hi, htrans _ _ _ h2 hrel, hpost _ _ _ _ h3 hrel⟩

end Resolver

namespace Resolver

open Index

/-! ### The primitive steps -/

theorem get?_ensure (s : Session) (id raw : String) (p : Pointer) (source id' : String) :
    (s.ensure id raw p source).references.get? id' =
      if id' = id then some ((s.references.get? id).getD (newReference raw p source))
      else s.references.get? id' := by
  unfold Session.ensure
  cases hg : s.references.get? id with
  | some r =>
    simp only [Option.getD_some]
    split
    · rename_i h; rw [h, hg]
    · rfl
  | none =>
    simp only [Option.getD_none, GoMap.get?_set]
    by_cases h : id' = id
    · subst h; simp
    · have h' : ¬ id = id' := fun e => h e.symm
      simp [h, h']

theorem get?_update_session (s : Session) (id : String) (f : Reference → Reference)
    (id' : String) :
    (s.update id f).references.get? id' =
      if id' = id then (s.references.get? id).map f else s.references.get? id' := by
  unfold Session.update
  simp only
  rw [get?_update]
  by_cases h : id' = id
  · subst h; simp
  · simp only [h, if_false]
    cases s.references.get? id' <;> rfl

@[simp] theorem config_ensure (s : Session) (id raw : String) (p : Pointer) (source : String) :
    (s.ensure id raw p source).config = s.config := by
  unfold Session.ensure; split <;> rfl

@[simp] theorem strict_ensure (s : Session) (id raw : String) (p : Pointer) (source : String) :
    (s.ensure id raw p source).strict = s.strict := by
  unfold Session.ensure; split <;> rfl

@[simp] theorem indexes_ensure (s : Session) (id raw : String) (p : Pointer) (source : String) :
    (s.ensure id raw p source).indexes = s.indexes := by
  unfold Session.ensure; split <;> rfl

@[simp] theorem errors_ensure (s : Session) (id raw : String) (p : Pointer) (source : String) :
    (s.ensure id raw p source).errors = s.errors := by
  unfold Session.ensure; split <;> rfl

@[simp] theorem circularReferences_ensure (s : Session) (id raw : String) (p : Pointer)
    (source : String) : (s.ensure id raw p source).circularReferences = s.circularReferences := by
  unfold Session.ensure; split <;> rfl

@[simp] theorem lookups_ensure (s : Session) (id raw : String) (p : Pointer) (source : String) :
    (s.ensure id raw p source).lookups = s.lookups := by
  unfold Session.ensure; split <;> rfl

@[simp] theorem failed_ensure (s : Session) (id raw : String) (p : Pointer) (source : String) :
    (s.ensure id raw p source).failed = s.failed := by
  unfold Session.ensure; split <;> rfl

theorem index?_ensure (s : Session) (id raw : String) (p : Pointer) (source : String)
    (addr : Nat) : (s.ensure id raw p source).index? addr = s.index? addr := by
  unfold Session.index?; rw [indexes_ensure]

@[simp] theorem config_recordCycle (s : Session) (id : String) (chain : List String) :
    (s.recordCycle id chain).config = s.config := by
  unfold Session.recordCycle; simp only; split <;> rfl

@[simp] theorem strict_recordCycle (s : Session) (id : String) (chain : List String) :
    (s.recordCycle id chain).strict = s.strict := by
  unfold Session.recordCycle; simp only; split <;> rfl

@[simp] theorem indexes_recordCycle (s : Session) (id : String) (chain : List String) :
    (s.recordCycle id chain).indexes = s.indexes := by
  unfold Session.recordCycle; simp only; split <;> rfl

@[simp] theorem lookups_recordCycle (s : Session) (id : String) (chain : List String) :
    (s.recordCycle id chain).lookups = s.lookups := by
  unfold Session.recordCycle; simp only; split <;> rfl

@[simp] theorem circularReferences_recordCycle (s : Session) (id : String)
    (chain : List String) :
    (s.recordCycle id chain).circularReferences =
      s.circularReferences ++ [{ chain := chain }] := by
  unfold Session.recordCycle; simp only; split <;> rfl

theorem references_recordCycle (s : Session) (id : String) (chain : List String) :
    (s.recordCycle id chain).references =
      (s.update id (fun r => { r with Circular := true })).references := by
  unfold Session.recordCycle; simp only; split <;> rfl

theorem errors_recordCycle (s : Session) (id : String) (chain : List String) :
    (s.recordCycle id chain).errors =
      if s.strict then s.errors ++ [.CircularReferenceError chain] else s.errors := by
  unfold Session.recordCycle; simp only
  show (if s.strict = true then _ else _ : Session).errors = _
  split <;> rfl

theorem failed_recordCycle (s : Session) (id : String) (chain : List String) :
    (s.recordCycle id chain).failed = (s.strict || s.failed) := by
  unfold Session.recordCycle; simp only
  show (if s.strict = true then _ else _ : Session).failed = _
  split
  · rename_i h; simp [h]
  · rename_i h; simp [h]; rfl

theorem obtainIndex_cases (lookup : ExternalLookupFunction) (s : Session) (current : Nat)
    (source : String) :
    (∃ ix, ix ∈ s.indexes ∧ ix.source = source ∧
      obtainIndex lookup s current source = (s, some ix.addr)) ∨
    (lookup source = none ∧
      obtainIndex lookup s current source =
        (({ s.addError (.FetchError source) with lookups := s.lookups ++ [source] } : Session),
          none)) ∨
    (∃ document, lookup source = some document ∧
      obtainIndex lookup s current source =
        (({ s with
            lookups := s.lookups ++ [source]
            indexes := s.indexes ++
              [{ addr := s.indexes.length, source := source, document := document
                 parentIndex := some current }]
            children := s.children.AddChild current s.indexes.length
            config := registerSource s.config source } : Session),
          some s.indexes.length)) := by
  have hfetch : (lookup source = none ∧
      fetch lookup s current source =
        (({ s.addError (.FetchError source) with lookups := s.lookups ++ [source] } : Session),
          none)) ∨
    (∃ document, lookup source = some document ∧
      fetch lookup s current source =
        (({ s with
            lookups := s.lookups ++ [source]
            indexes := s.indexes ++
              [{ addr := s.indexes.length, source := source, document := document
                 parentIndex := some current }]
            children := s.children.AddChild current s.indexes.length
            config := registerSource s.config source } : Session),
          some s.indexes.length)) := by
    unfold fetch
    cases h : lookup source with
    | none => exact Or.inl ⟨rfl, rfl⟩
    | some document => exact Or.inr ⟨document, rfl, rfl⟩
  unfold obtainIndex
  split
  · cases hf : s.indexes.find? (fun ix => ix.source = source) with
    | some ix =>
      refine Or.inl ⟨ix, List.mem_of_find?_eq_some hf, ?_, rfl⟩
      have := List.find?_some hf
      simpa using this
    | none => exact Or.inr hfetch
  · exact Or.inr hfetch

end Resolver

namespace Resolver

open Index

/-- Every way `prepare` can go, with the session it leaves: `s₀` is the session with the
reference registered, `s₁` the session with the reference marked seen, `s₂` the session with
the target index obtained. -/
theorem prepare_elim (lookup : ExternalLookupFunction) (chain : List String) (current : Nat)
    (raw : String) (s : Session) (motive : Outcome → Prop) (source id : String)
    (s₀ s₁ : Session)
    (hsource : source = targetSource s current (classify raw))
    (hid : id = source ++ (classify raw).fragment)
    (h0 : s₀ = s.ensure id raw (classify raw) source)
    (h1 : s₁ = s₀.update id (fun r => { r with Seen := true }))
    (hfailed : s₀.failed = true → motive (.done s₀))
    (hcycle : s₀.failed = false → id ∈ chain → motive (.done (s₀.recordCycle id chain)))
    (hseen : s₀.failed = false → id ∉ chain → s₀.seen id = true → motive (.done s₀))
    (hgate : s₀.failed = false → id ∉ chain → s₀.seen id = false →
      (((classify raw).classification = .File ∧ s.config.AllowFileLookup = false) ∨
        ((classify raw).classification = .Remote ∧ s.config.AllowRemoteLookup = false)) →
      motive (.done (s₁.addError (.LookupDisallowed raw))))
    (hfetch : s₀.failed = false → id ∉ chain → s₀.seen id = false →
      (((classify raw).classification = .File ∧ s.config.AllowFileLookup = true) ∨
        ((classify raw).classification = .Remote ∧ s.config.AllowRemoteLookup = true)) →
      lookup source = none → motive (.done (fetch lookup s₁ current source).1))
    (hunresolved : s₀.failed = false → id ∉ chain → s₀.seen id = false →
      ∀ s₂ target,
      (((classify raw).classification = .Local ∧ s₂ = s₁ ∧ target = current) ∨
        ((((classify raw).classification = .File ∧ s.config.AllowFileLookup = true) ∨
          ((classify raw).classification = .Remote ∧ s.config.AllowRemoteLookup = true)) ∧
          ((s₂ = s₁ ∧ ∃ ix₀, ix₀ ∈ s₁.indexes ∧ ix₀.source = source ∧ target = ix₀.addr) ∨
           (∃ document, lookup source = some document ∧
              s₂ = (fetch lookup s₁ current source).1 ∧ target = s₁.indexes.length)))) →
      (s₂.index? target).bind (fun ix => ix.document.get? (classify raw).fragment) = none →
      motive (.done (s₂.addError (.UnresolvedReferenceError id))))
    (hdescend : s₀.failed = false → id ∉ chain → s₀.seen id = false →
      ∀ s₂ target ix t,
      (((classify raw).classification = .Local ∧ s₂ = s₁ ∧ target = current) ∨
        ((((classify raw).classification = .File ∧ s.config.AllowFileLookup = true) ∨
          ((classify raw).classification = .Remote ∧ s.config.AllowRemoteLookup = true)) ∧
          ((s₂ = s₁ ∧ ∃ ix₀, ix₀ ∈ s₁.indexes ∧ ix₀.source = source ∧ target = ix₀.addr) ∨
           (∃ document, lookup source = some document ∧
              s₂ = (fetch lookup s₁ current source).1 ∧ target = s₁.indexes.length)))) →
      s₂.index? target = some ix → ix.document.get? (classify raw).fragment = some t →
      motive (.descend
        (s₂.update id (fun r => { r with Resolved := true, Node := some t.body })) id target
        t.references)) :
    motive (prepare lookup chain current raw s) := by
  subst hsource hid h0 h1
  have henter : ∀ s₂ target,
      (((classify raw).classification = .Local ∧
          s₂ = (s.ensure (targetSource s current (classify raw) ++ (classify raw).fragment) raw
            (classify raw) (targetSource s current (classify raw))).update
              (targetSource s current (classify raw) ++ (classify raw).fragment)
              (fun r => { r with Seen := true }) ∧ target = current) ∨
        ((((classify raw).classification = .File ∧ s.config.AllowFileLookup = true) ∨
          ((classify raw).classification = .Remote ∧ s.config.AllowRemoteLookup = true)) ∧
          ((s₂ = (s.ensure (targetSource s current (classify raw) ++ (classify raw).fragment) raw
            (classify raw) (targetSource s current (classify raw))).update
              (targetSource s current (classify raw) ++ (classify raw).fragment)
              (fun r => { r with Seen := true }) ∧
            ∃ ix₀, ix₀ ∈ ((s.ensure
              (targetSource s current (classify raw) ++ (classify raw).fragment) raw
              (classify raw) (targetSource s current (classify raw))).update
              (targetSource s current (classify raw) ++ (classify raw).fragment)
              (fun r => { r with Seen := true })).indexes ∧
              ix₀.source = targetSource s current (classify raw) ∧ target = ix₀.addr) ∨
           (∃ document, lookup (targetSource s current (classify raw)) = some document ∧
              s₂ = (fetch lookup ((s.ensure
                (targetSource s current (classify raw) ++ (classify raw).fragment) raw
                (classify raw) (targetSource s current (classify raw))).update
                (targetSource s current (classify raw) ++ (classify raw).fragment)
                (fun r => { r with Seen := true })) current
                (targetSource s current (classify raw))).1 ∧
              target = ((s.ensure
                (targetSource s current (classify raw) ++ (classify raw).fragment) raw
                (classify raw) (targetSource s current (classify raw))).update
                (targetSource s current (classify raw) ++ (classify raw).fragment)
                (fun r => { r with Seen := true })).indexes.length)))) →
      (s.ensure (targetSource s current (classify raw) ++ (classify raw).fragment) raw
        (classify raw) (targetSource s current (classify raw))).failed = false →
      targetSource s current (classify raw) ++ (classify raw).fragment ∉ chain →
      (s.ensure (targetSource s current (classify raw) ++ (classify raw).fragment) raw
        (classify raw) (targetSource s current (classify raw))).seen
          (targetSource s current (classify raw) ++ (classify raw).fragment) = false →
      motive (enter (targetSource s current (classify raw) ++ (classify raw).fragment) target
        (classify raw).fragment s₂) := by
    intro s₂ target hob hf hc hs
    unfold enter
    cases hb : (s₂.index? target).bind (fun ix => ix.document.get? (classify raw).fragment)
      with
    | none => exact hunresolved hf hc hs s₂ target hob hb
    | some t =>
      cases hi : s₂.index? target with
      | none => rw [hi] at hb; cases hb
      | some ix =>
        rw [hi] at hb
        exact hdescend hf hc hs s₂ target ix t hob hi hb
  have hexternal :
      (((classify raw).classification = .File ∧ s.config.AllowFileLookup = true) ∨
        ((classify raw).classification = .Remote ∧ s.config.AllowRemoteLookup = true)) →
      (s.ensure (targetSource s current (classify raw) ++ (classify raw).fragment) raw
        (classify raw) (targetSource s current (classify raw))).failed = false →
      targetSource s current (classify raw) ++ (classify raw).fragment ∉ chain →
      (s.ensure (targetSource s current (classify raw) ++ (classify raw).fragment) raw
        (classify raw) (targetSource s current (classify raw))).seen
          (targetSource s current (classify raw) ++ (classify raw).fragment) = false →
      motive (enterExternal lookup
        (targetSource s current (classify raw) ++ (classify raw).fragment) current
        (targetSource s current (classify raw)) (classify raw).fragment
        ((s.ensure (targetSource s current (classify raw) ++ (classify raw).fragment) raw
          (classify raw) (targetSource s current (classify raw))).update
            (targetSource s current (classify raw) ++ (classify raw).fragment)
            (fun r => { r with Seen := true }))) := by
    intro hperm hf hc hs
    unfold enterExternal
    rcases obtainIndex_cases lookup ((s.ensure
        (targetSource s current (classify raw) ++ (classify raw).fragment) raw
        (classify raw) (targetSource s current (classify raw))).update
        (targetSource s current (classify raw) ++ (classify raw).fragment)
        (fun r => { r with Seen := true })) current (targetSource s current (classify raw))
      with ⟨ix₀, hmem, hsrc, heq⟩ | ⟨hnone, heq⟩ | ⟨document, hsome, heq⟩
    · rw [heq]
      exact henter _ _ (Or.inr ⟨hperm, Or.inl ⟨rfl, ix₀, hmem, hsrc, rfl⟩⟩) hf hc hs
    · rw [heq]
      have := hfetch hf hc hs hperm hnone
      simpa only [fetch, hnone] using this
    · rw [heq]
      refine henter _ _ (Or.inr ⟨hperm, Or.inr ⟨document, hsome, ?_, rfl⟩⟩) hf hc hs
      simp only [fetch, hsome]
  unfold prepare
  simp only
  by_cases hf : (s.ensure (targetSource s current (classify raw) ++ (classify raw).fragment)
      raw (classify raw) (targetSource s current (classify raw))).failed = true
  · simp only [hf, if_true]
    exact hfailed hf
  · simp only [hf, if_false]
    have hf' := Bool.eq_false_iff.2 hf
    by_cases hc : targetSource s current (classify raw) ++ (classify raw).fragment ∈ chain
    · simp only [hc, if_true]
      exact hcycle hf' hc
    · simp only [hc, if_false]
      by_cases hs : (s.ensure (targetSource s current (classify raw) ++
          (classify raw).fragment) raw (classify raw)
          (targetSource s current (classify raw))).seen
            (targetSource s current (classify raw) ++ (classify raw).fragment) = true
      · simp only [hs, if_true]
        exact hseen hf' hc hs
      · simp only [hs, if_false]
        have hs' := Bool.eq_false_iff.2 hs
        have hcfg : ((s.ensure (targetSource s current (classify raw) ++
            (classify raw).fragment) raw (classify raw)
            (targetSource s current (classify raw))).update
              (targetSource s current (classify raw) ++ (classify raw).fragment)
              (fun r => { r with Seen := true })).config = s.config :=
          config_ensure s _ raw _ _
        cases hcl : (classify raw).classification with
        | Local =>
          simp only
          exact henter _ _ (Or.inl ⟨hcl, rfl, rfl⟩) hf' hc hs'
        | File =>
          simp only [hcfg]
          by_cases ha : s.config.AllowFileLookup = true
          · simp only [ha, if_true]
            exact hexternal (Or.inl ⟨hcl, ha⟩) hf' hc hs'
          · simp only [ha, if_false]
            exact hgate hf' hc hs' (Or.inl ⟨hcl, Bool.eq_false_iff.2 ha⟩)
        | Remote =>
          simp only [hcfg]
          by_cases ha : s.config.AllowRemoteLookup = true
          · simp only [ha, if_true]
            exact hexternal (Or.inr ⟨hcl, ha⟩) hf' hc hs'
          · simp only [ha, if_false]
            exact hgate hf' hc hs' (Or.inr ⟨hcl, Bool.eq_false_iff.2 ha⟩)

end Resolver

namespace Resolver

open Index

/-! ### Later states -/

theorem Session.Extends.refl (s : Session) : s.Extends s :=
  ⟨fun _ r h => ⟨r, h, fun h => h, fun h => h, fun h => h⟩, fun _ h => h⟩

theorem Session.Extends.trans {a b c : Session} (h₁ : a.Extends b) (h₂ : b.Extends c) :
    a.Extends c := by
  refine ⟨?_, fun e he => h₂.errors e (h₁.errors e he)⟩
  intro id r hr
  obtain ⟨r₁, hr₁, s₁, v₁, c₁⟩ := h₁.references id r hr
  obtain ⟨r₂, hr₂, s₂, v₂, c₂⟩ := h₂.references id r₁ hr₁
  exact ⟨r₂, hr₂, fun h => s₂ (s₁ h), fun h => v₂ (v₁ h), fun h => c₂ (c₁ h)⟩

theorem extends_of_references_eq {s s' : Session} (hr : s'.references = s.references)
    (he : ∀ e ∈ s.errors, e ∈ s'.errors) : s.Extends s' :=
  ⟨fun _ r h => ⟨r, by rw [hr]; exact h, fun h => h, fun h => h, fun h => h⟩, he⟩

theorem extends_ensure (s : Session) (id raw : String) (p : Pointer) (source : String) :
    s.Extends (s.ensure id raw p source) := by
  refine ⟨?_, fun e he => by rw [errors_ensure]; exact he⟩
  intro id' r hr
  refine ⟨r, ?_, fun h => h, fun h => h, fun h => h⟩
  rw [get?_ensure]
  split
  · rename_i h
    subst h
    rw [hr]; rfl
  · exact hr

theorem extends_update (s : Session) (id : String) (f : Reference → Reference)
    (hs : ∀ r, r.Seen = true → (f r).Seen = true)
    (hv : ∀ r, r.Resolved = true → (f r).Resolved = true)
    (hc : ∀ r, r.Circular = true → (f r).Circular = true) : s.Extends (s.update id f) := by
  refine ⟨?_, fun e he => he⟩
  intro id' r hr
  rw [get?_update_session]
  split
  · rename_i h
    subst h
    rw [hr]
    exact ⟨f r, rfl, hs r, hv r, hc r⟩
  · exact ⟨r, hr, fun h => h, fun h => h, fun h => h⟩

theorem extends_markSeen (s : Session) (id : String) :
    s.Extends (s.update id (fun r => { r with Seen := true })) :=
  extends_update s id _ (fun _ _ => rfl) (fun _ h => h) (fun _ h => h)

theorem extends_markResolved (s : Session) (id : String) (body : Yaml.Node) :
    s.Extends (s.update id (fun r => { r with Resolved := true, Node := some body })) :=
  extends_update s id _ (fun _ h => h) (fun _ _ => rfl) (fun _ h => h)

theorem extends_addError (s : Session) (e : ResolveError) : s.Extends (s.addError e) :=
  extends_of_references_eq rfl (fun _ he => List.mem_append_left _ he)

theorem extends_recordCycle (s : Session) (id : String) (chain : List String) :
    s.Extends (s.recordCycle id chain) := by
  have h := extends_update s id (fun r => { r with Circular := true }) (fun _ h => h)
    (fun _ h => h) (fun _ _ => rfl)
  refine ⟨?_, ?_⟩
  · intro id' r hr
    rw [references_recordCycle]
    exact h.references id' r hr
  · intro e he
    rw [errors_recordCycle]
    split
    · exact List.mem_append_left _ he
    · exact he

theorem fetch_of_some {lookup : ExternalLookupFunction} {source : String} {document : Document}
    (h : lookup source = some document) (s : Session) (current : Nat) :
    (fetch lookup s current source).1 =
      ({ s with
          lookups := s.lookups ++ [source]
          indexes := s.indexes ++
            [{ addr := s.indexes.length, source := source, document := document
               parentIndex := some current }]
          children := s.children.AddChild current s.indexes.length
          config := registerSource s.config source } : Session) := by
  simp only [fetch, h]

theorem fetch_of_none {lookup : ExternalLookupFunction} {source : String}
    (h : lookup source = none) (s : Session) (current : Nat) :
    (fetch lookup s current source).1 =
      ({ s.addError (.FetchError source) with lookups := s.lookups ++ [source] } : Session) := by
  simp only [fetch, h]

theorem extends_fetch (lookup : ExternalLookupFunction) (s : Session) (current : Nat)
    (source : String) : s.Extends (fetch lookup s current source).1 := by
  refine extends_of_references_eq (references_fetch lookup s current source) ?_
  intro e he
  cases h : lookup source with
  | none => rw [fetch_of_none h]; exact List.mem_append_left _ he
  | some document => rw [fetch_of_some h]; exact he

theorem strict_fetch (lookup : ExternalLookupFunction) (s : Session) (current : Nat)
    (source : String) : (fetch lookup s current source).1.strict = s.strict := by
  unfold fetch; split <;> rfl

theorem failed_fetch (lookup : ExternalLookupFunction) (s : Session) (current : Nat)
    (source : String) : (fetch lookup s current source).1.failed = s.failed := by
  unfold fetch; split <;> rfl

theorem circularReferences_fetch (lookup : ExternalLookupFunction) (s : Session)
    (current : Nat) (source : String) :
    (fetch lookup s current source).1.circularReferences = s.circularReferences := by
  unfold fetch; split <;> rfl

/-- The session with the target index obtained differs from the session before in its forest,
its seen-set and its log of lookups only. -/
theorem obtained_same {lookup : ExternalLookupFunction} {s₁ s₂ : Session} {current : Nat}
    {source : String}
    (h : s₂ = s₁ ∨ s₂ = (fetch lookup s₁ current source).1) :
    s₂.references = s₁.references ∧ s₂.strict = s₁.strict ∧ s₂.failed = s₁.failed ∧
      s₂.circularReferences = s₁.circularReferences ∧ s₁.Extends s₂ := by
  rcases h with rfl | rfl
  · exact ⟨rfl, rfl, rfl, rfl, Session.Extends.refl _⟩
  · exact ⟨references_fetch _ _ _ _, strict_fetch _ _ _ _, failed_fetch _ _ _ _,
      circularReferences_fetch _ _ _ _, extends_fetch _ _ _ _⟩

theorem obtained_cases {lookup : ExternalLookupFunction} {s₁ s₂ : Session}
    {current target : Nat} {source : String} {c : Classification} {P : Prop}
    (h : (c = .Local ∧ s₂ = s₁ ∧ target = current) ∨
      (P ∧
        ((s₂ = s₁ ∧ ∃ ix₀, ix₀ ∈ s₁.indexes ∧ ix₀.source = source ∧ target = ix₀.addr) ∨
         (∃ document, lookup source = some document ∧
            s₂ = (fetch lookup s₁ current source).1 ∧ target = s₁.indexes.length)))) :
    s₂ = s₁ ∨ s₂ = (fetch lookup s₁ current source).1 := by
  rcases h with ⟨_, h, _⟩ | ⟨_, ⟨h, _⟩ | ⟨_, _, h, _⟩⟩
  · exact Or.inl h
  · exact Or.inl h
  · exact Or.inr h

/-- The session `prepare` leaves is a later state of the session it started from. -/
theorem prepare_extends (lookup : ExternalLookupFunction) (chain : List String)
    (current : Nat) (raw : String) (s : Session) :
    s.Extends (prepare lookup chain current raw s).state := by
  have e0 := extends_ensure s (targetSource s current (classify raw) ++ (classify raw).fragment)
    raw (classify raw) (targetSource s current (classify raw))
  have e1 := e0.trans (extends_markSeen _
    (targetSource s current (classify raw) ++ (classify raw).fragment))
  refine prepare_elim lookup chain current raw s (fun o => s.Extends o.state) _ _ _ _ rfl rfl
    rfl rfl ?_ ?_ ?_ ?_ ?_ ?_ ?_
  · intro _; exact e0
  · intro _ _; exact e0.trans (extends_recordCycle _ _ _)
  · intro _ _ _; exact e0
  · intro _ _ _ _; exact e1.trans (extends_addError _ _)
  · intro _ _ _ _ _; exact e1.trans (extends_fetch _ _ _ _)
  · intro _ _ _ s₂ target hob _
    exact (e1.trans (obtained_same (obtained_cases hob)).2.2.2.2).trans (extends_addError _ _)
  · intro _ _ _ s₂ target ix t hob _ _
    exact (e1.trans (obtained_same (obtained_cases hob)).2.2.2.2).trans
      (extends_markResolved _ _ _)

/-- The policy flag of the session is never changed. -/
theorem prepare_strict (lookup : ExternalLookupFunction) (chain : List String)
    (current : Nat) (raw : String) (s : Session) :
    (prepare lookup chain current raw s).state.strict = s.strict := by
  refine prepare_elim lookup chain current raw s (fun o => o.state.strict = s.strict) _ _ _ _
    rfl rfl rfl rfl ?_ ?_ ?_ ?_ ?_ ?_ ?_
  · intro _; exact strict_ensure _ _ _ _ _
  · intro _ _; exact (strict_recordCycle _ _ _).trans (strict_ensure _ _ _ _ _)
  · intro _ _ _; exact strict_ensure _ _ _ _ _
  · intro _ _ _ _; exact strict_ensure _ _ _ _ _
  · intro _ _ _ _ _; exact (strict_fetch _ _ _ _).trans (strict_ensure _ _ _ _ _)
  · intro _ _ _ s₂ target hob _
    exact ((obtained_same (obtained_cases hob)).2.1).trans (strict_ensure _ _ _ _ _)
  · intro _ _ _ s₂ target ix t hob _ _
    exact ((obtained_same (obtained_cases hob)).2.1).trans (strict_ensure _ _ _ _ _)

/-- Under the default policy the resolver is never stopped. -/
theorem prepare_failed (lookup : ExternalLookupFunction) (chain : List String)
    (current : Nat) (raw : String) (s : Session) (hstrict : s.strict = false)
    (hfailed : s.failed = false) : (prepare lookup chain current raw s).state.failed = false := by
  have h0 := (failed_ensure s (targetSource s current (classify raw) ++ (classify raw).fragment)
    raw (classify raw) (targetSource s current (classify raw))).trans hfailed
  refine prepare_elim lookup chain current raw s (fun o => o.state.failed = false) _ _ _ _
    rfl rfl rfl rfl ?_ ?_ ?_ ?_ ?_ ?_ ?_
  · intro _; exact h0
  · intro _ _
    show (Session.recordCycle _ _ _).failed = false
    rw [failed_recordCycle, strict_ensure, hstrict, h0]; rfl
  · intro _ _ _; exact h0
  · intro _ _ _ _; exact h0
  · intro _ _ _ _ _; exact (failed_fetch _ _ _ _).trans h0
  · intro _ _ _ s₂ target hob _
    exact ((obtained_same (obtained_cases hob)).2.2.1).trans h0
  · intro _ _ _ s₂ target ix t hob _ _
    exact ((obtained_same (obtained_cases hob)).2.2.1).trans h0

/-- The cycle report grows by the active chain when the reference is in it, and not at all
otherwise. -/
theorem prepare_circular (lookup : ExternalLookupFunction) (chain : List String)
    (current : Nat) (raw : String) (s : Session) :
    (prepare lookup chain current raw s).state.circularReferences = s.circularReferences ∨
      (targetSource s current (classify raw) ++ (classify raw).fragment ∈ chain ∧
        (prepare lookup chain current raw s).state.circularReferences =
          s.circularReferences ++ [{ chain := chain }]) := by
  have h0 := circularReferences_ensure s
    (targetSource s current (classify raw) ++ (classify raw).fragment)
    raw (classify raw) (targetSource s current (classify raw))
  refine prepare_elim lookup chain current raw s
    (fun o => o.state.circularReferences = s.circularReferences ∨
      (targetSource s current (classify raw) ++ (classify raw).fragment ∈ chain ∧
        o.state.circularReferences = s.circularReferences ++ [{ chain := chain }]))
    _ _ _ _ rfl rfl rfl rfl ?_ ?_ ?_ ?_ ?_ ?_ ?_
  · intro _; exact Or.inl h0
  · intro _ hc
    refine Or.inr ⟨hc, ?_⟩
    show (Session.recordCycle _ _ _).circularReferences = _
    rw [circularReferences_recordCycle, h0]
  · intro _ _ _; exact Or.inl h0
  · intro _ _ _ _; exact Or.inl h0
  · intro _ _ _ _ _; exact Or.inl ((circularReferences_fetch _ _ _ _).trans h0)
  · intro _ _ _ s₂ target hob _
    exact Or.inl (((obtained_same (obtained_cases hob)).2.2.2.1).trans h0)
  · intro _ _ _ s₂ target ix t hob _ _
    exact Or.inl (((obtained_same (obtained_cases hob)).2.2.2.1).trans h0)

/-- Only the visited reference is touched. -/
theorem prepare_frame (lookup : ExternalLookupFunction) (chain : List String)
    (current : Nat) (raw : String) (s : Session) (id' : String)
    (hne : id' ≠ targetSource s current (classify raw) ++ (classify raw).fragment) :
    (prepare lookup chain current raw s).state.references.get? id' =
      s.references.get? id' := by
  have h0 : (s.ensure (targetSource s current (classify raw) ++ (classify raw).fragment)
      raw (classify raw) (targetSource s current (classify raw))).references.get? id' =
      s.references.get? id' := by
    rw [get?_ensure, if_neg hne]
  have hu : ∀ (s' : Session) (f : Reference → Reference),
      (s'.update (targetSource s current (classify raw) ++ (classify raw).fragment)
        f).references.get? id' = s'.references.get? id' := by
    intro s' f
    rw [get?_update_session, if_neg hne]
  refine prepare_elim lookup chain current raw s
    (fun o => o.state.references.get? id' = s.references.get? id') _ _ _ _
    rfl rfl rfl rfl ?_ ?_ ?_ ?_ ?_ ?_ ?_
  · intro _; exact h0
  · intro _ _
    show (Session.recordCycle _ _ _).references.get? id' = _
    rw [references_recordCycle, hu, h0]
  · intro _ _ _; exact h0
  · intro _ _ _ _
    dsimp only [Outcome.state, Session.addError]
    rw [hu, h0]
  · intro _ _ _ _ _
    show (fetch _ _ _ _).1.references.get? id' = _
    rw [references_fetch, hu, h0]
  · intro _ _ _ s₂ target hob _
    show s₂.references.get? id' = _
    rw [(obtained_same (obtained_cases hob)).1, hu, h0]
  · intro _ _ _ s₂ target ix t hob _ _
    dsimp only [Outcome.state]
    rw [hu, (obtained_same (obtained_cases hob)).1, hu, h0]

theorem seen_iff (s : Session) (id : String) :
    s.seen id = true ↔ ∃ r, s.references.get? id = some r ∧ r.Seen = true := by
  unfold Session.seen
  cases s.references.get? id with
  | none => simp
  | some r => simp

theorem seen_of_extends {s s' : Session} (h : s.Extends s') {id : String}
    (hs : s.seen id = true) : s'.seen id = true := by
  obtain ⟨r, hr, hr'⟩ := (seen_iff s id).1 hs
  obtain ⟨r', h1, h2, _⟩ := h.references id r hr
  exact (seen_iff s' id).2 ⟨r', h1, h2 hr'⟩

theorem seen_update_self (s : Session) (id raw : String) (p : Pointer) (source : String) :
    ((s.ensure id raw p source).update id (fun r => { r with Seen := true })).seen id = true := by
  rw [seen_iff, get?_update_session, if_pos rfl, get?_ensure, if_pos rfl]
  exact ⟨_, rfl, rfl⟩

/-- The visited reference is seen afterwards, unless the resolver was stopped; a reference in
the active chain has been seen before. -/
theorem prepare_seen (lookup : ExternalLookupFunction) (chain : List String)
    (current : Nat) (raw : String) (s : Session) (hfailed : s.failed = false)
    (hchain : ∀ x ∈ chain, s.seen x = true) :
    (prepare lookup chain current raw s).state.seen
      (targetSource s current (classify raw) ++ (classify raw).fragment) = true := by
  have h0 := (failed_ensure s (targetSource s current (classify raw) ++ (classify raw).fragment)
    raw (classify raw) (targetSource s current (classify raw))).trans hfailed
  have h1 := seen_update_self s
    (targetSource s current (classify raw) ++ (classify raw).fragment)
    raw (classify raw) (targetSource s current (classify raw))
  refine prepare_elim lookup chain current raw s
    (fun o => o.state.seen
      (targetSource s current (classify raw) ++ (classify raw).fragment) = true) _ _ _ _
    rfl rfl rfl rfl ?_ ?_ ?_ ?_ ?_ ?_ ?_
  · intro h; rw [h0] at h; cases h
  · intro _ hc
    exact seen_of_extends ((extends_ensure _ _ _ _ _).trans (extends_recordCycle _ _ _))
      (hchain _ hc)
  · intro _ _ h; exact h
  · intro _ _ _ _; exact seen_of_extends (extends_addError _ _) h1
  · intro _ _ _ _ _; exact seen_of_extends (extends_fetch _ _ _ _) h1
  · intro _ _ _ s₂ target hob _
    exact seen_of_extends
      (((obtained_same (obtained_cases hob)).2.2.2.2).trans (extends_addError _ _)) h1
  · intro _ _ _ s₂ target ix t hob _ _
    exact seen_of_extends
      (((obtained_same (obtained_cases hob)).2.2.2.2).trans
        (extends_markResolved _ _ _)) h1

theorem seen_ensure_eq (s : Session) (id raw : String) (p : Pointer) (source : String) :
    (s.ensure id raw p source).seen id = s.seen id := by
  unfold Session.seen
  rw [get?_ensure, if_pos rfl]
  cases s.references.get? id with
  | none => rfl
  | some r => rfl

/-- When `prepare` descends, it descends for the visited reference, which was neither in the
active chain nor seen, and is seen now. -/
theorem prepare_descend (lookup : ExternalLookupFunction) (chain : List String)
    (current : Nat) (raw : String) (s s₁ : Session) (id : String) (target : Nat)
    (refs : List String)
    (h : prepare lookup chain current raw s = .descend s₁ id target refs) :
    id = targetSource s current (classify raw) ++ (classify raw).fragment ∧ id ∉ chain ∧
      s.seen id = false ∧ s₁.seen id = true := by
  have h1 := seen_update_self s
    (targetSource s current (classify raw) ++ (classify raw).fragment)
    raw (classify raw) (targetSource s current (classify raw))
  have key := prepare_elim lookup chain current raw s
    (fun o => ∀ s₁ id target refs, o = .descend s₁ id target refs →
      id = targetSource s current (classify raw) ++ (classify raw).fragment ∧ id ∉ chain ∧
        s.seen id = false ∧ s₁.seen id = true) _ _ _ _
    rfl rfl rfl rfl ?_ ?_ ?_ ?_ ?_ ?_ ?_
  · exact key s₁ id target refs h
  · intro _ _ _ _ _ h; cases h
  · intro _ _ _ _ _ _ h; cases h
  · intro _ _ _ _ _ _ _ h; cases h
  · intro _ _ _ _ _ _ _ _ h; cases h
  · intro _ _ _ _ _ _ _ _ _ h; cases h
  · intro _ _ _ _ _ _ _ _ _ _ _ h; cases h
  · intro _ hc hs s₂ target ix t hob _ _ s₁ id target' refs h
    injection h with e1 e2 e3 e4
    subst e1 e2
    refine ⟨rfl, hc, ?_, ?_⟩
    · rw [← seen_ensure_eq s _ raw (classify raw) (targetSource s current (classify raw))]
      exact hs
    · exact seen_of_extends
        (((obtained_same (obtained_cases hob)).2.2.2.2).trans
          (extends_markResolved _ _ _)) h1

end Resolver

namespace Resolver

open Index

/-! ### Well-formed sessions -/

theorem normalize_of_base {c c' : SpecIndexConfig} (hu : c.BaseURL = c'.BaseURL)
    (hp : c.BasePath = c'.BasePath) (p : Pointer) : normalize c p = normalize c' p := by
  unfold normalize
  rw [hu, hp]

theorem wellFormed_of_eq {lookup : ExternalLookupFunction} {config : SpecIndexConfig}
    {root : Document} {ids : List String} {s : Session}
    (h : WellFormed lookup config root ids s) {s' : Session} (hc : s'.config = s.config)
    (hi : s'.indexes = s.indexes) : WellFormed lookup config root ids s' := by
  have hx : ∀ addr, s'.index? addr = s.index? addr := by
    intro addr; unfold Session.index?; rw [hi]
  refine ⟨?_, ?_, ?_, ?_, ?_, ?_, ?_, ?_, ?_⟩
  · rw [hc]; exact h.baseURL
  · rw [hc]; exact h.basePath
  · rw [hc]; exact h.allowFile
  · rw [hc]; exact h.allowRemote
  · rw [hx]; exact h.rootIndex
  · rw [hi]; exact h.addr_lt
  · rw [hi]; intro ix hix; rw [hx]; exact h.addr_find ix hix
  · rw [hi]; exact h.targets
  · rw [hi]; exact h.origin

theorem wellFormed_fetch {lookup : ExternalLookupFunction} {config : SpecIndexConfig}
    {root : Document} {ids : List String} {s : Session} {source : String}
    (hb : Bounded config lookup root ids)
    (hallow : config.AllowFileLookup = true ∨ config.AllowRemoteLookup = true)
    (hsource : ∃ raw, (classify raw).classification ≠ .Local ∧
      source = normalize config (classify raw))
    (current : Nat) (h : WellFormed lookup config root ids s) :
    WellFormed lookup config root ids (fetch lookup s current source).1 ∧
      ∀ document, lookup source = some document →
        (fetch lookup s current source).1.index? s.indexes.length =
          some { addr := s.indexes.length, source := source, document := document
                 parentIndex := some current } := by
  cases hl : lookup source with
  | none =>
    refine ⟨?_, fun _ h => by cases h⟩
    rw [fetch_of_none hl]
    exact wellFormed_of_eq h rfl rfl
  | some document =>
    rw [fetch_of_some hl]
    have hnone : s.indexes.find? (fun ix => decide (ix.addr = s.indexes.length)) = none := by
      rw [List.find?_eq_none]
      intro ix hix
      have := h.addr_lt ix hix
      simp only [decide_eq_true_eq]
      omega
    have hnew : Session.index? ({ s with
          lookups := s.lookups ++ [source]
          indexes := s.indexes ++
            [{ addr := s.indexes.length, source := source, document := document
               parentIndex := some current }]
          children := s.children.AddChild current s.indexes.length
          config := registerSource s.config source } : Session) s.indexes.length =
        some { addr := s.indexes.length, source := source, document := document
               parentIndex := some current } := by
      unfold Session.index?
      simp only [List.find?_append, hnone, Option.none_or, List.find?_cons, decide_True]
    have hold : ∀ addr ix, s.index? addr = some ix → Session.index? ({ s with
          lookups := s.lookups ++ [source]
          indexes := s.indexes ++
            [{ addr := s.indexes.length, source := source, document := document
               parentIndex := some current }]
          children := s.children.AddChild current s.indexes.length
          config := registerSource s.config source } : Session) addr = some ix := by
      intro addr ix hix
      unfold Session.index? at hix ⊢
      simp only [List.find?_append, hix]
      rfl
    refine ⟨⟨h.baseURL, h.basePath, h.allowFile, h.allowRemote, hold _ _ h.rootIndex, ?_, ?_, ?_,
      ?_⟩, ?_⟩
    · intro ix hix
      simp only [List.mem_append, List.mem_singleton] at hix
      simp only [List.length_append, List.length_singleton]
      rcases hix with hix | rfl
      · have := h.addr_lt ix hix; omega
      · simp
    · intro ix hix
      simp only [List.mem_append, List.mem_singleton] at hix
      rcases hix with hix | rfl
      · exact hold _ _ (h.addr_find ix hix)
      · exact hnew
    · intro ix hix fragment t ht
      simp only [List.mem_append, List.mem_singleton] at hix
      rcases hix with hix | rfl
      · exact h.targets ix hix fragment t ht
      · exact hb.2 hallow source document fragment t hl ht
    · intro ix hix
      simp only [List.mem_append, List.mem_singleton] at hix
      rcases hix with hix | rfl
      · exact h.origin ix hix
      · exact Or.inr ⟨hl, hsource⟩
    · intro document' hd
      injection hd with hd
      subst hd
      exact hnew

theorem targetSource_local (s : Session) (current : Nat) {raw : String}
    (h : (classify raw).classification = .Local) :
    targetSource s current (classify raw) =
      ((s.index? current).map (fun ix => ix.source)).getD "" := by
  unfold targetSource
  rw [h]

theorem permitted_external {raw : String} {config : SpecIndexConfig}
    (h : ((classify raw).classification = .File ∧ config.AllowFileLookup = true) ∨
      ((classify raw).classification = .Remote ∧ config.AllowRemoteLookup = true)) :
    (classify raw).classification ≠ .Local ∧
      (config.AllowFileLookup = true ∨ config.AllowRemoteLookup = true) := by
  rcases h with ⟨h, h'⟩ | ⟨h, h'⟩
  · exact ⟨(by rw [h]; exact fun e => by cases e), Or.inl h'⟩
  · exact ⟨(by rw [h]; exact fun e => by cases e), Or.inr h'⟩

/-- The session `prepare` leaves is well-formed, and when `prepare` descends, it descends into
a target content of the index `target`, whose identifier is the visited identifier. -/
theorem prepare_wellFormed {lookup : ExternalLookupFunction} {config : SpecIndexConfig}
    {root : Document} {ids : List String} (hb : Bounded config lookup root ids)
    (chain : List String) (current : Nat) (raw : String) {s : Session}
    (h : WellFormed lookup config root ids s) :
    WellFormed lookup config root ids (prepare lookup chain current raw s).state ∧
      ∀ s₁ id target refs, prepare lookup chain current raw s = .descend s₁ id target refs →
        ∃ ix t, s₁.index? target = some ix ∧ ix.source ++ (classify raw).fragment = id ∧
          ix.document.get? (classify raw).fragment = some t ∧ t.references = refs := by
  have w0 : WellFormed lookup config root ids
      (s.ensure (targetSource s current (classify raw) ++ (classify raw).fragment)
        raw (classify raw) (targetSource s current (classify raw))) :=
    wellFormed_of_eq h (config_ensure _ _ _ _ _) (indexes_ensure _ _ _ _ _)
  have w1 : WellFormed lookup config root ids
      ((s.ensure (targetSource s current (classify raw) ++ (classify raw).fragment)
        raw (classify raw) (targetSource s current (classify raw))).update
          (targetSource s current (classify raw) ++ (classify raw).fragment)
          (fun r => { r with Seen := true })) :=
    wellFormed_of_eq w0 rfl rfl
  have hext : ∀ {P : Prop}, (((classify raw).classification = .File ∧
        s.config.AllowFileLookup = true) ∨
      ((classify raw).classification = .Remote ∧ s.config.AllowRemoteLookup = true)) →
      ((config.AllowFileLookup = true ∨ config.AllowRemoteLookup = true) →
        (∃ raw', (classify raw').classification ≠ .Local ∧
          targetSource s current (classify raw) = normalize config (classify raw')) → P) →
      P := by
    intro P hperm k
    rw [h.allowFile, h.allowRemote] at hperm
    obtain ⟨hne, hallow⟩ := permitted_external hperm
    refine k hallow ⟨raw, hne, ?_⟩
    rw [targetSource_external s current hne]
    exact normalize_of_base h.baseURL h.basePath _
  have w2 : ∀ s₂ target,
      (((classify raw).classification = .Local ∧
          s₂ = (s.ensure (targetSource s current (classify raw) ++ (classify raw).fragment)
            raw (classify raw) (targetSource s current (classify raw))).update
              (targetSource s current (classify raw) ++ (classify raw).fragment)
              (fun r => { r with Seen := true }) ∧ target = current) ∨
        ((((classify raw).classification = .File ∧ s.config.AllowFileLookup = true) ∨
          ((classify raw).classification = .Remote ∧ s.config.AllowRemoteLookup = true)) ∧
          ((s₂ = (s.ensure (targetSource s current (classify raw) ++ (classify raw).fragment)
            raw (classify raw) (targetSource s current (classify raw))).update
              (targetSource s current (classify raw) ++ (classify raw).fragment)
              (fun r => { r with Seen := true }) ∧
            ∃ ix₀, ix₀ ∈ ((s.ensure
              (targetSource s current (classify raw) ++ (classify raw).fragment)
              raw (classify raw) (targetSource s current (classify raw))).update
              (targetSource s current (classify raw) ++ (classify raw).fragment)
              (fun r => { r with Seen := true })).indexes ∧
              ix₀.source = targetSource s current (classify raw) ∧ target = ix₀.addr) ∨
           (∃ document, lookup (targetSource s current (classify raw)) = some document ∧
              s₂ = (fetch lookup ((s.ensure
                (targetSource s current (classify raw) ++ (classify raw).fragment)
                raw (classify raw) (targetSource s current (classify raw))).update
                (targetSource s current (classify raw) ++ (classify raw).fragment)
                (fun r => { r with Seen := true })) current
                (targetSource s current (classify raw))).1 ∧
              target = ((s.ensure
                (targetSource s current (classify raw) ++ (classify raw).fragment)
                raw (classify raw) (targetSource s current (classify raw))).update
                (targetSource s current (classify raw) ++ (classify raw).fragment)
                (fun r => { r with Seen := true })).indexes.length)))) →
      WellFormed lookup config root ids s₂ ∧
        ∀ ix, s₂.index? target = some ix →
          ix.source = targetSource s current (classify raw) := by
    intro s₂ target hob
    rcases hob with ⟨hcl, rfl, htc⟩ | ⟨hperm, ⟨rfl, ix₀, hmem, hsrc, rfl⟩ |
      ⟨document, hdoc, rfl, rfl⟩⟩
    · refine ⟨w1, ?_⟩
      intro ix hix
      rw [htc] at hix
      rw [targetSource_local s current hcl]
      have : s.index? current = some ix := by
        rw [← index?_ensure s (targetSource s current (classify raw) ++ (classify raw).fragment)
          raw (classify raw) (targetSource s current (classify raw))]
        exact hix
      rw [this]; rfl
    · refine ⟨w1, ?_⟩
      intro ix hix
      rw [w1.addr_find ix₀ hmem] at hix
      injection hix with hix
      rw [← hix]; exact hsrc
    · refine hext hperm ?_
      intro hallow hsource
      obtain ⟨w, hnew⟩ := wellFormed_fetch hb hallow hsource current w1
      refine ⟨w, ?_⟩
      intro ix hix
      rw [hnew document hdoc] at hix
      injection hix with hix
      rw [← hix]
  refine prepare_elim lookup chain current raw s
    (fun o => WellFormed lookup config root ids o.state ∧
      ∀ s₁ id target refs, o = .descend s₁ id target refs →
        ∃ ix t, s₁.index? target = some ix ∧ ix.source ++ (classify raw).fragment = id ∧
          ix.document.get? (classify raw).fragment = some t ∧ t.references = refs)
    _ _ _ _ rfl rfl rfl rfl ?_ ?_ ?_ ?_ ?_ ?_ ?_
  · intro _; exact ⟨w0, fun _ _ _ _ h => by cases h⟩
  · intro _ _
    exact ⟨wellFormed_of_eq w0 (config_recordCycle _ _ _) (indexes_recordCycle _ _ _),
      fun _ _ _ _ h => by cases h⟩
  · intro _ _ _; exact ⟨w0, fun _ _ _ _ h => by cases h⟩
  · intro _ _ _ _
    exact ⟨wellFormed_of_eq w1 rfl rfl, fun _ _ _ _ h => by cases h⟩
  · intro _ _ _ hperm hnone
    refine ⟨?_, fun _ _ _ _ h => by cases h⟩
    show WellFormed lookup config root ids (fetch _ _ _ _).1
    rw [fetch_of_none hnone]
    exact wellFormed_of_eq w1 rfl rfl
  · intro _ _ _ s₂ target hob _
    exact ⟨wellFormed_of_eq (w2 s₂ target hob).1 rfl rfl, fun _ _ _ _ h => by cases h⟩
  · intro _ _ _ s₂ target ix t hob hix ht
    obtain ⟨w, hsrc⟩ := w2 s₂ target hob
    refine ⟨wellFormed_of_eq w rfl rfl, ?_⟩
    intro s₁ id target' refs he
    injection he with e1 e2 e3 e4
    subst e1 e2 e3 e4
    refine ⟨ix, t, hix, ?_, ht, rfl⟩
    rw [hsrc ix hix]

/-- When `prepare` descends, the identifier it descends for is one of `ids`. -/
theorem prepare_descend_mem {lookup : ExternalLookupFunction} {config : SpecIndexConfig}
    {root : Document} {ids : List String} (hb : Bounded config lookup root ids)
    (chain : List String) (current : Nat) (raw : String) {s : Session}
    (h : WellFormed lookup config root ids s) (s₁ : Session) (id : String) (target : Nat)
    (refs : List String)
    (hp : prepare lookup chain current raw s = .descend s₁ id target refs) : id ∈ ids := by
  obtain ⟨w, hd⟩ := prepare_wellFormed hb chain current raw h
  obtain ⟨ix, t, hix, hid, ht, _⟩ := hd s₁ id target refs hp
  rw [hp] at w
  rw [← hid]
  exact w.targets ix (List.mem_of_find?_eq_some hix) _ t ht

end Resolver

namespace Resolver

open Index

/-! ### Identifiers determine the source and the fragment -/

theorem splitAtHash_fst : ∀ l : List Char, '#' ∉ (splitAtHash l).1
  | [] => by simp [splitAtHash]
  | c :: cs => by
    by_cases hc : c = '#'
    · simp [splitAtHash, hc]
    · have ih := splitAtHash_fst cs
      have hc' : ¬ '#' = c := fun e => hc e.symm
      simp [splitAtHash, hc, hc', ih]

theorem splitAtHash_snd : ∀ l : List Char,
    (splitAtHash l).2 = [] ∨ ∃ cs, (splitAtHash l).2 = '#' :: cs
  | [] => Or.inl rfl
  | c :: cs => by
    by_cases hc : c = '#'
    · subst hc
      exact Or.inr ⟨cs, by simp [splitAtHash]⟩
    · have ih := splitAtHash_snd cs
      simpa [splitAtHash, hc] using ih

theorem source_noHash (raw : String) : '#' ∉ (classify raw).source.toList := by
  unfold classify
  split
  · simp
  · exact splitAtHash_fst raw.toList

theorem fragment_shape (raw : String) :
    (classify raw).fragment.toList = [] ∨ ∃ cs, (classify raw).fragment.toList = '#' :: cs := by
  unfold classify
  split <;> exact splitAtHash_snd raw.toList

theorem normalize_of_relative (config : SpecIndexConfig) {p : Pointer}
    (hc : p.classification = .File) (hr : p.source.toList.head? ≠ some '/') :
    normalize config p = baseOf config ++ "/" ++ p.source := by
  unfold normalize baseOf
  rw [hc]
  simp only [hr, if_false]
  cases config.BaseURL <;> rfl

theorem normalize_noHash {config : SpecIndexConfig} (h : NoHash config) (raw : String) :
    '#' ∉ (normalize config (classify raw)).toList := by
  have hs := source_noHash raw
  cases hc : (classify raw).classification with
  | Local => unfold normalize; rw [hc]; simp
  | Remote => unfold normalize; rw [hc]; exact hs
  | File =>
    by_cases hr : (classify raw).source.toList.head? = some '/'
    · unfold normalize
      rw [hc]
      simp only [hr, if_true]
      exact hs
    · rw [normalize_of_relative config hc hr]
      have hb : '#' ∉ (baseOf config).toList := h
      simp only [String.toList, String.data_append, List.mem_append, not_or] at hb hs ⊢
      exact ⟨⟨hb, by decide⟩, hs⟩

theorem append_unique : ∀ (a a' b b' : List Char), '#' ∉ a → '#' ∉ a' →
    (b = [] ∨ ∃ cs, b = '#' :: cs) → (b' = [] ∨ ∃ cs, b' = '#' :: cs) →
    a ++ b = a' ++ b' → a = a' ∧ b = b'
  | [], [], _, _, _, _, _, _, h => ⟨rfl, h⟩
  | [], c :: a', b, b', _, ha', hb, _, h => by
    exfalso
    simp only [List.nil_append] at h
    rcases hb with rfl | ⟨cs, rfl⟩
    · cases h
    · injection h with h1 _
      exact ha' (by rw [← h1]; exact List.mem_cons_self _ _)
  | c :: a, [], b, b', ha, _, _, hb', h => by
    exfalso
    simp only [List.nil_append] at h
    rcases hb' with rfl | ⟨cs, rfl⟩
    · cases h
    · injection h with h1 _
      exact ha (by rw [h1]; exact List.mem_cons_self _ _)
  | c :: a, c' :: a', b, b', ha, ha', hb, hb', h => by
    injection h with h1 h2
    have := append_unique a a' b b' (fun m => ha (List.mem_cons_of_mem _ m))
      (fun m => ha' (List.mem_cons_of_mem _ m)) hb hb' h2
    exact ⟨by rw [h1, this.1], this.2⟩

/-- An identifier determines its source and its fragment, when the sources hold no `#`. -/
theorem identifier_unique {source source' : String} (raw raw' : String)
    (h : '#' ∉ source.toList) (h' : '#' ∉ source'.toList)
    (he : source ++ (classify raw).fragment = source' ++ (classify raw').fragment) :
    source = source' ∧ (classify raw).fragment = (classify raw').fragment := by
  have hd := congrArg String.data he
  simp only [String.data_append] at hd
  have := append_unique source.data source'.data _ _ h h' (fragment_shape raw)
    (fragment_shape raw') hd
  exact ⟨String.ext this.1, String.ext this.2⟩

/-- The sources of the indexes of a well-formed session hold no `#`. -/
theorem source_noHash_of_wellFormed {lookup : ExternalLookupFunction}
    {config : SpecIndexConfig} {root : Document} {ids : List String} {s : Session}
    (hn : NoHash config) (h : WellFormed lookup config root ids s) (current : Nat)
    (raw : String) : '#' ∉ (targetSource s current (classify raw)).toList := by
  unfold targetSource
  split
  · cases hi : s.index? current with
    | none => simp
    | some ix =>
      simp only [Option.map_some', Option.getD_some]
      rcases h.origin ix (List.mem_of_find?_eq_some hi) with h0 | ⟨_, raw', _, h1⟩
      · rw [h0]; simp
      · rw [h1]; exact normalize_noHash hn raw'
  · rw [normalize_of_base h.baseURL h.basePath]
    exact normalize_noHash hn raw

/-! ### Sources with and without a scheme -/

theorem hasScheme_append : ∀ (a b : List Char), hasScheme (a ++ ['/']) = false →
    hasScheme b = false → b.head? ≠ some '/' → hasScheme (a ++ '/' :: b) = false
  | [], b, _, hb, _ => by
    simp [hasScheme, hb]
  | c :: a, b, ha, hb, hh => by
    simp only [List.cons_append, hasScheme, Bool.or_eq_false_iff, Bool.and_eq_false_imp,
      decide_eq_true_eq] at ha ⊢
    refine ⟨?_, hasScheme_append a b ha.2 hb hh⟩
    intro hc
    have h1 := ha.1 hc
    cases a with
    | nil =>
      cases b with
      | nil => simp
      | cons x b =>
        have : x ≠ '/' := fun e => hh (by rw [e]; rfl)
        simp [this]
    | cons x a =>
      cases a with
      | nil => simpa using h1
      | cons y a => simpa using h1

theorem scheme_of_remote {raw : String} (h : (classify raw).classification = .Remote) :
    hasScheme (classify raw).source.toList = true := by
  unfold classify at h ⊢
  by_cases hb : (splitAtHash raw.toList).1 = []
  · rw [if_pos hb] at h; cases h
  · rw [if_neg hb] at h ⊢
    by_cases hs : hasScheme (splitAtHash raw.toList).1 = true
    · exact hs
    · simp only [hs, if_false] at h
      cases h

theorem scheme_of_file {raw : String} (h : (classify raw).classification = .File) :
    hasScheme (classify raw).source.toList = false := by
  unfold classify at h ⊢
  by_cases hb : (splitAtHash raw.toList).1 = []
  · rw [if_pos hb] at h; cases h
  · rw [if_neg hb] at h ⊢
    by_cases hs : hasScheme (splitAtHash raw.toList).1 = true
    · simp only [hs, if_true] at h
      cases h
    · exact Bool.eq_false_iff.2 hs

/-- When the base is a plain path, no file-based reference string has the normalized source
of a remote one. -/
theorem distinct_of_noScheme {config : SpecIndexConfig} (h : NoScheme config) :
    Distinct config := by
  intro raw raw' hf hr he
  have h1 : hasScheme (normalize config (classify raw')).toList = true := by
    unfold normalize
    rw [hr]
    exact scheme_of_remote hr
  have h2 : hasScheme (normalize config (classify raw)).toList = false := by
    by_cases hh : (classify raw).source.toList.head? = some '/'
    · unfold normalize
      rw [hf]
      simp only [hh, if_true]
      exact scheme_of_file hf
    · rw [normalize_of_relative config hf hh]
      have := hasScheme_append (baseOf config).toList (classify raw).source.toList h
        (scheme_of_file hf) hh
      simpa [String.toList, String.data_append] using this
  rw [he, h1] at h2
  cases h2

end Resolver

namespace GoMap

variable {K V : Type} [DecidableEq K]

theorem mem_of_get? (m : GoMap K V) (k : K) (v : V) (h : m.get? k = some v) : (k, v) ∈ m := by
  induction m with
  | nil => cases h
  | cons e m ih =>
    obtain ⟨k₀, v₀⟩ := e
    by_cases h0 : k₀ = k
    · subst h0
      simp only [get?, if_true, Option.some.injEq] at h
      subst h
      exact List.mem_cons_self _ _
    · simp only [get?, h0, if_false] at h
      exact List.mem_cons_of_mem _ (ih h)

theorem mem_set (m : GoMap K V) (k : K) (v : V) (e : K × V) (h : e ∈ m.set k v) :
    e ∈ m ∨ e = (k, v) := by
  induction m with
  | nil =>
    simp only [set, List.mem_singleton] at h
    exact Or.inr h
  | cons e₀ m ih =>
    obtain ⟨k₀, v₀⟩ := e₀
    by_cases h0 : k₀ = k
    · subst h0
      simp only [set, if_true, List.mem_cons] at h
      rcases h with h | h
      · exact Or.inr h
      · exact Or.inl (List.mem_cons_of_mem _ h)
    · simp only [set, h0, if_false, List.mem_cons] at h
      rcases h with h | h
      · exact Or.inl (h ▸ List.mem_cons_self _ _)
      · rcases ih h with h | h
        · exact Or.inl (List.mem_cons_of_mem _ h)
        · exact Or.inr h

end GoMap

namespace Resolver

open Index

/-! ### The state before resolution -/

theorem start_fold (config : SpecIndexConfig) (refs : List String) :
    ∀ m : GoMap String Reference,
      (∀ e ∈ refs.foldl
          (fun m raw => m.set (normalize config (classify raw) ++ (classify raw).fragment)
            (newReference raw (classify raw) (normalize config (classify raw)))) m,
        e ∈ m ∨ (e.1 = referenceId config e.2.Definition ∧ e.2.Definition ∈ refs ∧
          e.2.Seen = false ∧ e.2.Resolved = false ∧ e.2.Circular = false)) ∧
      (∀ id, (∃ r, m.get? id = some r) ∨ (∃ raw ∈ refs, referenceId config raw = id) →
        ∃ r, (refs.foldl
          (fun m raw => m.set (normalize config (classify raw) ++ (classify raw).fragment)
            (newReference raw (classify raw) (normalize config (classify raw)))) m).get? id =
              some r) := by
  induction refs with
  | nil =>
    intro m
    refine ⟨fun e he => Or.inl he, ?_⟩
    intro id h
    rcases h with h | ⟨raw, hraw, _⟩
    · exact h
    · cases hraw
  | cons raw refs ih =>
    intro m
    obtain ⟨h1, h2⟩ := ih (m.set (normalize config (classify raw) ++ (classify raw).fragment)
      (newReference raw (classify raw) (normalize config (classify raw))))
    refine ⟨?_, ?_⟩
    · intro e he
      rcases h1 e he with h | ⟨a, b, c⟩
      · rcases GoMap.mem_set _ _ _ _ h with h | h
        · exact Or.inl h
        · subst h
          exact Or.inr ⟨rfl, List.mem_cons_self _ _, rfl, rfl, rfl⟩
      · exact Or.inr ⟨a, List.mem_cons_of_mem _ b, c⟩
    · intro id h
      apply h2
      by_cases hid : referenceId config raw = id
      · left
        rw [GoMap.get?_set]
        exact ⟨_, if_pos hid⟩
      · rcases h with ⟨r, hr⟩ | ⟨raw', hraw', hid'⟩
        · left
          rw [GoMap.get?_set]
          exact ⟨r, (if_neg hid).trans hr⟩
        · rcases List.mem_cons.1 hraw' with h | h
          · subst h; exact absurd hid' hid
          · exact Or.inr ⟨raw', h, hid'⟩

/-- The references the index builder registered: one for every reference string of the root
document, under its identifier, neither seen nor resolved nor circular. -/
theorem start_references (config : SpecIndexConfig) (strict : Bool) (root : Document)
    (refs : List String) :
    (∀ e ∈ (Session.start config strict root refs).references,
      e.1 = referenceId config e.2.Definition ∧ e.2.Definition ∈ refs ∧
        e.2.Seen = false ∧ e.2.Resolved = false ∧ e.2.Circular = false) ∧
    (∀ raw ∈ refs, ∃ r,
      (Session.start config strict root refs).references.get? (referenceId config raw) =
        some r) := by
  obtain ⟨h1, h2⟩ := start_fold config refs []
  refine ⟨?_, ?_⟩
  · intro e he
    rcases h1 e he with h | h
    · cases h
    · exact h
  · intro raw hraw
    exact h2 _ (Or.inr ⟨raw, hraw, rfl⟩)

theorem start_wellFormed {lookup : ExternalLookupFunction} {config : SpecIndexConfig}
    {root : Document} {ids : List String} (hb : Bounded config lookup root ids) (strict : Bool)
    (refs : List String) :
    WellFormed lookup config root ids (Session.start config strict root refs) := by
  refine ⟨rfl, rfl, rfl, rfl, rfl, ?_, ?_, ?_, ?_⟩
  · intro ix hix
    simp only [Session.start, List.mem_singleton] at hix
    subst hix
    simp [Session.start]
  · intro ix hix
    simp only [Session.start, List.mem_singleton] at hix
    subst hix
    rfl
  · intro ix hix fragment t ht
    simp only [Session.start, List.mem_singleton] at hix
    subst hix
    rw [empty_append]
    exact hb.1 fragment t ht
  · intro ix hix
    simp only [Session.start, List.mem_singleton] at hix
    subst hix
    exact Or.inl rfl

/-- The identifier of a reference string found in the root index. -/
theorem targetSource_root {lookup : ExternalLookupFunction} {config : SpecIndexConfig}
    {root : Document} {ids : List String} {s : Session}
    (h : WellFormed lookup config root ids s) (raw : String) :
    targetSource s 0 (classify raw) ++ (classify raw).fragment = referenceId config raw := by
  unfold referenceId
  congr 1
  unfold targetSource
  split
  · rename_i hc
    rw [h.rootIndex]
    unfold normalize
    rw [hc]
    rfl
  · exact normalize_of_base h.baseURL h.basePath _

/-! ### A resolver that is not stopped -/

/-- A resolver that is stopped stays stopped. -/
theorem prepare_unfailed (lookup : ExternalLookupFunction) (chain : List String)
    (current : Nat) (raw : String) (s : Session)
    (h : (prepare lookup chain current raw s).state.failed = false) : s.failed = false := by
  have h0 := failed_ensure s (targetSource s current (classify raw) ++ (classify raw).fragment)
    raw (classify raw) (targetSource s current (classify raw))
  revert h
  refine prepare_elim lookup chain current raw s
    (fun o => o.state.failed = false → s.failed = false) _ _ _ _
    rfl rfl rfl rfl ?_ ?_ ?_ ?_ ?_ ?_ ?_
  · intro _ h; exact h0.symm.trans h
  · intro hf _ _; exact h0.symm.trans hf
  · intro hf _ _ _; exact h0.symm.trans hf
  · intro hf _ _ _ _; exact h0.symm.trans hf
  · intro hf _ _ _ _ _; exact h0.symm.trans hf
  · intro hf _ _ _ _ _ _ _; exact h0.symm.trans hf
  · intro hf _ _ _ _ _ _ _ _ _ _; exact h0.symm.trans hf

theorem prepare_steady (lookup : ExternalLookupFunction) {pending : List String}
    (chain : List String) (current : Nat) (raw : String) {s : Session}
    (hf : s.failed = false) (h : Steady pending chain s) :
    Steady pending chain (prepare lookup chain current raw s).state ∧
      ∀ s₁ id target refs, prepare lookup chain current raw s = .descend s₁ id target refs →
        Steady pending (chain ++ [id]) s₁ := by
  have hext := prepare_extends lookup chain current raw s
  have hst : Steady pending chain (prepare lookup chain current raw s).state := by
    refine ⟨fun x hx => seen_of_extends hext (h.chain x hx), ?_⟩
    intro id r hr hs
    by_cases hid : id = targetSource s current (classify raw) ++ (classify raw).fragment
    · exfalso
      have := prepare_seen lookup chain current raw s hf h.chain
      rw [seen_iff] at this
      obtain ⟨r', hr', hs'⟩ := this
      rw [← hid, hr] at hr'
      injection hr' with hr'
      rw [← hr', hs] at hs'
      cases hs'
    · rw [prepare_frame lookup chain current raw s id hid] at hr
      exact h.pending id r hr hs
  refine ⟨hst, ?_⟩
  intro s₁ id target refs hp
  rw [hp] at hst
  refine ⟨?_, hst.pending⟩
  intro x hx
  rcases List.mem_append.1 hx with hx | hx
  · exact hst.chain x hx
  · rw [List.mem_singleton] at hx
    subst hx
    exact (prepare_descend lookup chain current raw s s₁ x target refs hp).2.2.2

/-- The resolution of a document returns, for any fuel above the number of identifiers of
target contents; the result has every property `E` of a session that each `prepare` keeps;
under the default policy the resolver is not stopped; and when it is not stopped, every
reference has been seen. -/
theorem resolve_steady {lookup : ExternalLookupFunction} {config : SpecIndexConfig}
    {root : Document} {ids : List String} (hb : Bounded config lookup root ids)
    (E : Session → Prop)
    (hE : ∀ chain current raw s, WellFormed lookup config root ids s → E s →
      E (prepare lookup chain current raw s).state)
    (strict : Bool) (refs : List String) (fuel : Nat) (hfuel : ids.length + 1 ≤ fuel)
    (hE0 : E (Session.start config strict root refs)) :
    ∃ s, Resolve lookup fuel (Session.start config strict root refs) = some s ∧
      WellFormed lookup config root ids s ∧ E s ∧
      (Session.start config strict root refs).Extends s ∧
      (strict = false → s.failed = false) ∧
      (s.failed = false → ∀ id r, s.references.get? id = some r → r.Seen = true) := by
  have hstart := start_references config strict root refs
  have hvisit : ∀ pending, ∀ fuel chain current raw s, chain.Nodup → (∀ x ∈ chain, x ∈ ids) →
      ids.length + 1 ≤ fuel + chain.length →
      ((WellFormed lookup config root ids s ∧ E s) ∧ (s.strict = strict ∧
        (strict = false → s.failed = false)) ∧
        (s.failed = false → Steady pending chain s)) →
      ∃ s', visit lookup fuel chain current raw s = some s' ∧
        ((WellFormed lookup config root ids s' ∧ E s') ∧ (s'.strict = strict ∧
          (strict = false → s'.failed = false)) ∧
          (s'.failed = false → Steady pending chain s')) ∧
        (s.Extends s' ∧ (s'.failed = false → s.failed = false)) ∧
        (current = 0 → s'.failed = false → s'.seen (referenceId config raw) = true) := by
    intro pending
    refine visit_total lookup ids
      (fun chain s => (WellFormed lookup config root ids s ∧ E s) ∧ (s.strict = strict ∧
        (strict = false → s.failed = false)) ∧
        (s.failed = false → Steady pending chain s))
      (fun s s' => s.Extends s' ∧ (s'.failed = false → s.failed = false))
      (fun current raw s' => current = 0 → s'.failed = false →
        s'.seen (referenceId config raw) = true)
      (fun s => ⟨Session.Extends.refl s, fun h => h⟩)
      (fun _ _ _ h₁ h₂ => ⟨h₁.1.trans h₂.1, fun h => h₁.2 (h₂.2 h)⟩)
      (fun _ _ _ _ hp hr hc hf => seen_of_extends hr.1 (hp hc (hr.2 hf))) ?_ ?_ ?_
    · intro chain id s h
      refine ⟨h.1, h.2.1, fun hf => ?_⟩
      have h1 := h.2.2 hf
      exact ⟨fun x hx => h1.chain x (List.mem_append_left _ hx), h1.pending⟩
    · intro chain current raw s s' h hp
      have h1 := (prepare_wellFormed hb chain current raw h.1.1).1
      have h3 := prepare_extends lookup chain current raw s
      have h4 := hE chain current raw s h.1.1 h.1.2
      have h5 := prepare_unfailed lookup chain current raw s
      have h6 := prepare_strict lookup chain current raw s
      rw [hp] at h1 h3 h4 h5 h6
      have h7 : strict = false → s'.failed = false := by
        intro hs
        have := prepare_failed lookup chain current raw s (h.2.1.1.trans hs) (h.2.1.2 hs)
        rw [hp] at this
        exact this
      refine ⟨⟨⟨h1, h4⟩, ⟨h6.trans h.2.1.1, h7⟩, fun hf' => ?_⟩, ⟨h3, h5⟩, ?_⟩
      · have hf := h5 hf'
        have h2 := (prepare_steady lookup chain current raw hf (h.2.2 hf)).1
        rw [hp] at h2
        exact h2
      · intro hc hf'
        subst hc
        have hf := h5 hf'
        have h8 := prepare_seen lookup chain 0 raw s hf (h.2.2 hf).chain
        rw [hp] at h8
        rw [← targetSource_root h.1.1 raw]
        exact h8
    · intro chain current raw s s₁ id target refs' h hp
      have h1 := (prepare_wellFormed hb chain current raw h.1.1).1
      have h3 := prepare_extends lookup chain current raw s
      have h4 := hE chain current raw s h.1.1 h.1.2
      have h5 := prepare_unfailed lookup chain current raw s
      have h6 := prepare_strict lookup chain current raw s
      rw [hp] at h1 h3 h4 h5 h6
      have h7 : strict = false → s₁.failed = false := by
        intro hs
        have := prepare_failed lookup chain current raw s (h.2.1.1.trans hs) (h.2.1.2 hs)
        rw [hp] at this
        exact this
      refine ⟨⟨⟨h1, h4⟩, ⟨h6.trans h.2.1.1, h7⟩, fun hf' => ?_⟩, ⟨h3, h5⟩, ?_,
        (prepare_descend lookup chain current raw s s₁ id target refs' hp).2.1,
        prepare_descend_mem hb chain current raw h.1.1 s₁ id target refs' hp⟩
      · have hf := h5 hf'
        exact (prepare_steady lookup chain current raw hf (h.2.2 hf)).2 s₁ id target refs' hp
      · intro hc hf'
        subst hc
        have hf := h5 hf'
        have h8 := prepare_seen lookup chain 0 raw s hf (h.2.2 hf).chain
        rw [hp] at h8
        rw [← targetSource_root h.1.1 raw]
        exact h8
  have hinit : Steady
      (((Session.start config strict root refs).references.map
        (fun e => e.2.Definition)).map (referenceId config)) []
      (Session.start config strict root refs) := by
    refine ⟨fun _ hx => (by cases hx), ?_⟩
    intro id r hr _
    have hm := GoMap.mem_of_get? _ _ _ hr
    have := (hstart.1 _ hm).1
    rw [List.mem_map]
    refine ⟨r.Definition, ?_, this.symm⟩
    rw [List.mem_map]
    exact ⟨(id, r), hm, rfl⟩
  obtain ⟨s, hrun, hI, hext⟩ :=
    forEach_total (fun s raw => visit lookup fuel [] 0 raw s)
      (fun rs s => (WellFormed lookup config root ids s ∧ E s) ∧ (s.strict = strict ∧
        (strict = false → s.failed = false)) ∧
        (s.failed = false → Steady (rs.map (referenceId config)) [] s))
      (fun s s' => s.Extends s' ∧ (s'.failed = false → s.failed = false))
      (fun s => ⟨Session.Extends.refl s, fun h => h⟩)
      (fun _ _ _ h₁ h₂ => ⟨h₁.1.trans h₂.1, fun h => h₁.2 (h₂.2 h)⟩)
      (fun s r rs h => by
        obtain ⟨s', hv, hst, he, hp⟩ := hvisit ((r :: rs).map (referenceId config)) fuel [] 0 r s
          List.nodup_nil (fun _ hx => (by cases hx)) (by simpa using hfuel) h
        refine ⟨s', hv, ⟨hst.1, hst.2.1, fun hf' => ?_⟩, he⟩
        have h1 := hst.2.2 hf'
        refine ⟨h1.chain, ?_⟩
        intro id r' hr hs
        have := h1.pending id r' hr hs
        rw [List.map_cons, List.mem_cons] at this
        rcases this with h1 | h1
        · exfalso
          have h2 := hp rfl hf'
          rw [seen_iff] at h2
          obtain ⟨r'', hr'', hs''⟩ := h2
          rw [← h1, hr] at hr''
          injection hr'' with hr''
          rw [← hr'', hs] at hs''
          cases hs''
        · exact h1)
      ((Session.start config strict root refs).references.map (fun e => e.2.Definition))
      (Session.start config strict root refs)
      ⟨⟨start_wellFormed hb strict refs, hE0⟩, ⟨rfl, fun _ => rfl⟩, fun _ => hinit⟩
  refine ⟨s, hrun, hI.1.1, hI.1.2, hext.1, hI.2.1.2, ?_⟩
  intro hf id r hr
  cases hs : r.Seen with
  | true => rfl
  | false =>
    have := (hI.2.2 hf).pending id r hr hs
    cases this

end Resolver

namespace Resolver

open Index

/-! ### The target index -/

/-- The session with the target index obtained is well-formed; the index at `target`, if
any, has the source of the visited identifier; it is the current index for a Local
reference, and it exists for a File or Remote reference. -/
theorem obtained_index {lookup : ExternalLookupFunction} {config : SpecIndexConfig}
    {root : Document} {ids : List String} (hb : Bounded config lookup root ids)
    (current : Nat) (raw : String) {s : Session} (h : WellFormed lookup config root ids s)
    (s₂ : Session) (target : Nat)
    (hob : ((classify raw).classification = .Local ∧
          s₂ = (s.ensure (targetSource s current (classify raw) ++ (classify raw).fragment)
            raw (classify raw) (targetSource s current (classify raw))).update
              (targetSource s current (classify raw) ++ (classify raw).fragment)
              (fun r => { r with Seen := true }) ∧ target = current) ∨
        ((((classify raw).classification = .File ∧ s.config.AllowFileLookup = true) ∨
          ((classify raw).classification = .Remote ∧ s.config.AllowRemoteLookup = true)) ∧
          ((s₂ = (s.ensure (targetSource s current (classify raw) ++ (classify raw).fragment)
            raw (classify raw) (targetSource s current (classify raw))).update
              (targetSource s current (classify raw) ++ (classify raw).fragment)
              (fun r => { r with Seen := true }) ∧
            ∃ ix₀, ix₀ ∈ ((s.ensure
              (targetSource s current (classify raw) ++ (classify raw).fragment)
              raw (classify raw) (targetSource s current (classify raw))).update
              (targetSource s current (classify raw) ++ (classify raw).fragment)
              (fun r => { r with Seen := true })).indexes ∧
              ix₀.source = targetSource s current (classify raw) ∧ target = ix₀.addr) ∨
           (∃ document, lookup (targetSource s current (classify raw)) = some document ∧
              s₂ = (fetch lookup ((s.ensure
                (targetSource s current (classify raw) ++ (classify raw).fragment)
                raw (classify raw) (targetSource s current (classify raw))).update
                (targetSource s current (classify raw) ++ (classify raw).fragment)
                (fun r => { r with Seen := true })) current
                (targetSource s current (classify raw))).1 ∧
              target = ((s.ensure
                (targetSource s current (classify raw) ++ (classify raw).fragment)
                raw (classify raw) (targetSource s current (classify raw))).update
                (targetSource s current (classify raw) ++ (classify raw).fragment)
                (fun r => { r with Seen := true })).indexes.length)))) :
    WellFormed lookup config root ids s₂ ∧
      (∀ ix, s₂.index? target = some ix →
        ix.source = targetSource s current (classify raw)) ∧
      ((classify raw).classification = .Local → s₂.index? target = s.index? current) ∧
      ((classify raw).classification ≠ .Local → ∃ ix, s₂.index? target = some ix) := by
  have w0 : WellFormed lookup config root ids
      (s.ensure (targetSource s current (classify raw) ++ (classify raw).fragment)
        raw (classify raw) (targetSource s current (classify raw))) :=
    wellFormed_of_eq h (config_ensure _ _ _ _ _) (indexes_ensure _ _ _ _ _)
  have w1 : WellFormed lookup config root ids
      ((s.ensure (targetSource s current (classify raw) ++ (classify raw).fragment)
        raw (classify raw) (targetSource s current (classify raw))).update
          (targetSource s current (classify raw) ++ (classify raw).fragment)
          (fun r => { r with Seen := true })) :=
    wellFormed_of_eq w0 rfl rfl
  have hi1 : ∀ addr, ((s.ensure (targetSource s current (classify raw) ++
        (classify raw).fragment) raw (classify raw)
        (targetSource s current (classify raw))).update
          (targetSource s current (classify raw) ++ (classify raw).fragment)
          (fun r => { r with Seen := true })).index? addr = s.index? addr :=
    fun addr => index?_ensure s _ raw _ _ addr
  rcases hob with ⟨hcl, rfl, htc⟩ | ⟨hperm, ⟨rfl, ix₀, hmem, hsrc, rfl⟩ |
    ⟨document, hdoc, rfl, rfl⟩⟩
  · refine ⟨w1, ?_, fun _ => by rw [htc]; exact hi1 current, fun hne => absurd hcl hne⟩
    intro ix hix
    rw [htc, hi1] at hix
    rw [targetSource_local s current hcl, hix]; rfl
  · have hne : (classify raw).classification ≠ .Local := by
      rcases hperm with ⟨hc, _⟩ | ⟨hc, _⟩ <;> rw [hc] <;> exact fun e => by cases e
    refine ⟨w1, ?_, fun hc => absurd hc hne, fun _ => ⟨ix₀, w1.addr_find ix₀ hmem⟩⟩
    intro ix hix
    rw [w1.addr_find ix₀ hmem] at hix
    injection hix with hix
    rw [← hix]; exact hsrc
  · rw [h.allowFile, h.allowRemote] at hperm
    obtain ⟨hne, hallow⟩ := permitted_external hperm
    have hsource : ∃ raw', (classify raw').classification ≠ .Local ∧
        targetSource s current (classify raw) = normalize config (classify raw') := by
      refine ⟨raw, hne, ?_⟩
      rw [targetSource_external s current hne]
      exact normalize_of_base h.baseURL h.basePath _
    obtain ⟨w, hnew⟩ := wellFormed_fetch hb hallow hsource current w1
    refine ⟨w, ?_, fun hc => absurd hc hne, fun _ => ⟨_, hnew document hdoc⟩⟩
    intro ix hix
    rw [hnew document hdoc] at hix
    injection hix with hix
    rw [← hix]

/-! ### The entry of the visited reference -/

theorem get?_ensure_self_eq (s : Session) (id raw : String) (p : Pointer) (source : String) :
    (s.ensure id raw p source).references.get? id =
      some ((s.references.get? id).getD (newReference raw p source)) := by
  rw [get?_ensure, if_pos rfl]

theorem get?_markSeen (s : Session) (id raw : String) (p : Pointer) (source : String) :
    ((s.ensure id raw p source).update id (fun r => { r with Seen := true })).references.get?
      id = some { (s.references.get? id).getD (newReference raw p source) with Seen := true } := by
  rw [get?_update_session, if_pos rfl, get?_ensure_self_eq]; rfl

theorem get?_recordCycle (s : Session) (id raw : String) (p : Pointer) (source : String)
    (chain : List String) :
    ((s.ensure id raw p source).recordCycle id chain).references.get? id =
      some { (s.references.get? id).getD (newReference raw p source) with Circular := true } := by
  rw [references_recordCycle, get?_update_session, if_pos rfl, get?_ensure_self_eq]; rfl

end Resolver

namespace Resolver

open Index

/-! ### A policy that forbids file lookups -/

theorem file_ne_local {raw : String} (h : (classify raw).classification = .File) :
    (classify raw).classification ≠ .Local := by
  rw [h]; exact fun e => by cases e

theorem remote_ne_local {raw : String} (h : (classify raw).classification = .Remote) :
    (classify raw).classification ≠ .Local := by
  rw [h]; exact fun e => by cases e

/-- A file-based reference string and a remote one do not have the same normalized source,
when the flags of the policy disagree. -/
theorem clash {config : SpecIndexConfig}
    (hd : config.AllowRemoteLookup = config.AllowFileLookup ∨ Distinct config)
    {raw raw' : String} (hf : (classify raw).classification = .File)
    (hr : (classify raw').classification = .Remote)
    (hflags : config.AllowRemoteLookup ≠ config.AllowFileLookup) :
    normalize config (classify raw) ≠ normalize config (classify raw') := by
  rcases hd with hd | hd
  · exact absurd hd hflags
  · exact hd raw raw' hf hr

theorem permitted_remote {lookup : ExternalLookupFunction} {config : SpecIndexConfig}
    {root : Document} {ids : List String} {s : Session}
    (h : WellFormed lookup config root ids s) (hfile : config.AllowFileLookup = false)
    (current : Nat) {raw : String}
    (hp : ((classify raw).classification = .File ∧ s.config.AllowFileLookup = true) ∨
      ((classify raw).classification = .Remote ∧ s.config.AllowRemoteLookup = true)) :
    (classify raw).classification = .Remote ∧ config.AllowRemoteLookup = true ∧
      targetSource s current (classify raw) = normalize config (classify raw) := by
  rcases hp with ⟨_, hp⟩ | ⟨hc, hp⟩
  · rw [h.allowFile, hfile] at hp; cases hp
  · refine ⟨hc, h.allowRemote ▸ hp, ?_⟩
    rw [targetSource_external s current (remote_ne_local hc)]
    exact normalize_of_base h.baseURL h.basePath _

/-- Under a policy that forbids file lookups, `prepare` keeps the state of the file-based
references. -/
theorem prepare_gated {lookup : ExternalLookupFunction} {config : SpecIndexConfig}
    {root : Document} {ids : List String} (hn : NoHash config)
    (hd : config.AllowRemoteLookup = config.AllowFileLookup ∨ Distinct config)
    (hfile : config.AllowFileLookup = false)
    (chain : List String) (current : Nat) (raw : String) {s : Session}
    (hw : WellFormed lookup config root ids s) (hg : Gated config s) :
    Gated config (prepare lookup chain current raw s).state := by
  have e0 := extends_ensure s (targetSource s current (classify raw) ++ (classify raw).fragment)
    raw (classify raw) (targetSource s current (classify raw))
  have e1 := e0.trans (extends_markSeen _
    (targetSource s current (classify raw) ++ (classify raw).fragment))
  have hflags : config.AllowRemoteLookup = true →
      config.AllowRemoteLookup ≠ config.AllowFileLookup := by
    intro ha he
    rw [ha, hfile] at he
    cases he
  have hfetched : ∀ s₂ : Session,
      (((classify raw).classification = .File ∧ s.config.AllowFileLookup = true) ∨
        ((classify raw).classification = .Remote ∧ s.config.AllowRemoteLookup = true)) →
      s₂ = (fetch lookup ((s.ensure
        (targetSource s current (classify raw) ++ (classify raw).fragment)
        raw (classify raw) (targetSource s current (classify raw))).update
        (targetSource s current (classify raw) ++ (classify raw).fragment)
        (fun r => { r with Seen := true })) current
        (targetSource s current (classify raw))).1 →
      (∀ ix ∈ s₂.indexes, ix.source = "" ∨
        (config.AllowRemoteLookup = true ∧
          ∃ raw, (classify raw).classification = .Remote ∧
            ix.source = normalize config (classify raw))) ∧
      (∀ source ∈ s₂.lookups,
        config.AllowRemoteLookup = true ∧
          ∃ raw, (classify raw).classification = .Remote ∧
            source = normalize config (classify raw)) := by
    intro s₂ hp hs₂
    obtain ⟨hc, ha, hts⟩ := permitted_remote hw hfile current hp
    subst hs₂
    cases hl : lookup (targetSource s current (classify raw)) with
    | none =>
      rw [fetch_of_none hl]
      refine ⟨fun ix hix => hg.1 ix (by rw [← indexes_ensure s]; exact hix), ?_⟩
      intro source hsrc
      simp only [List.mem_append, List.mem_singleton] at hsrc
      rcases hsrc with hsrc | rfl
      · exact hg.2.1 source (by rw [← lookups_ensure s]; exact hsrc)
      · exact ⟨ha, raw, hc, hts⟩
    | some document =>
      rw [fetch_of_some hl]
      refine ⟨?_, ?_⟩
      · intro ix hix
        simp only [List.mem_append, List.mem_singleton] at hix
        rcases hix with hix | rfl
        · exact hg.1 ix (by rw [← indexes_ensure s]; exact hix)
        · exact Or.inr ⟨ha, raw, hc, hts⟩
      · intro source hsrc
        simp only [List.mem_append, List.mem_singleton] at hsrc
        rcases hsrc with hsrc | rfl
        · exact hg.2.1 source (by rw [← lookups_ensure s]; exact hsrc)
        · exact ⟨ha, raw, hc, hts⟩
  have hA : (∀ ix ∈ (prepare lookup chain current raw s).state.indexes, ix.source = "" ∨
        (config.AllowRemoteLookup = true ∧
          ∃ raw, (classify raw).classification = .Remote ∧
            ix.source = normalize config (classify raw))) ∧
      (∀ source ∈ (prepare lookup chain current raw s).state.lookups,
        config.AllowRemoteLookup = true ∧
          ∃ raw, (classify raw).classification = .Remote ∧
            source = normalize config (classify raw)) := by
    have hsame : ∀ s' : Session, s'.indexes = s.indexes → s'.lookups = s.lookups →
        (∀ ix ∈ s'.indexes, ix.source = "" ∨
          (config.AllowRemoteLookup = true ∧
            ∃ raw, (classify raw).classification = .Remote ∧
              ix.source = normalize config (classify raw))) ∧
        (∀ source ∈ s'.lookups,
          config.AllowRemoteLookup = true ∧
            ∃ raw, (classify raw).classification = .Remote ∧
              source = normalize config (classify raw)) := by
      intro s' hi hl
      rw [hi, hl]
      exact ⟨hg.1, hg.2.1⟩
    refine prepare_elim lookup chain current raw s
      (fun o => (∀ ix ∈ o.state.indexes, ix.source = "" ∨
          (config.AllowRemoteLookup = true ∧
            ∃ raw, (classify raw).classification = .Remote ∧
              ix.source = normalize config (classify raw))) ∧
        (∀ source ∈ o.state.lookups,
          config.AllowRemoteLookup = true ∧
            ∃ raw, (classify raw).classification = .Remote ∧
              source = normalize config (classify raw))) _ _ _ _
      rfl rfl rfl rfl ?_ ?_ ?_ ?_ ?_ ?_ ?_
    · intro _; exact hsame _ (indexes_ensure _ _ _ _ _) (lookups_ensure _ _ _ _ _)
    · intro _ _
      exact hsame _ ((indexes_recordCycle _ _ _).trans (indexes_ensure _ _ _ _ _))
        ((lookups_recordCycle _ _ _).trans (lookups_ensure _ _ _ _ _))
    · intro _ _ _; exact hsame _ (indexes_ensure _ _ _ _ _) (lookups_ensure _ _ _ _ _)
    · intro _ _ _ _; exact hsame _ (indexes_ensure _ _ _ _ _) (lookups_ensure _ _ _ _ _)
    · intro _ _ _ hp _; exact hfetched _ hp rfl
    · intro _ _ _ s₂ target hob _
      rcases hob with ⟨_, rfl, _⟩ | ⟨hp, ⟨rfl, _⟩ | ⟨_, _, hs₂, _⟩⟩
      · exact hsame _ (indexes_ensure _ _ _ _ _) (lookups_ensure _ _ _ _ _)
      · exact hsame _ (indexes_ensure _ _ _ _ _) (lookups_ensure _ _ _ _ _)
      · exact hfetched s₂ hp hs₂
    · intro _ _ _ s₂ target ix t hob _ _
      rcases hob with ⟨_, rfl, _⟩ | ⟨hp, ⟨rfl, _⟩ | ⟨_, _, hs₂, _⟩⟩
      · exact hsame _ (indexes_ensure _ _ _ _ _) (lookups_ensure _ _ _ _ _)
      · exact hsame _ (indexes_ensure _ _ _ _ _) (lookups_ensure _ _ _ _ _)
      · exact hfetched s₂ hp hs₂
  refine ⟨hA.1, hA.2, ?_⟩
  intro raw₀ r hfile₀ hget
  by_cases hid : referenceId config raw₀ =
      targetSource s current (classify raw) ++ (classify raw).fragment
  · have hsrc := (identifier_unique raw₀ raw (normalize_noHash hn raw₀)
      (source_noHash_of_wellFormed hn hw current raw) hid).1
    have hne := normalize_ne_empty config (file_ne_local hfile₀)
    have hnoperm : ¬ (((classify raw).classification = .File ∧
          s.config.AllowFileLookup = true) ∨
        ((classify raw).classification = .Remote ∧ s.config.AllowRemoteLookup = true)) := by
      intro hp
      obtain ⟨hc, ha, hts⟩ := permitted_remote hw hfile current hp
      exact clash hd hfile₀ hc (hflags ha) (hsrc.trans hts)
    have hnolocal : (classify raw).classification ≠ .Local := by
      intro hcl
      rw [targetSource_local s current hcl] at hsrc
      cases hi : s.index? current with
      | none =>
        rw [hi] at hsrc
        exact hne hsrc
      | some ix =>
        rw [hi] at hsrc
        rcases hg.1 ix (List.mem_of_find?_eq_some hi) with h0 | ⟨ha, raw', hc', hs'⟩
        · apply hne
          rw [hsrc]
          exact h0
        · exact clash hd hfile₀ hc' (hflags ha) (hsrc.trans hs')
    have hnoob : ∀ (s₁ s₂ : Session) (target : Nat) {Q : Prop},
        (((classify raw).classification = .Local ∧ s₂ = s₁ ∧ target = current) ∨
          ((((classify raw).classification = .File ∧ s.config.AllowFileLookup = true) ∨
            ((classify raw).classification = .Remote ∧ s.config.AllowRemoteLookup = true)) ∧
            Q)) → False := by
      intro s₁ s₂ target Q hob
      rcases hob with ⟨hcl, _, _⟩ | ⟨hp, _⟩
      · exact hnolocal hcl
      · exact hnoperm hp
    have hr0 : ((s.references.get?
          (targetSource s current (classify raw) ++ (classify raw).fragment)).getD
          (newReference raw (classify raw) (targetSource s current (classify raw)))).Resolved =
          false ∧
        (((s.references.get?
          (targetSource s current (classify raw) ++ (classify raw).fragment)).getD
          (newReference raw (classify raw) (targetSource s current (classify raw)))).Seen =
            true →
          ∃ raw', referenceId config raw' = referenceId config raw₀ ∧
            .LookupDisallowed raw' ∈ s.errors) := by
      cases hs : s.references.get?
          (targetSource s current (classify raw) ++ (classify raw).fragment) with
      | none => exact ⟨rfl, fun h => by cases h⟩
      | some r₁ => exact hg.2.2 raw₀ r₁ hfile₀ (by rw [hid]; exact hs)
    rw [hid] at hget
    revert r
    refine prepare_elim lookup chain current raw s
      (fun o => ∀ r, o.state.references.get?
          (targetSource s current (classify raw) ++ (classify raw).fragment) = some r →
        r.Resolved = false ∧
          (r.Seen = true →
            ∃ raw', referenceId config raw' = referenceId config raw₀ ∧
              .LookupDisallowed raw' ∈ o.state.errors)) _ _ _ _
      rfl rfl rfl rfl ?_ ?_ ?_ ?_ ?_ ?_ ?_
    · intro _ r hget
      dsimp only [Outcome.state] at hget ⊢
      rw [get?_ensure_self_eq] at hget
      injection hget with hget
      subst hget
      refine ⟨hr0.1, fun hs => ?_⟩
      obtain ⟨raw', h1, h2⟩ := hr0.2 hs
      exact ⟨raw', h1, e0.errors _ h2⟩
    · intro _ _ r hget
      dsimp only [Outcome.state] at hget ⊢
      rw [get?_recordCycle] at hget
      injection hget with hget
      subst hget
      refine ⟨hr0.1, fun hs => ?_⟩
      obtain ⟨raw', h1, h2⟩ := hr0.2 hs
      exact ⟨raw', h1, (e0.trans (extends_recordCycle _ _ _)).errors _ h2⟩
    · intro _ _ _ r hget
      dsimp only [Outcome.state] at hget ⊢
      rw [get?_ensure_self_eq] at hget
      injection hget with hget
      subst hget
      refine ⟨hr0.1, fun hs => ?_⟩
      obtain ⟨raw', h1, h2⟩ := hr0.2 hs
      exact ⟨raw', h1, e0.errors _ h2⟩
    · intro _ _ _ hgate r hget
      dsimp only [Outcome.state, Session.addError] at hget ⊢
      rw [get?_markSeen] at hget
      injection hget with hget
      subst hget
      refine ⟨hr0.1, fun _ => ⟨raw, ?_, List.mem_append_right _ (List.mem_singleton_self _)⟩⟩
      have hne' : (classify raw).classification ≠ .Local := by
        rcases hgate with ⟨hc, _⟩ | ⟨hc, _⟩ <;> rw [hc] <;> exact fun e => by cases e
      rw [hid]
      unfold referenceId
      rw [targetSource_external s current hne',
        normalize_of_base hw.baseURL hw.basePath]
    · intro _ _ _ hp; exact absurd hp hnoperm
    · intro _ _ _ s₂ target hob _
      exact (hnoob _ s₂ target hob).elim
    · intro _ _ _ s₂ target ix t hob _ _
      exact (hnoob _ s₂ target hob).elim
  · rw [prepare_frame lookup chain current raw s _ hid] at hget
    obtain ⟨h1, h2⟩ := hg.2.2 raw₀ r hfile₀ hget
    refine ⟨h1, fun hs => ?_⟩
    obtain ⟨raw', h3, h4⟩ := h2 hs
    exact ⟨raw', h3, (prepare_extends lookup chain current raw s).errors _ h4⟩

end Resolver

namespace Resolver

open Index

/-! ### A policy that permits file lookups -/

theorem get?_markResolved (s : Session) (id : String) (body : Yaml.Node) (r : Reference)
    (h : (s.update id (fun r => { r with Resolved := true, Node := some body })).references.get?
      id = some r) : r.Resolved = true := by
  rw [get?_update_session, if_pos rfl] at h
  cases hs : s.references.get? id with
  | none => rw [hs] at h; cases h
  | some r₀ =>
    rw [hs] at h
    injection h with h
    rw [← h]

/-- Under a policy that permits file lookups, `prepare` keeps the state of the file-based
references whose file is present. -/
theorem prepare_served {lookup : ExternalLookupFunction} {config : SpecIndexConfig}
    {root : Document} {ids : List String}
    (hb : Bounded config lookup root ids) (hn : NoHash config)
    (hd : config.AllowRemoteLookup = config.AllowFileLookup ∨ Distinct config)
    (hfile : config.AllowFileLookup = true) (chain : List String) (current : Nat)
    (raw : String) {s : Session}
    (hw : WellFormed lookup config root ids s) (hs : Served config lookup s) :
    Served config lookup (prepare lookup chain current raw s).state := by
  have hf := hw.allowFile.trans hfile
  intro raw₀ document t r hfile₀ hlook hfrag hget
  by_cases hid : referenceId config raw₀ =
      targetSource s current (classify raw) ++ (classify raw).fragment
  · obtain ⟨hsrc, hfr⟩ := identifier_unique raw₀ raw (normalize_noHash hn raw₀)
      (source_noHash_of_wellFormed hn hw current raw) hid
    have hne := normalize_ne_empty config (file_ne_local hfile₀)
    have hr0 : ((s.references.get?
          (targetSource s current (classify raw) ++ (classify raw).fragment)).getD
          (newReference raw (classify raw) (targetSource s current (classify raw)))).Seen =
          true →
        ((s.references.get?
          (targetSource s current (classify raw) ++ (classify raw).fragment)).getD
          (newReference raw (classify raw) (targetSource s current (classify raw)))).Resolved =
            true := by
      cases hg : s.references.get?
          (targetSource s current (classify raw) ++ (classify raw).fragment) with
      | none => exact fun h => by cases h
      | some r₁ => exact hs raw₀ document t r₁ hfile₀ hlook hfrag (by rw [hid]; exact hg)
    rw [hid] at hget
    revert r
    refine prepare_elim lookup chain current raw s
      (fun o => ∀ r, o.state.references.get?
          (targetSource s current (classify raw) ++ (classify raw).fragment) = some r →
        r.Seen = true → r.Resolved = true) _ _ _ _
      rfl rfl rfl rfl ?_ ?_ ?_ ?_ ?_ ?_ ?_
    · intro _ r hget
      dsimp only [Outcome.state] at hget
      rw [get?_ensure_self_eq] at hget
      injection hget with hget
      subst hget
      exact hr0
    · intro _ _ r hget
      dsimp only [Outcome.state] at hget
      rw [get?_recordCycle] at hget
      injection hget with hget
      subst hget
      exact hr0
    · intro _ _ _ r hget
      dsimp only [Outcome.state] at hget
      rw [get?_ensure_self_eq] at hget
      injection hget with hget
      subst hget
      exact hr0
    · intro _ _ _ hgate
      exfalso
      rcases hgate with ⟨_, hg⟩ | ⟨hc, hg⟩
      · rw [hf] at hg; cases hg
      · rw [hw.allowRemote] at hg
        refine clash hd hfile₀ hc (by rw [hg, hfile]; exact fun e => by cases e) ?_
        rw [hsrc, targetSource_external s current (remote_ne_local hc)]
        exact normalize_of_base hw.baseURL hw.basePath _
    · intro _ _ _ _ hnone
      rw [← hsrc, hlook] at hnone
      cases hnone
    · intro _ _ _ s₂ target hob hnone
      exfalso
      obtain ⟨w, hsource, hloc, hext⟩ := obtained_index hb current raw hw s₂ target hob
      have hix : ∃ ix, s₂.index? target = some ix := by
        by_cases hc : (classify raw).classification = .Local
        · rw [hloc hc]
          cases hi : s.index? current with
          | some ix => exact ⟨ix, rfl⟩
          | none =>
            exfalso
            apply hne
            rw [hsrc, targetSource_local s current hc, hi]
            rfl
        · exact hext hc
      obtain ⟨ix, hix⟩ := hix
      have hixs := hsource ix hix
      rcases w.origin ix (List.mem_of_find?_eq_some hix) with h0 | ⟨h1, _⟩
      · apply hne
        rw [hsrc, ← hixs, h0]
      · rw [hixs, ← hsrc, hlook] at h1
        injection h1 with h1
        rw [hix] at hnone
        have hnone' : ix.document.get? (classify raw).fragment = none := hnone
        rw [← h1, ← hfr, hfrag] at hnone'
        cases hnone'
    · intro _ _ _ s₂ target ix t' hob _ _ r hget _
      exact get?_markResolved _ _ _ r hget
  · rw [prepare_frame lookup chain current raw s _ hid] at hget
    exact hs raw₀ document t r hfile₀ hlook hfrag hget

end Resolver

namespace Resolver

open Index

/-- Under a policy that forbids both lookups, the identifiers of all target contents are the
fragments of the root document. -/
theorem bounded_closed (config : SpecIndexConfig) (lookup : ExternalLookupFunction)
    (root : Document) (hfile : config.AllowFileLookup = false)
    (hremote : config.AllowRemoteLookup = false) : Bounded config lookup root root.keys := by
  refine ⟨?_, ?_⟩
  · intro fragment t ht
    exact List.mem_map.2 ⟨(fragment, t), GoMap.mem_of_get? _ _ _ ht, rfl⟩
  · rintro (h | h)
    · rw [hfile] at h; cases h
    · rw [hremote] at h; cases h

theorem registered_of_extends {config : SpecIndexConfig} {strict : Bool} {root : Document}
    {refs : List String} {s : Session}
    (h : (Session.start config strict root refs).Extends s) :
    ∀ raw ∈ refs, ∃ r, s.references.get? (referenceId config raw) = some r := by
  intro raw hraw
  obtain ⟨r, hr⟩ := (start_references config strict root refs).2 raw hraw
  obtain ⟨r', hr', _⟩ := h.references _ r hr
  exact ⟨r', hr'⟩

/-- C21 (amended): policy gating.  The config is one whose base holds no `#`, and whose two
lookup flags agree (as in both presets) or in which no file-based reference string has the
normalized source of a remote one (as with any base that is a plain path); the root
document, its references, the loader and the cycle policy are arbitrary, the identifiers of
all target contents being among `ids`.  Then the resolution returns for any fuel above the
length of `ids`, with every reference of the root document registered; the resolver takes up
every registered reference (it ends with `Seen = true`) unless it is stopped, which it never
is under the default policy (a cycle stops it under the strict policy).  With
`AllowFileLookup = false`, every reference registered under the identifier of a file-based
reference string ends with `Resolved = false`, the loader has not been invoked for its
source, and once the resolver has taken it up a `LookupDisallowed` error is recorded for a
reference string of that identifier.  With `AllowFileLookup = true`, every reference
registered under the identifier of a file-based reference string whose file is present (the
loader returns the document and the fragment is in it) ends with `Resolved = true` once the
resolver has taken it up. -/
theorem policy_gating (config : SpecIndexConfig) (strict : Bool)
    (lookup : ExternalLookupFunction) (root : Document) (refs ids : List String) (fuel : Nat)
    (hn : NoHash config)
    (hd : config.AllowRemoteLookup = config.AllowFileLookup ∨ Distinct config)
    (hb : Bounded config lookup root ids) (hfuel : ids.length + 1 ≤ fuel) :
    ∃ s, Resolve lookup fuel (Session.start config strict root refs) = some s ∧
      (∀ raw ∈ refs, ∃ r, s.references.get? (referenceId config raw) = some r) ∧
      (strict = false → s.failed = false) ∧
      (s.failed = false → ∀ id r, s.references.get? id = some r → r.Seen = true) ∧
      (config.AllowFileLookup = false →
        ∀ raw r, (classify raw).classification = .File →
          s.references.get? (referenceId config raw) = some r →
          r.Resolved = false ∧ normalize config (classify raw) ∉ s.lookups ∧
            (r.Seen = true →
              ∃ raw', referenceId config raw' = referenceId config raw ∧
                .LookupDisallowed raw' ∈ s.errors)) ∧
      (config.AllowFileLookup = true →
        ∀ raw document t r, (classify raw).classification = .File →
          lookup (normalize config (classify raw)) = some document →
          document.get? (classify raw).fragment = some t →
          s.references.get? (referenceId config raw) = some r →
          r.Seen = true → r.Resolved = true) := by
  have hstart := start_references config strict root refs
  cases hfile : config.AllowFileLookup with
  | false =>
    obtain ⟨s, hrun, _, hg, hext, hdef, hseen⟩ :=
      resolve_steady hb (Gated config)
        (fun chain current raw _ hw hg => prepare_gated hn hd hfile chain current raw hw hg)
        strict refs fuel hfuel
        ⟨fun ix hix => Or.inl (by
            simp only [Session.start, List.mem_singleton] at hix
            rw [hix]),
          fun _ hx => (by cases hx),
          fun raw r _ hr => by
            have := hstart.1 _ (GoMap.mem_of_get? _ _ _ hr)
            exact ⟨this.2.2.2.1, fun hs => by rw [this.2.2.1] at hs; cases hs⟩⟩
    refine ⟨s, hrun, registered_of_extends hext, hdef, hseen, ?_, fun h => (by cases h)⟩
    intro _ raw r hfile₀ hr
    obtain ⟨h1, h2⟩ := hg.2.2 raw r hfile₀ hr
    refine ⟨h1, ?_, h2⟩
    intro hmem
    obtain ⟨ha, raw', hc', he⟩ := hg.2.1 _ hmem
    exact clash hd hfile₀ hc' (by rw [ha, hfile]; exact fun e => by cases e) he
  | true =>
    obtain ⟨s, hrun, _, hs, hext, hdef, hseen⟩ :=
      resolve_steady hb (Served config lookup)
        (fun chain current raw _ hw hs =>
          prepare_served hb hn hd hfile chain current raw hw hs)
        strict refs fuel hfuel
        (fun raw document t r _ _ _ hr hs => by
          have := hstart.1 _ (GoMap.mem_of_get? _ _ _ hr)
          rw [this.2.2.1] at hs; cases hs)
    refine ⟨s, hrun, registered_of_extends hext, hdef, hseen, fun h => (by cases h), ?_⟩
    intro _ raw document t r hfile₀ hl ht hr
    exact hs raw document t r hfile₀ hl ht hr

end Resolver

namespace Resolver

open Index

/-! ### A self-referential reference -/

theorem normalize_local (config : SpecIndexConfig) {raw : String}
    (h : (classify raw).classification = .Local) : normalize config (classify raw) = "" := by
  unfold normalize
  rw [h]

theorem referenceId_local (config : SpecIndexConfig) {raw : String}
    (h : (classify raw).classification = .Local) : referenceId config raw = raw := by
  unfold referenceId
  rw [normalize_local config h, empty_append, classify_of_local h]

theorem prepare_of_cycle (lookup : ExternalLookupFunction) (chain : List String)
    (current : Nat) (raw : String) (s : Session) (hf : s.failed = false)
    (hc : targetSource s current (classify raw) ++ (classify raw).fragment ∈ chain) :
    prepare lookup chain current raw s =
      .done ((s.ensure (targetSource s current (classify raw) ++ (classify raw).fragment) raw
        (classify raw) (targetSource s current (classify raw))).recordCycle
          (targetSource s current (classify raw) ++ (classify raw).fragment) chain) := by
  unfold prepare
  simp only [failed_ensure, hf, hc, if_true, if_false, Bool.false_eq_true]

theorem prepare_of_local (lookup : ExternalLookupFunction) (chain : List String)
    (current : Nat) (raw : String) (s : Session) (ix : LoadedIndex) (t : Target)
    (hcl : (classify raw).classification = .Local) (hf : s.failed = false)
    (hc : targetSource s current (classify raw) ++ (classify raw).fragment ∉ chain)
    (hs : s.seen (targetSource s current (classify raw) ++ (classify raw).fragment) = false)
    (hix : s.index? current = some ix)
    (ht : ix.document.get? (classify raw).fragment = some t) :
    prepare lookup chain current raw s =
      .descend
        (((s.ensure (targetSource s current (classify raw) ++ (classify raw).fragment) raw
          (classify raw) (targetSource s current (classify raw))).update
            (targetSource s current (classify raw) ++ (classify raw).fragment)
            (fun r => { r with Seen := true })).update
              (targetSource s current (classify raw) ++ (classify raw).fragment)
              (fun r => { r with Resolved := true, Node := some t.body }))
        (targetSource s current (classify raw) ++ (classify raw).fragment) current
        t.references := by
  have hix' : ((s.ensure (targetSource s current (classify raw) ++ (classify raw).fragment)
      raw (classify raw) (targetSource s current (classify raw))).update
        (targetSource s current (classify raw) ++ (classify raw).fragment)
        (fun r => { r with Seen := true })).index? current = some ix := by
    rw [← hix]
    exact index?_ensure s _ raw _ _ current
  unfold prepare
  simp only [failed_ensure, hf, hc, seen_ensure_eq, hs, if_false, Bool.false_eq_true, hcl]
  unfold enter
  rw [hix']
  rw [show ((some ix).bind fun ix => GoMap.get? ix.document (classify raw).fragment) = some t
    from ht]

end Resolver

namespace Resolver

open Index

/-- The resolver on a self-referential reference `A` of the root document that has not been
seen, taken up with an empty active chain: it returns, `A` ends resolved and circular, and the
cycle report grows by the chain `A` alone. -/
theorem visit_self_reference {lookup : ExternalLookupFunction} {config : SpecIndexConfig}
    {root : Document} {ids : List String} (hb : Bounded config lookup root ids)
    (A : String) (body : Yaml.Node) (hA : (classify A).classification = .Local)
    (hroot : root.get? A = some { body := body, references := [A] }) (s : Session)
    (h : WellFormed lookup config root ids s) (hf : s.failed = false)
    (hs : s.seen A = false) (n : Nat) :
    ∃ s', visit lookup (n + 2) [] 0 A s = some s' ∧ WellFormed lookup config root ids s' ∧
      s.Extends s' ∧ s'.circularReferences = s.circularReferences ++ [{ chain := [A] }] ∧
      s'.seen A = true ∧
      ∃ r, s'.references.get? A = some r ∧ r.Resolved = true ∧ r.Circular = true := by
  have hid : targetSource s 0 (classify A) ++ (classify A).fragment = A :=
    (targetSource_root h A).trans (referenceId_local config hA)
  have hfr : (classify A).fragment = A := by rw [classify_of_local hA]
  have step1 := prepare_of_local lookup [] 0 A s _ { body := body, references := [A] } hA hf
    (List.not_mem_nil _) (by rw [hid]; exact hs) h.rootIndex (by rw [hfr]; exact hroot)
  have w1 := (prepare_wellFormed hb [] 0 A h).1
  have e1 := prepare_extends lookup [] 0 A s
  have c1 := prepare_circular lookup [] 0 A s
  have d1 := (prepare_descend lookup [] 0 A s _ _ _ _ step1).2.2.2
  have f1 := prepare_failed lookup [] 0 A s
  rw [step1] at w1 e1 c1 f1
  rw [hid] at step1 w1 e1 c1 d1 f1
  dsimp only [Outcome.state] at w1 e1 c1 f1
  generalize hs₁ : ((s.ensure A A (classify A) (targetSource s 0 (classify A))).update A
    (fun r => { r with Seen := true })).update A
      (fun r => { r with Resolved := true, Node := some body }) = s₁ at step1 w1 e1 c1 d1 f1
  have hres : ∀ r, s₁.references.get? A = some r → r.Resolved = true := by
    intro r hr
    rw [← hs₁] at hr
    exact get?_markResolved _ _ _ r hr
  have hc1 : s₁.circularReferences = s.circularReferences := by
    rcases c1 with c | ⟨c, _⟩
    · exact c
    · cases c
  have hf1 : s₁.failed = false := by
    rw [← hs₁]
    exact (failed_ensure s A A (classify A) (targetSource s 0 (classify A))).trans hf
  have hid1 : targetSource s₁ 0 (classify A) ++ (classify A).fragment = A :=
    (targetSource_root w1 A).trans (referenceId_local config hA)
  have step2 := prepare_of_cycle lookup [A] 0 A s₁ hf1 (by rw [hid1]; exact List.mem_cons_self _ _)
  have w2 := (prepare_wellFormed hb [A] 0 A w1).1
  have e2 := prepare_extends lookup [A] 0 A s₁
  rw [step2] at w2 e2
  rw [hid1] at step2 w2 e2
  dsimp only [Outcome.state] at w2 e2
  have hrun : visit lookup (n + 2) [] 0 A s =
      some ((s₁.ensure A A (classify A) (targetSource s₁ 0 (classify A))).recordCycle A [A]) := by
    show visitStep lookup (visit lookup (n + 1)) [] 0 A s = _
    rw [visitStep_prepare, step1]
    show forEach (fun s r => visit lookup (n + 1) ([] ++ [A]) 0 r s) [A] s₁ = _
    have : visit lookup (n + 1) ([] ++ [A]) 0 A s₁ =
        some ((s₁.ensure A A (classify A) (targetSource s₁ 0 (classify A))).recordCycle A
          [A]) := by
      show visitStep lookup (visit lookup n) [A] 0 A s₁ = _
      rw [visitStep_prepare, step2]
      rfl
    simp only [forEach, this]
  obtain ⟨r₁, hr₁, hseen₁⟩ := (seen_iff s₁ A).1 d1
  obtain ⟨r₂, hr₂, _, hres₂, _⟩ := e2.references A r₁ hr₁
  refine ⟨_, hrun, w2, e1.trans e2, ?_, seen_of_extends e2 d1, r₂, hr₂,
    hres₂ (hres r₁ hr₁), ?_⟩
  · rw [circularReferences_recordCycle, circularReferences_ensure, hc1]
  · rw [get?_recordCycle] at hr₂
    injection hr₂ with hr₂
    rw [← hr₂]

/-- Once the self-referential reference is settled, `prepare` keeps it settled, and the
reference does not enter the active chain again. -/
theorem prepare_settled (lookup : ExternalLookupFunction) (A : String)
    (before : List CircularReferenceResult) (chain : List String)
    (current : Nat) (raw : String) (s : Session) (hA : A ∉ chain) (h : Settled A before s) :
    Settled A before (prepare lookup chain current raw s).state ∧
      ∀ s₁ id target refs, prepare lookup chain current raw s = .descend s₁ id target refs →
        A ∉ chain ++ [id] := by
  refine ⟨⟨seen_of_extends (prepare_extends lookup chain current raw s) h.1, ?_⟩, ?_⟩
  · obtain ⟨more, hm, hmore⟩ := h.2
    rcases prepare_circular lookup chain current raw s with c | ⟨_, c⟩
    · exact ⟨more, c.trans hm, hmore⟩
    · refine ⟨more ++ [{ chain := chain }], ?_, ?_⟩
      · rw [c, hm]; simp
      · intro c' hc'
        rcases List.mem_append.1 hc' with hc' | hc'
        · exact hmore c' hc'
        · rw [List.mem_singleton] at hc'
          subst hc'
          exact hA
  · intro s₁ id target refs hp hmem
    rcases List.mem_append.1 hmem with hmem | hmem
    · exact hA hmem
    · rw [List.mem_singleton] at hmem
      subst hmem
      have := (prepare_descend lookup chain current raw s s₁ A target refs hp).2.2.1
      rw [h.1] at this
      cases this

/-- The references of the active chain and of the chains of the cycle report have been
seen, and `prepare` keeps it so. -/
theorem prepare_traced (lookup : ExternalLookupFunction) (chain : List String)
    (current : Nat) (raw : String) (s : Session) (h : Traced chain s) :
    Traced chain (prepare lookup chain current raw s).state ∧
      ∀ s₁ id target refs, prepare lookup chain current raw s = .descend s₁ id target refs →
        Traced (chain ++ [id]) s₁ := by
  have hext := prepare_extends lookup chain current raw s
  have ht : Traced chain (prepare lookup chain current raw s).state := by
    refine ⟨fun x hx => seen_of_extends hext (h.1 x hx), ?_⟩
    intro c hc x hx
    rcases prepare_circular lookup chain current raw s with e | ⟨_, e⟩
    · rw [e] at hc
      exact seen_of_extends hext (h.2 c hc x hx)
    · rw [e] at hc
      rcases List.mem_append.1 hc with hc | hc
      · exact seen_of_extends hext (h.2 c hc x hx)
      · rw [List.mem_singleton] at hc
        subst hc
        exact seen_of_extends hext (h.1 x hx)
  refine ⟨ht, ?_⟩
  intro s₁ id target refs hp
  rw [hp] at ht
  refine ⟨?_, ht.2⟩
  intro x hx
  rcases List.mem_append.1 hx with hx | hx
  · exact ht.1 x hx
  · rw [List.mem_singleton] at hx
    subst hx
    exact (prepare_descend lookup chain current raw s s₁ x target refs hp).2.2.2

theorem forEach_append (step : Session → String → Option Session) :
    ∀ (a b : List String) (s : Session),
      forEach step (a ++ b) s = (forEach step a s).bind (forEach step b)
  | [], _, _ => rfl
  | r :: a, b, s => by
    simp only [List.cons_append, forEach]
    cases step s r with
    | none => rfl
    | some s₁ => exact forEach_append step a b s₁

/-- The resolution of a list of references of the root document, from a well-formed session:
it returns, for any fuel above the length of `ids`, and it keeps every property of a session
that each `prepare` keeps when the chain does not hold `A`. -/
theorem resolve_from {lookup : ExternalLookupFunction} {config : SpecIndexConfig}
    {root : Document} {ids : List String} (hb : Bounded config lookup root ids)
    (E : List String → Session → Prop)
    (hasc : ∀ chain id s, E (chain ++ [id]) s → E chain s)
    (hE : ∀ chain current raw s, WellFormed lookup config root ids s → E chain s →
      E chain (prepare lookup chain current raw s).state ∧
        ∀ s₁ id target refs, prepare lookup chain current raw s = .descend s₁ id target refs →
          E (chain ++ [id]) s₁)
    (fuel : Nat) (hfuel : ids.length + 1 ≤ fuel) :
    ∀ (defs : List String) (s : Session), WellFormed lookup config root ids s → E [] s →
      ∃ s', forEach (fun s raw => visit lookup fuel [] 0 raw s) defs s = some s' ∧
        WellFormed lookup config root ids s' ∧ E [] s' ∧ s.Extends s' := by
  intro defs s hw he
  obtain ⟨s', hrun, hI, hext⟩ :=
    forEach_total (fun s raw => visit lookup fuel [] 0 raw s)
      (fun _ s => WellFormed lookup config root ids s ∧ E [] s) Session.Extends
      Session.Extends.refl (fun _ _ _ h₁ h₂ => h₁.trans h₂)
      (fun s raw _ hI => by
        obtain ⟨s', hv', hI', he', _⟩ :=
          visit_total lookup ids
            (fun chain s => WellFormed lookup config root ids s ∧ E chain s)
            Session.Extends (fun _ _ _ => True) Session.Extends.refl
            (fun _ _ _ h₁ h₂ => h₁.trans h₂) (fun _ _ _ _ _ _ => trivial)
            (fun chain id s h => ⟨h.1, hasc chain id s h.2⟩)
            (fun chain current raw s s' h hp => by
              have h1 := (prepare_wellFormed hb chain current raw h.1).1
              have h2 := (hE chain current raw s h.1 h.2).1
              have h3 := prepare_extends lookup chain current raw s
              rw [hp] at h1 h2 h3
              exact ⟨⟨h1, h2⟩, h3, trivial⟩)
            (fun chain current raw s s₁ id target refs h hp => by
              have h1 := (prepare_wellFormed hb chain current raw h.1).1
              have h2 := (hE chain current raw s h.1 h.2).2 s₁ id target refs hp
              have h3 := prepare_extends lookup chain current raw s
              rw [hp] at h1 h3
              exact ⟨⟨h1, h2⟩, h3, trivial,
                (prepare_descend lookup chain current raw s s₁ id target refs hp).2.1,
                prepare_descend_mem hb chain current raw h.1 s₁ id target refs hp⟩)
            fuel [] 0 raw s List.nodup_nil (fun _ hx => (by cases hx))
            (by simpa using hfuel) hI
        exact ⟨s', hv', hI', he'⟩)
      defs s ⟨hw, he⟩
  exact ⟨s', hrun, hI.1, hI.2, hext⟩

/-- C20 (amended): resolving a self-referential reference.  `A` is a local reference whose
target content holds the reference `A` and no other; in the root document the references
`pre` come before it and the references `post` after it; when the resolver has resolved
`pre`, it has not visited `A` (no reference before `A` leads to it) and it has not been
stopped (by a cycle under the strict policy).  The rest of the document, the config, the
loader and the cycle policy are arbitrary, the identifiers of all target contents being
among `ids`.  Then the resolution returns for any fuel above the length of `ids`; the cycle
report holds the chain `A` alone, of length one, and no result before or after it holds `A`
in its chain, so that exactly one result is recorded for `A` (it is the whole report when `A`
is the only reference of the document); and the reference ends with `Resolved = true` and
`Circular = true`. -/
theorem self_reference_resolves (config : SpecIndexConfig) (strict : Bool)
    (lookup : ExternalLookupFunction) (root : Document) (body : Yaml.Node) (A : String)
    (refs pre post ids : List String) (fuel : Nat)
    (hA : (classify A).classification = .Local)
    (hroot : root.get? A = some { body := body, references := [A] })
    (hdefs : (Session.start config strict root refs).references.map
      (fun e => e.2.Definition) = pre ++ A :: post)
    (hb : Bounded config lookup root ids) (hfuel : ids.length + 1 ≤ fuel)
    (hpre : (forEach (fun s raw => visit lookup fuel [] 0 raw s) pre
      (Session.start config strict root refs)).map (fun s => (s.seen A, s.failed)) =
        some (false, false)) :
    ∃ s r before more,
      Resolve lookup fuel (Session.start config strict root refs) = some s ∧
      s.circularReferences = before ++ { chain := [A] } :: more ∧
      (∀ c ∈ before, A ∉ c.chain) ∧ (∀ c ∈ more, A ∉ c.chain) ∧
      (pre = [] → before = []) ∧ (post = [] → more = []) ∧
      (s.circularReferences.filter (fun c => decide (A ∈ c.chain))).map
        (fun c => c.chain.length) = [1] ∧
      s.references.get? A = some r ∧ r.Resolved = true ∧ r.Circular = true := by
  have hmem : A ∈ ids := hb.1 A _ hroot
  have hpos : 0 < ids.length := List.length_pos_of_mem hmem
  obtain ⟨n, rfl⟩ : ∃ n, fuel = n + 2 := ⟨fuel - 2, by omega⟩
  have hw := start_wellFormed hb strict refs
  -- the references before `A`
  obtain ⟨s₁, hrun₁, w₁, ht₁, _⟩ :=
    resolve_from hb Traced
      (fun chain id s h => ⟨fun x hx => h.1 x (List.mem_append_left _ hx), h.2⟩)
      (fun chain current raw s _ h => prepare_traced lookup chain current raw s h)
      (n + 2) hfuel pre _ hw
      ⟨fun _ hx => (by cases hx), fun c hc => (by cases hc)⟩
  rw [hrun₁] at hpre
  simp only [Option.map_some', Option.some.injEq, Prod.mk.injEq] at hpre
  obtain ⟨hseen₁, hfailed₁⟩ := hpre
  have hbefore : ∀ c ∈ s₁.circularReferences, A ∉ c.chain := by
    intro c hc hx
    have := ht₁.2 c hc A hx
    rw [hseen₁] at this
    cases this
  have hnil : pre = [] → s₁.circularReferences = [] := by
    intro hp
    rw [hp] at hrun₁
    simp only [forEach, Option.some.injEq] at hrun₁
    rw [← hrun₁]
    rfl
  -- the reference `A`
  obtain ⟨s₂, hv, w₂, _, hc₂, hs₂, r₂, hr₂, hres₂, hcirc₂⟩ :=
    visit_self_reference hb A body hA hroot s₁ w₁ hfailed₁ hseen₁ n
  have hrun : Resolve lookup (n + 2) (Session.start config strict root refs) =
      forEach (fun s raw => visit lookup (n + 2) [] 0 raw s) post s₂ := by
    unfold Resolve
    rw [hdefs, forEach_append, hrun₁]
    show forEach (fun s raw => visit lookup (n + 2) [] 0 raw s) (A :: post) s₁ = _
    simp only [forEach, hv]
  have hfilter : ∀ before more : List CircularReferenceResult,
      (∀ c ∈ before, A ∉ c.chain) → (∀ c ∈ more, A ∉ c.chain) →
      ((before ++ ({ chain := [A] } : CircularReferenceResult) :: more).filter
        (fun c => decide (A ∈ c.chain))).map (fun c => c.chain.length) = [1] := by
    intro before more hb' hmore
    have h1 : before.filter (fun c => decide (A ∈ c.chain)) = [] := by
      rw [List.filter_eq_nil_iff]
      intro c hc
      simpa using hb' c hc
    have h2 : more.filter (fun c => decide (A ∈ c.chain)) = [] := by
      rw [List.filter_eq_nil_iff]
      intro c hc
      simpa using hmore c hc
    simp [List.filter_append, List.filter, h1, h2]
  by_cases hp : post = []
  · refine ⟨s₂, r₂, s₁.circularReferences, [], ?_, hc₂, hbefore, fun _ h => (by cases h), hnil,
      fun _ => rfl, ?_, hr₂, hres₂, hcirc₂⟩
    · rw [hrun, hp]; rfl
    · rw [hc₂]
      exact hfilter _ [] hbefore (fun _ h => (by cases h))
  · obtain ⟨s, hfe, _, hI, hext⟩ :=
      resolve_from hb
        (fun chain s => Settled A s₁.circularReferences s ∧ A ∉ chain)
        (fun chain id s h => ⟨h.1, fun hmem => h.2 (List.mem_append_left _ hmem)⟩)
        (fun chain current raw s _ h => by
          have h2 := prepare_settled lookup A s₁.circularReferences chain current raw s h.2
            h.1
          exact ⟨⟨h2.1, h.2⟩, fun s₁' id target refs' hp' =>
            ⟨by
              have := h2.1
              rw [hp'] at this
              exact this, h2.2 s₁' id target refs' hp'⟩⟩)
        (n + 2) hfuel post s₂ w₂
        ⟨⟨hs₂, [], hc₂, fun _ h => (by cases h)⟩, List.not_mem_nil _⟩
    obtain ⟨more, hmore, hnot⟩ := hI.1.2
    obtain ⟨r, hr', _, hres, hcirc⟩ := hext.references A r₂ hr₂
    refine ⟨s, r, s₁.circularReferences, more, ?_, hmore, hbefore, hnot, hnil,
      fun h => absurd h hp, ?_, hr', hres hres₂, hcirc hcirc₂⟩
    · rw [hrun]; exact hfe
    · rw [hmore]
      exact hfilter _ more hbefore hnot

end Resolver

namespace Resolver

open Index Examples

/-- C20 (as stated, false): not every self-referential reference yields exactly one result
of length one.  Under the closed preset and the default policy: when the target content of
`Node` holds the reference to itself twice, two results are recorded; and when `Node` is
first reached through the schema `Tree`, the one result recorded has the chain `Tree`,
`Node`, of length two. -/
theorem self_reference_not_unconditional :
    (Resolve (fun _ => none) 3
        (Session.start (CreateClosedAPIIndexConfig "/work") false selfTwice [nodeRef])).map
      (fun s => s.circularReferences) =
        some [{ chain := [nodeRef] }, { chain := [nodeRef] }] ∧
    (Resolve (fun _ => none) 3
        (Session.start (CreateClosedAPIIndexConfig "/work") false selfBehind
          ["#/components/schemas/Tree", nodeRef])).map
      (fun s => s.circularReferences.map (fun c => (c.chain, c.chain.length))) =
        some [(["#/components/schemas/Tree", nodeRef], 2)] := by
  constructor <;> decide

end Resolver

namespace Resolver

open Index Examples

/-- C21 (as stated, false): the flag `AllowFileLookup` alone does not decide how a file-based
reference ends.  First, under the closed preset and the strict policy, in a document that
refers to the self-referential schema `Node` and then to `common.yaml#/Pet`, the cycle stops
the resolver before it takes up the file-based reference: the only error recorded is the
`CircularReferenceError`.  Second, with `AllowFileLookup = false`, remote lookups permitted
and the base URL `https://h`, the reference `common.yaml#/Pet` has the identifier of the
reference `https://h/common.yaml#/Pet` held by the schema `Owner`: it ends with
`Resolved = true` and no error.  Third, under the closed preset in the working directory
`#w`, it has the identifier of a fragment of the root document, and ends with
`Resolved = true` and no error.  Fourth, under the open preset with the file present and the
strict policy, the cycle stops the resolver and the file-based reference ends with
`Resolved = false`.  Fifth, with `AllowFileLookup = true`, remote lookups forbidden, the base
URL `https://h` and the file present, it ends with `Resolved = false`, the error recorded
being the `LookupDisallowed` of the remote reference. -/
theorem policy_gating_not_unconditional :
    (Resolve (fun _ => none) 3
        (Session.start (CreateClosedAPIIndexConfig "/work") true selfReferential
          [nodeRef, petRef])).map
      (fun s => (s.errors,
        s.references.map (fun e => (e.2.Definition, e.2.Seen, e.2.Resolved)))) =
        some ([.CircularReferenceError [nodeRef]],
          [(nodeRef, true, true), (petRef, false, false)]) ∧
    (Resolve remoteLoader 3
        (Session.start remoteOnly false ownerByURL ["#/Owner", petRef])).map
      (fun s => (s.errors,
        s.references.map (fun e => (e.2.Definition, e.2.Seen, e.2.Resolved)))) =
        some ([], [("#/Owner", true, true), (petRef, true, true)]) ∧
    (Resolve (fun _ => none) 3
        (Session.start (CreateClosedAPIIndexConfig "#w") false ownerByFragment
          ["#/Owner", petRef])).map
      (fun s => (s.errors,
        s.references.map (fun e => (e.2.Definition, e.2.Seen, e.2.Resolved)))) =
        some ([], [("#/Owner", true, true), (petRef, true, true)]) ∧
    (Resolve commonLoader 3
        (Session.start (CreateOpenAPIIndexConfig "/work") true selfReferential
          [nodeRef, petRef])).map
      (fun s => s.references.map (fun e => (e.2.Definition, e.2.Seen, e.2.Resolved))) =
        some [(nodeRef, true, true), (petRef, false, false)] ∧
    (Resolve remoteLoader 3
        (Session.start fileOnly false ownerByURL ["#/Owner", petRef])).map
      (fun s => (s.errors,
        s.references.map (fun e => (e.2.Definition, e.2.Seen, e.2.Resolved)))) =
        some ([.LookupDisallowed "https://h/common.yaml#/Pet"],
          [("#/Owner", true, true), (petRef, true, false)]) := by
  refine ⟨?_, ?_, ?_, ?_, ?_⟩ <;> decide

end Resolver

namespace Resolver

open Index Examples

/-- Witness of C20 (amended): the document with the schemas `Tree` and `Node` of the
counterexample, its references given in the order `common.yaml#/Pet`, `Node`, `Tree`: the
self-referential `Node` is taken up after the file-based reference, which does not lead to
it, and before `Tree`.  Under the closed preset and the default policy. -/
theorem self_reference_resolves_witness :
    ∃ s r before more,
      Resolve (fun _ => none) 3
        (Session.start (CreateClosedAPIIndexConfig "/work") false selfBehind
          [petRef, nodeRef, "#/components/schemas/Tree"]) = some s ∧
      s.circularReferences = before ++ { chain := [nodeRef] } :: more ∧
      (∀ c ∈ before, nodeRef ∉ c.chain) ∧ (∀ c ∈ more, nodeRef ∉ c.chain) ∧
      ([petRef] = [] → before = []) ∧ (["#/components/schemas/Tree"] = [] → more = []) ∧
      (s.circularReferences.filter (fun c => decide (nodeRef ∈ c.chain))).map
        (fun c => c.chain.length) = [1] ∧
      s.references.get? nodeRef = some r ∧ r.Resolved = true ∧ r.Circular = true :=
  self_reference_resolves (CreateClosedAPIIndexConfig "/work") false (fun _ => none)
    selfBehind nodeSchema nodeRef [petRef, nodeRef, "#/components/schemas/Tree"] [petRef]
    ["#/components/schemas/Tree"] selfBehind.keys 3 (by decide) (by decide) (by decide)
    (bounded_closed _ _ _ rfl rfl) (by decide) (by decide)

theorem bounded_common :
    Bounded (CreateOpenAPIIndexConfig "/work") commonLoader selfReferential
      [nodeRef, "/work/common.yaml#/Pet"] := by
  refine ⟨?_, ?_⟩
  · intro fragment t ht
    simp only [selfReferential, GoMap.get?] at ht
    split at ht
    · rename_i h; rw [← h]; decide
    · cases ht
  · intro _ source document fragment t hl ht
    unfold commonLoader at hl
    split at hl
    · rename_i hs
      injection hl with hl
      subst hl hs
      simp only [commonDocument, GoMap.get?] at ht
      split at ht
      · rename_i h; rw [← h]; decide
      · cases ht
    · cases hl

theorem bounded_remote :
    Bounded remoteOnlyPlain remoteLoader nodeAndOwner
      [nodeRef, "#/Owner", "https://h/common.yaml#/Pet"] := by
  refine ⟨?_, ?_⟩
  · intro fragment t ht
    simp only [nodeAndOwner, GoMap.get?] at ht
    split at ht
    · rename_i h; rw [← h]; decide
    · split at ht
      · rename_i h; rw [← h]; decide
      · cases ht
  · intro _ source document fragment t hl ht
    unfold remoteLoader at hl
    split at hl
    · rename_i hs
      injection hl with hl
      subst hl hs
      simp only [commonDocument, GoMap.get?] at ht
      split at ht
      · rename_i h; rw [← h]; decide
      · cases ht
    · cases hl

/-- Witness of C21 (amended): the document with the self-referential schema `Node` and the
reference `common.yaml#/Pet`, under the closed preset and under the open preset with the file
present; and the document with the schemas `Node` and `Owner`, which refers to `Pet` by its
URL, under a policy that forbids file lookups and permits remote ones, with a plain base
path.  All under the default policy. -/
theorem policy_gating_witness :
    (∃ s, Resolve commonLoader 2
        (Session.start (CreateClosedAPIIndexConfig "/work") false selfReferential
          [nodeRef, petRef]) = some s ∧
      (∀ raw ∈ [nodeRef, petRef], ∃ r,
        s.references.get? (referenceId (CreateClosedAPIIndexConfig "/work") raw) = some r) ∧
      (false = false → s.failed = false) ∧
      (s.failed = false → ∀ id r, s.references.get? id = some r → r.Seen = true) ∧
      ((CreateClosedAPIIndexConfig "/work").AllowFileLookup = false →
        ∀ raw r, (classify raw).classification = .File →
          s.references.get? (referenceId (CreateClosedAPIIndexConfig "/work") raw) = some r →
          r.Resolved = false ∧
            normalize (CreateClosedAPIIndexConfig "/work") (classify raw) ∉ s.lookups ∧
            (r.Seen = true →
              ∃ raw', referenceId (CreateClosedAPIIndexConfig "/work") raw' =
                  referenceId (CreateClosedAPIIndexConfig "/work") raw ∧
                .LookupDisallowed raw' ∈ s.errors)) ∧
      ((CreateClosedAPIIndexConfig "/work").AllowFileLookup = true →
        ∀ raw document t r, (classify raw).classification = .File →
          commonLoader (normalize (CreateClosedAPIIndexConfig "/work") (classify raw)) =
            some document →
          document.get? (classify raw).fragment = some t →
          s.references.get? (referenceId (CreateClosedAPIIndexConfig "/work") raw) = some r →
          r.Seen = true → r.Resolved = true)) ∧
    (∃ s, Resolve commonLoader 3
        (Session.start (CreateOpenAPIIndexConfig "/work") false selfReferential
          [nodeRef, petRef]) = some s ∧
      (∀ raw ∈ [nodeRef, petRef], ∃ r,
        s.references.get? (referenceId (CreateOpenAPIIndexConfig "/work") raw) = some r) ∧
      (false = false → s.failed = false) ∧
      (s.failed = false → ∀ id r, s.references.get? id = some r → r.Seen = true) ∧
      ((CreateOpenAPIIndexConfig "/work").AllowFileLookup = false →
        ∀ raw r, (classify raw).classification = .File →
          s.references.get? (referenceId (CreateOpenAPIIndexConfig "/work") raw) = some r →
          r.Resolved = false ∧
            normalize (CreateOpenAPIIndexConfig "/work") (classify raw) ∉ s.lookups ∧
            (r.Seen = true →
              ∃ raw', referenceId (CreateOpenAPIIndexConfig "/work") raw' =
                  referenceId (CreateOpenAPIIndexConfig "/work") raw ∧
                .LookupDisallowed raw' ∈ s.errors)) ∧
      ((CreateOpenAPIIndexConfig "/work").AllowFileLookup = true →
        ∀ raw document t r, (classify raw).classification = .File →
          commonLoader (normalize (CreateOpenAPIIndexConfig "/work") (classify raw)) =
            some document →
          document.get? (classify raw).fragment = some t →
          s.references.get? (referenceId (CreateOpenAPIIndexConfig "/work") raw) = some r →
          r.Seen = true → r.Resolved = true)) ∧
    (∃ s, Resolve remoteLoader 4
        (Session.start remoteOnlyPlain false nodeAndOwner
          [nodeRef, "#/Owner", petRef]) = some s ∧
      (∀ raw ∈ [nodeRef, "#/Owner", petRef], ∃ r,
        s.references.get? (referenceId remoteOnlyPlain raw) = some r) ∧
      (false = false → s.failed = false) ∧
      (s.failed = false → ∀ id r, s.references.get? id = some r → r.Seen = true) ∧
      (remoteOnlyPlain.AllowFileLookup = false →
        ∀ raw r, (classify raw).classification = .File →
          s.references.get? (referenceId remoteOnlyPlain raw) = some r →
          r.Resolved = false ∧
            normalize remoteOnlyPlain (classify raw) ∉ s.lookups ∧
            (r.Seen = true →
              ∃ raw', referenceId remoteOnlyPlain raw' =
                  referenceId remoteOnlyPlain raw ∧
                .LookupDisallowed raw' ∈ s.errors)) ∧
      (remoteOnlyPlain.AllowFileLookup = true →
        ∀ raw document t r, (classify raw).classification = .File →
          remoteLoader (normalize remoteOnlyPlain (classify raw)) =
            some document →
          document.get? (classify raw).fragment = some t →
          s.references.get? (referenceId remoteOnlyPlain raw) = some r →
          r.Seen = true → r.Resolved = true)) :=
  ⟨policy_gating (CreateClosedAPIIndexConfig "/work") false commonLoader selfReferential
      [nodeRef, petRef] selfReferential.keys 2 (by decide) (Or.inl rfl)
      (bounded_closed _ _ _ rfl rfl) (by decide),
   policy_gating (CreateOpenAPIIndexConfig "/work") false commonLoader selfReferential
      [nodeRef, petRef] [nodeRef, "/work/common.yaml#/Pet"] 3 (by decide) (Or.inl rfl)
      bounded_common (by decide),
   policy_gating remoteOnlyPlain false remoteLoader nodeAndOwner [nodeRef, "#/Owner", petRef]
      [nodeRef, "#/Owner", "https://h/common.yaml#/Pet"] 4 (by decide)
      (Or.inr (distinct_of_noScheme (by decide))) bounded_remote (by decide)⟩

end Resolver
